import Mathlib

/-!
# dogconf: parser and semantic analyzer of the route administration language

A shallow embedding of `dogconf/parser.go`, `dogconf/sem.go` and
`dogconf/sem_types.go`.

Conventions of the embedding:

* a Go function returning `(T, error)` returns a pair `Option T × Option Error`,
  so that "a value and an error" and "neither" are both expressible;
* a Go pointer `*Token` is an `Option Token` (`none` is `nil`); a token carries
  the identity `addr` of the object the scanner allocated for it, and pointer
  comparison compares `addr`;
* a Go `panic` is the outcome `Outcome.panic`; the scanner is threaded through
  explicitly as a state.
-/

namespace Dogconf

/-! ## Tokens and the scanner -/

/-- Token kinds used by the parser (`LBrace`, `RBrace`, `Ident`, `String`, `Int`,
`At`, `Comma`, `Equals`) and the end-of-input kind. -/
inductive TokenType where
  | LBrace
  | RBrace
  | Ident
  | String
  | Int
  | At
  | Comma
  | Equals
  | EOF
  deriving DecidableEq, Repr

/-- Source position of a token. -/
structure Position where
  Line : Nat
  Column : Nat
  deriving DecidableEq, Repr

/-- Token object: kind, literal text and source position.  `addr` is the identity
of the allocated object, which is what a `*Token` compares by. -/
structure Token where
  addr : Nat
  Typ : TokenType
  Lexeme : String
  Pos : Position
  deriving DecidableEq, Repr

/-- Pointer to a token (`*Token`); `none` is `nil`. -/
abbrev TokenPtr := Option Token

/-- Pointer comparison of two `*Token` values. -/
def ptrEq (a b : TokenPtr) : Bool :=
  match a, b with
  | none, none => true
  | some x, some y => x.addr == y.addr
  | _, _ => false

/-- What the lexer finds next in the text: a token, or a lexical error (bad
character, unterminated string literal) with its message. -/
inductive ScanItem where
  | tok (typ : TokenType) (lexeme : String) (pos : Position)
  | bad (msg : String) (pos : Position)
  deriving DecidableEq, Repr

/-- Modelled from the spec: the `Scanner` type (its file is not part of the
sources at hand).  The lexer produces a strictly ordered sequence of tokens plus
an implicit end-of-input token, and a lexical error is fatal for the whole scan.
The state is the part of the input not yet scanned (`input`), the number of
token objects handed out so far (`count`, the identity of the next one) and the
position of the end of input (`eof`). -/
structure Scanner where
  input : List ScanItem
  count : Nat
  eof : Position
  deriving DecidableEq, Repr

/-- Marker type of a failed scan: the positioned error, the scanner's bare
message and the scanner itself. -/
structure ErrScanner where
  Pos : Position
  BaseMessage : String
  Scanner : Scanner
  deriving DecidableEq, Repr

/-- Values a Go `panic` is raised with in this package. -/
inductive Panic where
  | errScanner (e : ErrScanner)
  | runtime (msg : String)
  deriving DecidableEq, Repr

/-- Ways a call can end: it returns, it panics, or the embedding ran out of
loop fuel (which no call does, see `parsePropsLoop_holds`). -/
inductive Outcome (α : Type) where
  | ret (v : α)
  | panic (p : Panic)
  | fuel
  deriving DecidableEq, Repr

/-- Sequencing: continue after a normal return, propagate everything else. -/
def Outcome.bind {α β : Type} (r : Outcome α) (k : α → Outcome β) : Outcome β :=
  match r with
  | .ret v => k v
  | .panic p => .panic p
  | .fuel => .fuel

/-- Error values returned by the parser and the analyzer; each constructor is
one `fmt.Errorf` site, carrying the values formatted into the message. -/
inductive Error where
  | expectedToken (want : TokenType) (got : Token)
  | expectedRoute (got : Token)
  | expectedAction (got : Token)
  | duplicateKey (key : Token)
  | unknownKey (key : Token)
  | scanner (e : ErrScanner)
  | badTarget (blame : TokenPtr)
  deriving DecidableEq, Repr

/-- The handler `ParseRequest` installs as `s.Error`: blow up the entire
scanning process at the very first incident. -/
def scannerError {α : Type} (s : Scanner) (pos : Position) (msg : String) : Outcome α :=
  .panic (.errScanner ⟨pos, msg, s⟩)

/-- Modelled from the spec: `Scanner.Scan`, which consumes and returns the next
token; at the end of the input it returns the end-of-input token, and on a
lexical error it calls the error handler. -/
def Scanner.Scan (s : Scanner) : Outcome (Token × Scanner) :=
  match s.input with
  | [] => .ret (⟨s.count, .EOF, "", s.eof⟩, s)
  | .tok ty lx pos :: rest => .ret (⟨s.count, ty, lx, pos⟩, ⟨rest, s.count + 1, s.eof⟩)
  | .bad msg pos :: rest => scannerError ⟨rest, s.count, s.eof⟩ pos msg

/-- Modelled from the spec: `Scanner.Peek`, which returns the token the next
`Scan` will return, without consuming it. -/
def Scanner.Peek (s : Scanner) : Outcome (Token × Scanner) :=
  match s.input with
  | [] => .ret (⟨s.count, .EOF, "", s.eof⟩, s)
  | .tok ty lx pos :: _ => .ret (⟨s.count, ty, lx, pos⟩, s)
  | .bad msg pos :: rest => scannerError ⟨rest, s.count, s.eof⟩ pos msg

/-- Modelled from the spec: `Scanner.Init` on a reader whose text lexes to
`items` and ends at position `eof`. -/
def Scanner.Init (items : List ScanItem) (eof : Position) : Scanner :=
  ⟨items, 0, eof⟩

/-! ## Syntax tree -/

/-- Target specification nodes built by `parseRouteSpec`. -/
inductive SpecSyntax where
  | TargetAllSpecSyntax (Target : TokenPtr)
  | TargetOneSpecSyntax (What : TokenPtr)
  | TargetOcnSpecSyntax (What : TokenPtr) (Ocn : TokenPtr)
  deriving DecidableEq, Repr

/-- Property map `map[*Token]*Token`: entries in insertion order, keyed by
pointer. -/
abbrev Props := List (TokenPtr × TokenPtr)

/-- Map lookup `_, present := props[key]`. -/
def Props.present (props : Props) (key : TokenPtr) : Bool :=
  props.any fun kv => ptrEq kv.1 key

/-- Map store `props[key] = val`. -/
def Props.set (props : Props) (key val : TokenPtr) : Props :=
  if props.present key then
    props.map fun kv => if ptrEq kv.1 key then (kv.1, val) else kv
  else props ++ [(key, val)]

/-- Action nodes built by `parseAction`. -/
inductive ActionSyntax where
  | PatchActionSyntax (Blamer : TokenPtr) (PatchProps : Option Props)
  | CreateActionSyntax (Blamer : TokenPtr) (CreateProps : Option Props)
  | GetActionSyntax (Blamer : TokenPtr) (GetToken : TokenPtr)
  | DeleteActionSyntax (Blamer : TokenPtr) (DeleteToken : TokenPtr)
  deriving DecidableEq, Repr

/-- Root of the syntax tree; both fields are interface values, `none` is `nil`. -/
structure RequestSyntax where
  Spec : Option SpecSyntax
  Action : Option ActionSyntax
  deriving DecidableEq, Repr

/-! ## Parser (`parser.go`) -/

/-- Scan one token and require it to be of kind `tokTyp`. -/
def expect (s : Scanner) (tokTyp : TokenType) : Outcome ((TokenPtr × Option Error) × Scanner) :=
  s.Scan.bind fun r =>
    if r.1.Typ ≠ tokTyp then .ret ((none, some (.expectedToken tokTyp r.1)), r.2)
    else .ret ((some r.1, none), r.2)

/-- Ways the body of the `for` loop of `parseProps` leaves the loop: the loop
condition fails (`done`), or the function returns from inside the loop. -/
inductive LoopExit where
  | done (props : Props)
  | returned (v : Option Props × Option Error)
  deriving DecidableEq, Repr

/-- The `for tok := s.Peek(); tok.Type != RBrace; tok = s.Peek()` loop of
`parseProps`, with the local variables `props` and `allowComma` as arguments. -/
def parsePropsLoop : Nat → Scanner → Props → Bool → Outcome (LoopExit × Scanner)
  | 0, _, _, _ => .fuel
  | fuel + 1, s, props, allowComma =>
    s.Peek.bind fun pk =>
    let tok := pk.1
    let s := pk.2
    if tok.Typ = .RBrace then .ret (.done props, s)
    else
      (if allowComma && tok.Typ == .Comma then
        (expect s .Comma).bind fun r =>
          match r.1.2 with
          | some err => .ret (some (none, some err), r.2)
          | none => .ret (none, r.2)
      else .ret (none, s) : Outcome (Option (Option Props × Option Error) × Scanner)).bind fun c =>
      match c.1 with
      | some v => .ret (.returned v, c.2)
      | none =>
      (expect c.2 .Ident).bind fun k =>
      match k.1.2 with
      | some err => .ret (.returned (none, some err), k.2)
      | none =>
      (expect k.2 .Equals).bind fun e =>
      match e.1.2 with
      | some err => .ret (.returned (none, some err), e.2)
      | none =>
      (expect e.2 .String).bind fun v =>
      match v.1.2 with
      | some err => .ret (.returned (none, some err), v.2)
      | none =>
      match k.1.1 with
      | none => .panic (.runtime "nil pointer dereference")
      | some keyTok =>
        if keyTok.Lexeme = "addr" ∨ keyTok.Lexeme = "lock" ∨ keyTok.Lexeme = "dbnameIn"
            ∨ keyTok.Lexeme = "dbnameRewritten" then
          if ¬ props.present (some keyTok) then
            parsePropsLoop fuel v.2 (props.set (some keyTok) v.1.1) true
          else .ret (.returned (none, some (.duplicateKey keyTok)), v.2)
        else .ret (.returned (none, some (.unknownKey keyTok)), v.2)

/-- Parses a series of tokens like `[ ident = 'lit', ident2 = 'lit2' ]`,
producing a token-to-token mapping. -/
def parseProps (s : Scanner) : Outcome ((Option Props × Option Error) × Scanner) :=
  (expect s .LBrace).bind fun r =>
  match r.1.2 with
  | some err => .ret ((none, some err), r.2)
  | none =>
  (parsePropsLoop (r.2.input.length + 1) r.2 [] false).bind fun l =>
  match l.1 with
  | .returned v => .ret (v, l.2)
  | .done props =>
  (expect l.2 .RBrace).bind fun c =>
  match c.1.2 with
  | some err => .ret ((none, some err), c.2)
  | none => .ret ((some props, none), c.2)

/-- Either the identifier `all` or a quoted route identifier, optionally with
an ocn. -/
def parseRouteSpec (s : Scanner) : Outcome ((Option SpecSyntax × Option Error) × Scanner) :=
  s.Peek.bind fun pk =>
  let tok := pk.1
  let s := pk.2
  if tok.Typ = .Ident ∧ tok.Lexeme = "all" then
    (expect s .Ident).bind fun r =>
    match r.1.2 with
    | some err => .ret ((none, some err), r.2)
    | none => .ret ((some (.TargetAllSpecSyntax (some tok)), none), r.2)
  else
    (expect s .String).bind fun w =>
    match w.1.2 with
    | some err => .ret ((none, some err), w.2)
    | none =>
    let what := w.1.1
    w.2.Peek.bind fun pk2 =>
    if pk2.1.Typ = .At then
      (expect pk2.2 .At).bind fun a =>
      match a.1.2 with
      | some err => .ret ((none, some err), a.2)
      | none =>
      (expect a.2 .Int).bind fun n =>
      match n.1.2 with
      | some err => .ret ((none, some err), n.2)
      | none => .ret ((some (.TargetOcnSpecSyntax what n.1.1), none), n.2)
    else .ret ((some (.TargetOneSpecSyntax what), none), pk2.2)

/-- The code at label `out` of `parseAction`: the closing bracket of the
action. -/
def parseAction.out (a : Option ActionSyntax) (s : Scanner) :
    Outcome ((Option ActionSyntax × Option Error) × Scanner) :=
  (expect s .RBrace).bind fun r =>
  match r.1.2 with
  | some err => .ret ((none, some err), r.2)
  | none => .ret ((a, none), r.2)

/-- One bracketed action: `[get]`, `[delete]`, `[patch [...]]`, `[create [...]]`. -/
def parseAction (s : Scanner) : Outcome ((Option ActionSyntax × Option Error) × Scanner) :=
  (expect s .LBrace).bind fun r =>
  match r.1.2 with
  | some err => .ret ((none, some err), r.2)
  | none =>
  (expect r.2 .Ident).bind fun t =>
  match t.1.2 with
  | some err => .ret ((none, some err), t.2)
  | none =>
  match t.1.1 with
  | none => .panic (.runtime "nil pointer dereference")
  | some tok =>
    if tok.Lexeme = "patch" then
      (parseProps t.2).bind fun p =>
      match p.1.2 with
      | some err => .ret ((none, some err), p.2)
      | none => parseAction.out (some (.PatchActionSyntax (some tok) p.1.1)) p.2
    else if tok.Lexeme = "create" then
      (parseProps t.2).bind fun p =>
      match p.1.2 with
      | some err => .ret ((none, some err), p.2)
      | none => parseAction.out (some (.CreateActionSyntax (some tok) p.1.1)) p.2
    else if tok.Lexeme = "get" then
      parseAction.out (some (.GetActionSyntax (some tok) (some tok))) t.2
    else if tok.Lexeme = "delete" then
      parseAction.out (some (.DeleteActionSyntax (some tok) (some tok))) t.2
    else .ret ((none, some (.expectedAction tok)), t.2)

/-- One request: `[ route <route-spec> <action> ]`. -/
def parseRequest (s : Scanner) : Outcome ((Option RequestSyntax × Option Error) × Scanner) :=
  (expect s .LBrace).bind fun r =>
  match r.1.2 with
  | some err => .ret ((none, some err), r.2)
  | none =>
  (expect r.2 .Ident).bind fun t =>
  match t.1.2 with
  | some err => .ret ((none, some err), t.2)
  | none =>
  match t.1.1 with
  | none => .panic (.runtime "nil pointer dereference")
  | some tok =>
    if tok.Lexeme ≠ "route" then .ret ((none, some (.expectedRoute tok)), t.2)
    else
      (parseRouteSpec t.2).bind fun sp =>
      match sp.1.2 with
      | some err => .ret ((none, some err), sp.2)
      | none =>
      (parseAction sp.2).bind fun ac =>
      match ac.1.2 with
      | some err => .ret ((none, some err), ac.2)
      | none =>
      (expect ac.2 .RBrace).bind fun c =>
      match c.1.2 with
      | some err => .ret ((none, some err), c.2)
      | none => .ret ((some ⟨sp.1.1, ac.1.1⟩, none), c.2)

/-- Entry point: scan and parse one request, converting only `ErrScanner`
panics into regular return values. -/
def ParseRequest (items : List ScanItem) (eof : Position) :
    Outcome (Option RequestSyntax × Option Error) :=
  match parseRequest (Scanner.Init items eof) with
  | .ret v => .ret v.1
  | .panic (.errScanner e) => .ret (none, some (.scanner e))
  | .panic x => .panic x
  | .fuel => .fuel

/-! ## Semantic analyzer (`sem.go`, `sem_types.go`) -/

/-- Targets a specific record, regardless of OCN. -/
structure TargetOne where
  Blamer : TokenPtr
  What : String
  deriving DecidableEq, Repr

/-- The most specific target: a specific thing at a specific version. -/
structure TargetOcn where
  Blamer : TokenPtr
  TargetOne : TargetOne
  Ocn : Nat
  deriving DecidableEq, Repr

/-- Union of types that describe a kind of target for an action. -/
inductive Target where
  | TargetAll (Target : TokenPtr)
  | TargetOne (t : TargetOne)
  | TargetOcn (t : TargetOcn)
  deriving DecidableEq, Repr

/-- Attribute map `map[*Token]Token` of a patch or create directive. -/
abbrev Attrs := List (TokenPtr × Token)

/-- Toplevel emission from semantic analysis: a single semantically analyzed
action. -/
inductive Directive where
  | PatchDirective (Blamer : TokenPtr) (TargetOcn : TargetOcn) (Attrs : Attrs)
  | CreateDirective (TargetOne : TargetOne) (Attrs : Attrs)
  | DeleteDirective (Target : Option Target)
  | GetDirective (Target : Option Target)
  deriving DecidableEq, Repr

/-- The type switch of `Analyze` over `req.Action`. -/
def Analyze (req : Option RequestSyntax) : Outcome (Option Directive × Option Error) :=
  match req with
  | none => .panic (.runtime "nil pointer dereference")
  | some r =>
    match r.Action with
    | some (.PatchActionSyntax _ _) => .ret (none, none)
    | some (.CreateActionSyntax _ _) => .ret (none, none)
    | some (.GetActionSyntax _ _) => .ret (none, none)
    | some (.DeleteActionSyntax _ _) => .ret (none, none)
    | none => .panic (.runtime "Attempting to semantically analyze un-enumerated action type")

/-! ## The grammar of the specification

The second description of the language: the EBNF grammar
```
request    = '[' 'route' route-spec action ']'
route-spec = 'all' | target
target     = string [ '@' integer ]
action     = '[' ('get'|'delete') ']'
           | '[' ('patch'|'create') '[' prop-list ']' ']'
prop-list  = prop (',' prop)*
prop       = ident '=' string
```
as derivation trees and the terminal strings they derive.  It is compared with
the parser above. -/

namespace Grammar

/-- A terminal symbol occurrence: token kind and text. -/
abbrev Terminal := TokenType × String

/-- Derivations of `route-spec`. -/
inductive RouteSpec where
  | all
  | one (name : String)
  | ocn (name : String) (version : String)
  deriving DecidableEq, Repr

/-- Derivation of `prop`: `ident '=' string`. -/
structure Property where
  key : String
  val : String
  deriving DecidableEq, Repr

/-- Derivations of `action`; a `prop-list` is a first `prop` and the props that
follow it, each behind a comma. -/
inductive Action where
  | get
  | delete
  | patch (p : Property) (ps : List Property)
  | create (p : Property) (ps : List Property)
  deriving DecidableEq, Repr

/-- Derivation of `request`. -/
structure Request where
  spec : RouteSpec
  action : Action
  deriving DecidableEq, Repr

/-- Terminals of a list of props; `comma` tells whether the first of them is
behind a comma. -/
def propsTerminals : Bool → List Property → List Terminal
  | _, [] => []
  | comma, p :: ps =>
    (if comma then [(TokenType.Comma, ",")] else [])
      ++ [(.Ident, p.key), (.Equals, "="), (.String, p.val)] ++ propsTerminals true ps

/-- Terminals derived by `route-spec`. -/
def RouteSpec.terminals : RouteSpec → List Terminal
  | .all => [(.Ident, "all")]
  | .one name => [(.String, name)]
  | .ocn name version => [(.String, name), (.At, "@"), (.Int, version)]

/-- Terminals derived by `action`. -/
def Action.terminals : Action → List Terminal
  | .get => [(.LBrace, "["), (.Ident, "get"), (.RBrace, "]")]
  | .delete => [(.LBrace, "["), (.Ident, "delete"), (.RBrace, "]")]
  | .patch p ps =>
    [(.LBrace, "["), (.Ident, "patch"), (.LBrace, "[")] ++ propsTerminals false (p :: ps)
      ++ [(.RBrace, "]"), (.RBrace, "]")]
  | .create p ps =>
    [(.LBrace, "["), (.Ident, "create"), (.LBrace, "[")] ++ propsTerminals false (p :: ps)
      ++ [(.RBrace, "]"), (.RBrace, "]")]

/-- Terminals derived by `request`. -/
def Request.terminals (r : Request) : List Terminal :=
  [(.LBrace, "["), (.Ident, "route")] ++ r.spec.terminals ++ r.action.terminals
    ++ [(.RBrace, "]")]

/-- The scanner input for a terminal string: the terminal at index `n + i` of
the text is at position `pos (n + i)`. -/
def items (pos : Nat → Position) : Nat → List Terminal → List ScanItem
  | _, [] => []
  | n, t :: ts => .tok t.1 t.2 (pos n) :: items pos (n + 1) ts

/-- The key set of the property lists. -/
def allowedKey (k : String) : Bool :=
  k = "addr" ∨ k = "lock" ∨ k = "dbnameIn" ∨ k = "dbnameRewritten"

/-- Props of a derivation. -/
def Action.props : Action → List Property
  | .get => []
  | .delete => []
  | .patch p ps => p :: ps
  | .create p ps => p :: ps

/-- The token object the scanner allocates for the terminal at index `i`. -/
def token (pos : Nat → Position) (i : Nat) (typ : TokenType) (lexeme : String) : TokenPtr :=
  some ⟨i, typ, lexeme, pos i⟩

/-- The property map of a list of props whose terminals start at index `i`:
each key token mapped to its value token. -/
def propsAst (pos : Nat → Position) : Nat → Bool → List Property → Props
  | _, _, [] => []
  | i, comma, p :: ps =>
    let k := if comma then i + 1 else i
    (token pos k .Ident p.key, token pos (k + 2) .String p.val) :: propsAst pos (k + 3) true ps

/-- The node of a `route-spec` derivation; its terminals start at index 2. -/
def RouteSpec.ast (pos : Nat → Position) : RouteSpec → SpecSyntax
  | .all => .TargetAllSpecSyntax (token pos 2 .Ident "all")
  | .one name => .TargetOneSpecSyntax (token pos 2 .String name)
  | .ocn name version =>
    .TargetOcnSpecSyntax (token pos 2 .String name) (token pos 4 .Int version)

/-- The node of an `action` derivation whose terminals start at index `i`. -/
def Action.ast (pos : Nat → Position) (i : Nat) : Action → ActionSyntax
  | .get => .GetActionSyntax (token pos (i + 1) .Ident "get") (token pos (i + 1) .Ident "get")
  | .delete =>
    .DeleteActionSyntax (token pos (i + 1) .Ident "delete") (token pos (i + 1) .Ident "delete")
  | .patch p ps =>
    .PatchActionSyntax (token pos (i + 1) .Ident "patch")
      (some (propsAst pos (i + 3) false (p :: ps)))
  | .create p ps =>
    .CreateActionSyntax (token pos (i + 1) .Ident "create")
      (some (propsAst pos (i + 3) false (p :: ps)))

/-- The syntax tree of a `request` derivation. -/
def Request.ast (pos : Nat → Position) (r : Request) : RequestSyntax :=
  ⟨some (r.spec.ast pos), some (r.action.ast pos (2 + r.spec.terminals.length))⟩

end Grammar

/-! ## Inputs of the regression tests, as the scanner sees them -/

namespace Fixture

/-- The text `[route all [delete]]` of `TestSemDeleteAll`. -/
def deleteAll : List ScanItem :=
  [.tok .LBrace "[" ⟨1, 1⟩, .tok .Ident "route" ⟨1, 2⟩, .tok .Ident "all" ⟨1, 8⟩,
   .tok .LBrace "[" ⟨1, 12⟩, .tok .Ident "delete" ⟨1, 13⟩, .tok .RBrace "]" ⟨1, 19⟩,
   .tok .RBrace "]" ⟨1, 20⟩]

/-- The text `[route 'bar' @ 137 [get]]` of `TestSemGetOcnRoute`. -/
def getOcnRoute : List ScanItem :=
  [.tok .LBrace "[" ⟨1, 1⟩, .tok .Ident "route" ⟨1, 2⟩, .tok .String "'bar'" ⟨1, 8⟩,
   .tok .At "@" ⟨1, 14⟩, .tok .Int "137" ⟨1, 16⟩, .tok .LBrace "[" ⟨1, 20⟩,
   .tok .Ident "get" ⟨1, 21⟩, .tok .RBrace "]" ⟨1, 24⟩, .tok .RBrace "]" ⟨1, 25⟩]

/-- The text `[route 'bar' [patch [lock='t']]]`: a patch without an OCN-augmented
target. -/
def patchNoOcn : List ScanItem :=
  [.tok .LBrace "[" ⟨1, 1⟩, .tok .Ident "route" ⟨1, 2⟩, .tok .String "'bar'" ⟨1, 8⟩,
   .tok .LBrace "[" ⟨1, 14⟩, .tok .Ident "patch" ⟨1, 15⟩, .tok .LBrace "[" ⟨1, 21⟩,
   .tok .Ident "lock" ⟨1, 22⟩, .tok .Equals "=" ⟨1, 26⟩, .tok .String "'t'" ⟨1, 27⟩,
   .tok .RBrace "]" ⟨1, 30⟩, .tok .RBrace "]" ⟨1, 31⟩, .tok .RBrace "]" ⟨1, 32⟩]

/-- The text `[route 'x' [create [addr='a', addr='b']]]`: the key `addr` twice. -/
def createDuplicate : List ScanItem :=
  [.tok .LBrace "[" ⟨1, 1⟩, .tok .Ident "route" ⟨1, 2⟩, .tok .String "'x'" ⟨1, 8⟩,
   .tok .LBrace "[" ⟨1, 12⟩, .tok .Ident "create" ⟨1, 13⟩, .tok .LBrace "[" ⟨1, 20⟩,
   .tok .Ident "addr" ⟨1, 21⟩, .tok .Equals "=" ⟨1, 25⟩, .tok .String "'a'" ⟨1, 26⟩,
   .tok .Comma "," ⟨1, 29⟩,
   .tok .Ident "addr" ⟨1, 31⟩, .tok .Equals "=" ⟨1, 35⟩, .tok .String "'b'" ⟨1, 36⟩,
   .tok .RBrace "]" ⟨1, 39⟩, .tok .RBrace "]" ⟨1, 40⟩, .tok .RBrace "]" ⟨1, 41⟩]

/-- The text `[route 'x' @ 1 [patch [addr='a', addr='b']]]`: the key `addr` twice. -/
def patchDuplicate : List ScanItem :=
  [.tok .LBrace "[" ⟨1, 1⟩, .tok .Ident "route" ⟨1, 2⟩, .tok .String "'x'" ⟨1, 8⟩,
   .tok .At "@" ⟨1, 12⟩, .tok .Int "1" ⟨1, 14⟩,
   .tok .LBrace "[" ⟨1, 16⟩, .tok .Ident "patch" ⟨1, 17⟩, .tok .LBrace "[" ⟨1, 23⟩,
   .tok .Ident "addr" ⟨1, 24⟩, .tok .Equals "=" ⟨1, 28⟩, .tok .String "'a'" ⟨1, 29⟩,
   .tok .Comma "," ⟨1, 32⟩,
   .tok .Ident "addr" ⟨1, 34⟩, .tok .Equals "=" ⟨1, 38⟩, .tok .String "'b'" ⟨1, 39⟩,
   .tok .RBrace "]" ⟨1, 42⟩, .tok .RBrace "]" ⟨1, 43⟩, .tok .RBrace "]" ⟨1, 44⟩]

/-- The text `[route all [get]] all`: a complete request and one more token. -/
def getAllTrailing : List ScanItem :=
  [.tok .LBrace "[" ⟨1, 1⟩, .tok .Ident "route" ⟨1, 2⟩, .tok .Ident "all" ⟨1, 8⟩,
   .tok .LBrace "[" ⟨1, 12⟩, .tok .Ident "get" ⟨1, 13⟩, .tok .RBrace "]" ⟨1, 16⟩,
   .tok .RBrace "]" ⟨1, 17⟩, .tok .Ident "all" ⟨1, 19⟩]

/-- The text `[route 'bar @ 137 [delete]` of `TestUnterminated`: the string
literal is not terminated. -/
def unterminatedString : List ScanItem :=
  [.tok .LBrace "[" ⟨1, 1⟩, .tok .Ident "route" ⟨1, 2⟩,
   .bad "literal not terminated" ⟨1, 8⟩]

end Fixture

/-! ## Syntax trees and derivations of the fixtures -/

/-- The tree of `[route all [delete]]`. -/
def Fixture.deleteAllAst : RequestSyntax :=
  ⟨some (.TargetAllSpecSyntax (some ⟨2, .Ident, "all", ⟨1, 8⟩⟩)),
   some (.DeleteActionSyntax (some ⟨4, .Ident, "delete", ⟨1, 13⟩⟩)
    (some ⟨4, .Ident, "delete", ⟨1, 13⟩⟩))⟩

/-- The tree of `[route 'bar' @ 137 [get]]`. -/
def Fixture.getOcnRouteAst : RequestSyntax :=
  ⟨some (.TargetOcnSpecSyntax (some ⟨2, .String, "'bar'", ⟨1, 8⟩⟩)
    (some ⟨4, .Int, "137", ⟨1, 16⟩⟩)),
   some (.GetActionSyntax (some ⟨6, .Ident, "get", ⟨1, 21⟩⟩)
    (some ⟨6, .Ident, "get", ⟨1, 21⟩⟩))⟩

/-- The tree of `[route 'bar' [patch [lock='t']]]`. -/
def Fixture.patchNoOcnAst : RequestSyntax :=
  ⟨some (.TargetOneSpecSyntax (some ⟨2, .String, "'bar'", ⟨1, 8⟩⟩)),
   some (.PatchActionSyntax (some ⟨4, .Ident, "patch", ⟨1, 15⟩⟩)
    (some [(some ⟨6, .Ident, "lock", ⟨1, 22⟩⟩, some ⟨8, .String, "'t'", ⟨1, 27⟩⟩)]))⟩

/-- The request `[route '!xp' @ 5 [patch [dbnameIn='x'',"',lock='true']]]` of
`TestQuoting`, as a derivation of the grammar. -/
def Fixture.quoting : Grammar.Request :=
  ⟨.ocn "'!xp'" "5", .patch ⟨"dbnameIn", "'x'',\"'"⟩ [⟨"lock", "'true'"⟩]⟩

/-- The request `[route 'x' [create [addr='a', user='foo']]]`, with the key
`user` of the example in the header of `parser.go`. -/
def Fixture.unknownKey : Grammar.Request :=
  ⟨.one "'x'", .create ⟨"addr", "'a'"⟩ [⟨"user", "'foo'"⟩]⟩

/-- Positions of a text written on one line, one column per terminal. -/
def Fixture.linePos : Nat → Position := fun i => ⟨1, i + 1⟩

/-- The tree of `[route all [get]]`. -/
def Fixture.getAllAst : RequestSyntax :=
  ⟨some (.TargetAllSpecSyntax (some ⟨2, .Ident, "all", ⟨1, 8⟩⟩)),
   some (.GetActionSyntax (some ⟨4, .Ident, "get", ⟨1, 13⟩⟩)
    (some ⟨4, .Ident, "get", ⟨1, 13⟩⟩))⟩

/-- The text `[route 'bar' @ 137 [delete]]`, whose prefixes `TestUnterminated`
parses. -/
def Fixture.deleteOcn : List ScanItem :=
  [.tok .LBrace "[" ⟨1, 1⟩, .tok .Ident "route" ⟨1, 2⟩, .tok .String "'bar'" ⟨1, 8⟩,
   .tok .At "@" ⟨1, 14⟩, .tok .Int "137" ⟨1, 16⟩, .tok .LBrace "[" ⟨1, 20⟩,
   .tok .Ident "delete" ⟨1, 21⟩, .tok .RBrace "]" ⟨1, 27⟩, .tok .RBrace "]" ⟨1, 28⟩]

/-- The tree of `[route 'bar' @ 137 [delete]]`. -/
def Fixture.deleteOcnAst : RequestSyntax :=
  ⟨some (.TargetOcnSpecSyntax (some ⟨2, .String, "'bar'", ⟨1, 8⟩⟩)
    (some ⟨4, .Int, "137", ⟨1, 16⟩⟩)),
   some (.DeleteActionSyntax (some ⟨6, .Ident, "delete", ⟨1, 21⟩⟩)
    (some ⟨6, .Ident, "delete", ⟨1, 21⟩⟩))⟩

/-! ## Specification vocabulary for runs of the parser -/

/-- Whether an item of the input is a token (not a lexical error). -/
def ScanItem.isTok : ScanItem → Bool
  | .tok _ _ _ => true
  | .bad _ _ => false

/-- The scanner `t` is the scanner `s` after it has handed out some tokens:
the input of `s` is a run of tokens followed by the input of `t`, and `t` has
counted them. -/
def Scanner.Advances (s t : Scanner) : Prop :=
  ∃ pre : List ScanItem, (∀ x ∈ pre, x.isTok = true) ∧ s.input = pre ++ t.input
    ∧ t.count = s.count + pre.length ∧ t.eof = s.eof

/-- The error `e` is the report of the first lexical error in the input of `s`:
the input of `s` is a run of tokens, the bad item with the message and position
of `e`, and the input that the scanner of `e` has not scanned. -/
def Scanner.FailsWith (s : Scanner) (e : ErrScanner) : Prop :=
  ∃ (pre : List ScanItem) (msg : String) (pos : Position) (post : List ScanItem),
    (∀ x ∈ pre, x.isTok = true) ∧ s.input = pre ++ .bad msg pos :: post
      ∧ e = ⟨pos, msg, ⟨post, s.count + pre.length, s.eof⟩⟩

/-- A call started on scanner `s` ends well: it returns a value satisfying `Q`
on a scanner that `s` advances to, or it panics with the report of the first
lexical error of the input; it raises no other panic and does not run out of
fuel. -/
def Holds {α : Type} (s : Scanner) (Q : α → Scanner → Prop) : Outcome (α × Scanner) → Prop
  | .ret v => s.Advances v.2 ∧ Q v.1 v.2
  | .panic (.errScanner e) => s.FailsWith e
  | .panic (.runtime _) => False
  | .fuel => False

/-- A returned pair is a value with a nil error satisfying `P`, or a nil value
with an error. -/
def Verdict {α : Type} (P : α → Prop) (v : Option α × Option Error) : Prop :=
  (∃ a, v = (some a, none) ∧ P a) ∨ (∃ e, v = (none, some e))

/-- An entry of a property map has a key token with an allowed lexeme. -/
def KeyOK (kv : TokenPtr × TokenPtr) : Prop :=
  ∃ k : Token, kv.1 = some k ∧ Grammar.allowedKey k.Lexeme = true

/-- The property map of an action node, if it has one. -/
def ActionSyntax.props : ActionSyntax → Option Props
  | .PatchActionSyntax _ props => props
  | .CreateActionSyntax _ props => props
  | .GetActionSyntax _ _ => none
  | .DeleteActionSyntax _ _ => none

/-- All keys of the property map of an action node are allowed. -/
def ActionSyntax.KeysOK (a : ActionSyntax) : Prop :=
  ∀ props, a.props = some props → ∀ kv ∈ props, KeyOK kv

/-- The loop of `parseProps` is left well: with a property map all of whose keys
are allowed, or by returning a nil map with an error. -/
def LoopExit.Ok : LoopExit → Prop
  | .done props => ∀ kv ∈ props, KeyOK kv
  | .returned v => ∃ e, v = (none, some e)

/-- The scanner `s` on a longer text: the items `ext` follow the input of `s`,
and the text ends at `eof`. -/
def Scanner.extend (s : Scanner) (ext : List ScanItem) (eof : Position) : Scanner :=
  ⟨s.input ++ ext, s.count, eof⟩

end Dogconf

/-! ## Functions of the Go standard library used by the sources -/

namespace Go

/-- The quote character of string literals. -/
def quote : Char := Char.ofNat 39

/-- Search of `strings.Contains`: whether `sub` starts at some position of the
characters `cs`. -/
def strings.containsFrom (sub : List Char) : List Char → Bool
  | [] => sub.isPrefixOf []
  | c :: cs => sub.isPrefixOf (c :: cs) || strings.containsFrom sub cs

/-- The function `strings.Contains(s, substr)`: whether `substr` is within `s`. -/
def strings.Contains (s substr : String) : Bool :=
  strings.containsFrom substr.data s.data

/-- Scan of `strings.Replace(s, old, new, -1)` for a non-empty `old`: occurrences
of `old` are replaced from left to right without overlap.  `skip` is the number
of characters of the occurrence just replaced that are still to be passed
over. -/
def strings.replaceFrom (old new : List Char) : Nat → List Char → List Char
  | _, [] => []
  | skip + 1, _ :: cs => strings.replaceFrom old new skip cs
  | 0, c :: cs =>
    if old.isPrefixOf (c :: cs) then new ++ strings.replaceFrom old new (old.length - 1) cs
    else c :: strings.replaceFrom old new 0 cs

/-- The function `strings.Replace(s, old, new, -1)`: all non-overlapping
occurrences of `old` replaced by `new`; an empty `old` matches at the beginning
of the string and after each character. -/
def strings.ReplaceAll (s old new : String) : String :=
  if old.data = [] then ⟨new.data ++ (s.data.map fun c => c :: new.data).flatten⟩
  else ⟨strings.replaceFrom old.data new.data 0 s.data⟩

/-- The slice expression `s[i:j]` on the characters of a string. -/
def slice (s : String) (i j : Nat) : String :=
  ⟨(s.data.take j).drop i⟩

end Go

namespace Dogconf

/-! ## String literals (`parser.go`) -/

/-- Strip the quotes surrounding the string `str` and replace any escaped quotes
by their actual values.  The quote is one byte that occurs in no longer
character, so indexing the characters of the lexeme agrees with indexing its
bytes in the three places the function does it. -/
def stripStr (str : String) : Outcome String :=
  let l := str.length
  if l < 2 ∨ str.data[0]? ≠ some Go.quote ∨ str.data[l - 1]? ≠ some Go.quote then
    .panic (.runtime ("Malformed string lexeme: " ++ str))
  else .ret (Go.strings.ReplaceAll (Go.slice str 1 (str.length - 1)) "''" "'")

/-- The lexeme of the string literal that denotes `s`: every quote character of
`s` doubled, and the result wrapped in single quotes. -/
def Grammar.literal (s : String) : String :=
  ⟨Go.quote :: ((s.data.map fun c => if c = Go.quote then [Go.quote, Go.quote] else [c]).flatten
    ++ [Go.quote])⟩

/-! ## The statements of `parseRouteSpec` and `parseAction`, one by one

The two functions end in a `panic` statement behind statements that always
return or jump.  Here each statement is a function of its own that tells how it
completes, and the function bodies are their sequence, the `panic` statements
included. -/

/-- Ways a statement of `parseRouteSpec` completes: control falls through to the
next statement, or the function returns. -/
inductive Completion where
  | falls (s : Scanner)
  | returns (v : Option SpecSyntax × Option Error) (s : Scanner)
  deriving DecidableEq, Repr

/-- The statement `if tok := s.Peek(); tok.Type == Ident && tok.Lexeme == "all"
{ ... }` of `parseRouteSpec`. -/
def parseRouteSpec.allStmt (s : Scanner) : Outcome Completion :=
  s.Peek.bind fun pk =>
  if pk.1.Typ = .Ident ∧ pk.1.Lexeme = "all" then
    (expect pk.2 .Ident).bind fun r =>
    match r.1.2 with
    | some err => .ret (.returns (none, some err) r.2)
    | none => .ret (.returns (some (.TargetAllSpecSyntax (some pk.1)), none) r.2)
  else .ret (.falls pk.2)

/-- The statement `if tok := s.Peek(); tok.Type == At { ... } else { ... }` of
`parseRouteSpec`. -/
def parseRouteSpec.ocnStmt (what : TokenPtr) (s : Scanner) : Outcome Completion :=
  s.Peek.bind fun pk =>
  if pk.1.Typ = .At then
    (expect pk.2 .At).bind fun a =>
    match a.1.2 with
    | some err => .ret (.returns (none, some err) a.2)
    | none =>
    (expect a.2 .Int).bind fun n =>
    match n.1.2 with
    | some err => .ret (.returns (none, some err) n.2)
    | none => .ret (.returns (some (.TargetOcnSpecSyntax what n.1.1), none) n.2)
  else .ret (.returns (some (.TargetOneSpecSyntax what), none) pk.2)

/-- The body of `parseRouteSpec` statement by statement, down to its last
statement `panic("Uncovered conditions")`. -/
def parseRouteSpec.body (s : Scanner) : Outcome ((Option SpecSyntax × Option Error) × Scanner) :=
  (parseRouteSpec.allStmt s).bind fun c =>
  match c with
  | .returns v t => .ret (v, t)
  | .falls t =>
    (expect t .String).bind fun w =>
    match w.1.2 with
    | some err => .ret ((none, some err), w.2)
    | none =>
    (parseRouteSpec.ocnStmt w.1.1 w.2).bind fun c2 =>
    match c2 with
    | .returns v u => .ret (v, u)
    | .falls _ => .panic (.runtime "Uncovered conditions")

/-- Ways the `switch` statement of `parseAction` completes: control falls
through to the next statement, the function returns, or control jumps to the
label `out` with the action node in `a`. -/
inductive SwitchExit where
  | falls (s : Scanner)
  | returns (v : Option ActionSyntax × Option Error) (s : Scanner)
  | gotoOut (a : Option ActionSyntax) (s : Scanner)
  deriving DecidableEq, Repr

/-- The statement `switch tok.Lexeme { ... }` of `parseAction`. -/
def parseAction.switchStmt (tok : Token) (s : Scanner) : Outcome SwitchExit :=
  if tok.Lexeme = "patch" then
    (parseProps s).bind fun p =>
    match p.1.2 with
    | some err => .ret (.returns (none, some err) p.2)
    | none => .ret (.gotoOut (some (.PatchActionSyntax (some tok) p.1.1)) p.2)
  else if tok.Lexeme = "create" then
    (parseProps s).bind fun p =>
    match p.1.2 with
    | some err => .ret (.returns (none, some err) p.2)
    | none => .ret (.gotoOut (some (.CreateActionSyntax (some tok) p.1.1)) p.2)
  else if tok.Lexeme = "get" then
    .ret (.gotoOut (some (.GetActionSyntax (some tok) (some tok))) s)
  else if tok.Lexeme = "delete" then
    .ret (.gotoOut (some (.DeleteActionSyntax (some tok) (some tok))) s)
  else .ret (.returns (none, some (.expectedAction tok)) s)

/-- The body of `parseAction` statement by statement, with the statement
`panic("Switch does not cover all cases when it should")` between the `switch`
and the label `out`. -/
def parseAction.body (s : Scanner) : Outcome ((Option ActionSyntax × Option Error) × Scanner) :=
  (expect s .LBrace).bind fun r =>
  match r.1.2 with
  | some err => .ret ((none, some err), r.2)
  | none =>
  (expect r.2 .Ident).bind fun t =>
  match t.1.2 with
  | some err => .ret ((none, some err), t.2)
  | none =>
  match t.1.1 with
  | none => .panic (.runtime "nil pointer dereference")
  | some tok =>
    (parseAction.switchStmt tok t.2).bind fun c =>
    match c with
    | .returns v u => .ret (v, u)
    | .gotoOut a u => parseAction.out a u
    | .falls _ => .panic (.runtime "Switch does not cover all cases when it should")

end Dogconf

/-! ## Routing table (`dog/route.go`)

A Go map is a function from keys to optional values, `none` where the key has
no entry.  No function of the file changes an entry through its pointer, so a
`*routingEntry` is the entry it points to, or `none` for `nil`.  The table is
used through `newRoutingTable`, whose map is not nil.  The read-write mutex of
the table is not part of the state: every method releases the lock it takes,
and one call at a time never waits for it. -/

namespace Dog

open Dogconf (Outcome Panic)

/-- A route: inbound database name, outbound address, outbound database name. -/
structure routingEntry where
  dbnameIn : String
  addr : String
  dbnameOut : String
  deriving DecidableEq, Repr

/-- The table: `tab[k]` is the entry posted for the inbound name `k`. -/
structure routingTable where
  tab : String → Option routingEntry

/-- The startup message of the protocol library, of which the table uses the
parameter mapping `Params`. -/
structure Startup where
  Params : String → Option String

/-- The index expression `m[k]` of a map of strings: the empty string where the
key is missing. -/
def index (m : String → Option String) (k : String) : String :=
  (m k).getD ""

/-- The empty table. -/
def newRoutingTable : routingTable :=
  ⟨fun _ => none⟩

/-- Install or replace the entry for the inbound name of `route`:
`rt.tab[route.dbnameIn] = route`. -/
def routingTable.post (rt : routingTable) (route : Option routingEntry) : Outcome routingTable :=
  match route with
  | none => .panic (.runtime "nil pointer dereference")
  | some r => .ret ⟨fun k => if k = r.dbnameIn then some r else rt.tab k⟩

/-- Look up the entry for an inbound name: `return rt.tab[dbnameIn]`, with the
table it leaves behind. -/
def routingTable.«match» (rt : routingTable) (dbnameIn : String) :
    Option routingEntry × routingTable :=
  (rt.tab dbnameIn, rt)

/-- Look up the database the startup message asks for and, when there is a
route, set the `database` parameter to the outbound name of the route.  The
result is the route, the startup message and the table as they are left. -/
def routingTable.rewrite (rt : routingTable) (s : Option Startup) :
    Outcome (Option routingEntry × Option Startup × routingTable) :=
  match s with
  | none => .panic (.runtime "nil pointer dereference")
  | some st =>
    let m := rt.«match» (index st.Params "database")
    match m.1 with
    | some route =>
      .ret (some route,
        some ⟨fun k => if k = "database" then some route.dbnameOut else st.Params k⟩, m.2)
    | none => .ret (none, some st, m.2)

/-- The table after a sequence of `post` calls, started from `rt`. -/
def routingTable.postAll (rt : routingTable) : List routingEntry → Outcome routingTable
  | [] => .ret rt
  | e :: es => (rt.post (some e)).bind fun rt2 => rt2.postAll es

/-- The route of `toydog.go`'s `main`, as an entry of the table: database `fdr`
on the local socket. -/
def Fixture.fdr : routingEntry :=
  ⟨"fdr", "/var/run/postgresql/.s.PGSQL.5432", "fdr"⟩

/-- A second route for the inbound name `fdr`, with another address and
outbound name. -/
def Fixture.fdr2 : routingEntry :=
  ⟨"fdr", "10.0.0.7:5432", "fdr_prod"⟩

/-- A route for another inbound name. -/
def Fixture.other : routingEntry :=
  ⟨"other", "10.0.0.8:5432", "o"⟩

/-- The startup parameters `{user: "u", database: "fdr"}`. -/
def Fixture.startup : Startup :=
  ⟨fun k => if k = "database" then some "fdr" else if k = "user" then some "u" else none⟩

/-- The startup parameters `{database: "unknown"}`. -/
def Fixture.startupUnknown : Startup :=
  ⟨fun k => if k = "database" then some "unknown" else none⟩

/-- The table with the single entry `Fixture.fdr2`. -/
def Fixture.table : routingTable :=
  ⟨fun k => if k = "fdr" then some Fixture.fdr2 else none⟩

end Dog

/-! ## Proxy (`tools/toydog.go`, `tools/dogs.go`)

The protocol library is outside the sources: a frame is a value of an
arbitrary type `M`, and a message stream is the frames it will deliver, the
error that ends them, and the answers it gives to `Send`. -/

namespace Tools

open Dogconf (Outcome Panic)

/-- Go error values: `io.EOF` or another error. -/
inductive Err where
  | EOF
  | other (msg : String)
  deriving DecidableEq, Repr

/-- Automatically chooses between unix sockets and tcp sockets for listening;
`netListen network address` is the call of `net.Listen`.  The function is the
same in `toydog.go` and `dogs.go`. -/
def autoListen {α : Type} (netListen : String → String → α) (place : String) : α :=
  if Go.strings.Contains place "/" then netListen "unix" place
  else netListen "tcp" place

/-- Automatically chooses between unix sockets and tcp sockets for dialing;
`netDial network address` is the call of `net.Dial`.  The function is the same
in `toydog.go` and `dogs.go`. -/
def autoDial {α : Type} (netDial : String → String → α) (place : String) : α :=
  if Go.strings.Contains place "/" then netDial "unix" place
  else netDial "tcp" place

/-- A message stream of the protocol library, as a pump sees it.  A frame
variable of the handlers holds a frame or the value that `Next` returns with an
error, `none`.  `incoming` are the frames `Next` will return, in order, and
`recvErr` the error it returns once they are used up; `sendErr passed msg` is
the answer of `Send(msg)` when the values `passed` were given to `Send` before;
`passed` are the values given to `Send` so far. -/
structure MessageStream (M : Type) where
  incoming : List M
  recvErr : Err
  sendErr : List (Option M) → Option M → Option Err
  passed : List (Option M)

/-- The method `Next`: the next frame, or the error of the stream. -/
def MessageStream.Next {M : Type} (c : MessageStream M) :
    (Option M × Option Err) × MessageStream M :=
  match c.incoming with
  | [] => ((none, some c.recvErr), c)
  | m :: rest => ((some m, none), { c with incoming := rest })

/-- The method `Send`: the value is given to the stream, which answers with an
error or nil. -/
def MessageStream.Send {M : Type} (c : MessageStream M) (msg : Option M) :
    Option Err × MessageStream M :=
  (c.sendErr c.passed msg, { c with passed := c.passed ++ [msg] })

/-- The loop of a pump: `for { msg, err := src.Next(); if err != nil { errch <-
err; return }; err = dst.Send(msg); if err != nil { errch <- err; return } }`.
The result is the source, the destination and the errors put on the channel
when the pump returns. -/
def pumpLoop {M : Type} :
    Nat → MessageStream M → MessageStream M → List Err →
      Outcome (MessageStream M × MessageStream M × List Err)
  | 0, _, _, _ => .fuel
  | fuel + 1, src, dst, errch =>
    let n := src.Next
    match n.1.2 with
    | some err => .ret (n.2, dst, errch ++ [err])
    | none =>
      let r := dst.Send n.1.1
      match r.1 with
      | some err => .ret (n.2, r.2, errch ++ [err])
      | none => pumpLoop fuel n.2 r.2 errch

/-- A pump from `src` to `dst`, the loop that the four handler functions below
run. -/
def pump {M : Type} (src dst : MessageStream M) (errch : List Err) :
    Outcome (MessageStream M × MessageStream M × List Err) :=
  pumpLoop (src.incoming.length + 1) src dst errch

/-- The handler `simpleProxy.toFrontend` of `toydog.go`: from the server to the
client.  The result is the client, the server and the channel. -/
def simpleProxy.toFrontend {M : Type} (client server : MessageStream M) (errch : List Err) :
    Outcome (MessageStream M × MessageStream M × List Err) :=
  (pump server client errch).bind fun r => .ret (r.2.1, r.1, r.2.2)

/-- The handler `simpleProxy.toServer` of `toydog.go`: from the client to the
server.  The result is the client, the server and the channel. -/
def simpleProxy.toServer {M : Type} (client server : MessageStream M) (errch : List Err) :
    Outcome (MessageStream M × MessageStream M × List Err) :=
  pump client server errch

/-- The handler `dog.toFrontend` of `dogs.go`: from the server to the client. -/
def dog.toFrontend {M : Type} (client server : MessageStream M) (errch : List Err) :
    Outcome (MessageStream M × MessageStream M × List Err) :=
  (pump server client errch).bind fun r => .ret (r.2.1, r.1, r.2.2)

/-- The handler `dog.toServer` of `dogs.go`: from the client to the server. -/
def dog.toServer {M : Type} (client server : MessageStream M) (errch : List Err) :
    Outcome (MessageStream M × MessageStream M × List Err) :=
  pump client server errch

/-- The routing table of `toydog.go`: database name to server address. -/
structure RoutingTable where
  table : String → Option String

/-- The empty table of `toydog.go`. -/
def NewRoutingTable : RoutingTable :=
  ⟨fun _ => none⟩

/-- Set the address for a database name: `r.table[dbname] = addr`. -/
def RoutingTable.SetRoute (r : RoutingTable) (dbname addr : String) : RoutingTable :=
  ⟨fun k => if k = dbname then some addr else r.table k⟩

/-- The address for a database name: `r.table[dbname]`, the empty string where
there is none. -/
def RoutingTable.Route (r : RoutingTable) (dbname : String) : String :=
  (r.table dbname).getD ""

/-- Lines the connection handler prints. -/
inductive Line where
  | noRoute (dbname : String)
  | couldNotConnect (err : Err)
  | couldNotRelayStartup (err : Err)
  | exitsWithError (err : Err)
  | exitsCleanly
  deriving DecidableEq, Repr

/-- What the connection handler does to the outside, in order. -/
inductive Event (M : Type) where
  | next
  | readStartup (msg : Option M)
  | route (dbname : String)
  | print (line : Line)
  | dial (network address : String)
  | sendServer (msg : Option M)
  | startRelay
  | waitDone
  | closeClient
  deriving DecidableEq, Repr

/-- What the outside answers to one run of the connection handler: the result
of the first `Next` on the client, the parameters `ReadStartupMessage` reads
from the frame, the error of `net.Dial`, the error of sending the first frame
to the server, and the error received from the channel of the relay. -/
structure World (M : Type) where
  first : Option M × Option Err
  params : Option M → String → Option String
  dial : String → String → Option Err
  send : Option Err
  done : Option Err

/-- The deferred calls of `proxyHandler`, in the order they run at the return:
`clientConn.Close()`, then the line about how the session exits. -/
def proxyHandler.deferred {M : Type} (err : Option Err) : List (Event M) :=
  [.closeClient,
   .print (match err with
    | none => .exitsCleanly
    | some e => if e ≠ .EOF then .exitsWithError e else .exitsCleanly)]

/-- Virtual hosting connection handler of `toydog.go`, as the list of what it
does to the outside when the outside answers as `w` does. -/
def proxyHandler {M : Type} (w : World M) (rt : RoutingTable) : List (Event M) :=
  let firstMessage := w.first.1
  let err := w.first.2
  let dbname := (w.params firstMessage "database").getD ""
  let serverAddr := rt.Route dbname
  let start : List (Event M) := [.next, .readStartup firstMessage, .route dbname]
  if serverAddr = "" then
    start ++ [.print (.noRoute dbname)] ++ proxyHandler.deferred err
  else
    let d : List (Event M) × Option Err :=
      autoDial (fun network address => ([.dial network address], w.dial network address))
        serverAddr
    let err := d.2
    let afterDial : List (Event M) :=
      match err with
      | some e => [.print (.couldNotConnect e)]
      | none => []
    let err := w.send
    let afterSend : List (Event M) :=
      match err with
      | some e => [.print (.couldNotRelayStartup e)]
      | none => []
    let err := w.done
    start ++ d.1 ++ afterDial ++ [.sendServer firstMessage] ++ afterSend
      ++ [.startRelay, .waitDone] ++ proxyHandler.deferred err

/-- A world in which the client asks for the database `nowhere`. -/
def Fixture.worldNoRoute : World String :=
  { first := (some "startup database=nowhere", none)
    params := fun _ k => if k = "database" then some "nowhere" else none
    dial := fun _ _ => none
    send := none
    done := some .EOF }

/-- The table of `toydog.go`'s `main`: the route for `fdr`. -/
def Fixture.mainTable : RoutingTable :=
  NewRoutingTable.SetRoute "fdr" "/var/run/postgresql/.s.PGSQL.5432"

/-- A source stream with three frames that then ends with `io.EOF`. -/
def Fixture.source : MessageStream String :=
  { incoming := ["Q1", "Q2", "Q3"], recvErr := .EOF, sendErr := fun _ _ => none, passed := [] }

/-- A destination stream that accepts every frame. -/
def Fixture.sink : MessageStream String :=
  { incoming := [], recvErr := .EOF, sendErr := fun _ _ => none, passed := [] }

/-- A destination stream that fails on the second frame given to it. -/
def Fixture.brokenSink : MessageStream String :=
  { incoming := [], recvErr := .EOF,
    sendErr := fun passed _ => if passed.length = 1 then some (.other "broken pipe") else none,
    passed := [] }

/-! ### The connection handler of `dogs.go` -/

/-- Lines the connection handler of `dogs.go` and its `findServer` print. -/
inductive DogsLine where
  | gotStartup
  | param
  | dbname (dbname : String)
  | serverAddr (addr : String)
  | couldNotConnect (err : Err)
  | exitsWithError (err : Err)
  | exitsCleanly
  deriving DecidableEq, Repr

/-- What the connection handler of `dogs.go` does to the outside, in order. -/
inductive DogsEvent (M : Type) where
  | next
  | isStartup (msg : Option M)
  | readStartup (msg : Option M)
  | print (line : DogsLine)
  | lookupServer (database : String)
  | dial (network address : String)
  | sendServer (msg : Option M)
  | startRelay
  | waitDone
  | closeClient
  deriving DecidableEq, Repr

/-- What the outside answers to one run of the connection handler of
`dogs.go`: the result of the first `Next` on the client, whether the frame is a
startup message, the parameters read from it and the number of them, the address
`lookupServer` returns for a database, the error of `net.Dial`, and the error
received from the channel of the relay. -/
structure DogsWorld (M : Type) where
  first : Option M × Option Err
  isStartup : Option M → Bool
  params : Option M → String → Option String
  paramCount : Option M → Nat
  lookup : String → String
  dial : String → String → Option Err
  done : Option Err

/-- The function `findServer` of `dogs.go`: what it does to the outside, and
the error it returns (it returns a server stream with a nil error, or no stream
with the error of `Next`). -/
def findServer {M : Type} (w : DogsWorld M) : List (DogsEvent M) × Option Err :=
  let msg := w.first.1
  match w.first.2 with
  | some err => ([.next], some err)
  | none =>
    let startup : List (DogsEvent M) × String :=
      if w.isStartup msg then
        ([.isStartup msg, .readStartup msg, .print .gotStartup]
            ++ List.replicate (w.paramCount msg) (.print .param)
            ++ [.print (.dbname ((w.params msg "database").getD ""))],
          (w.params msg "database").getD "")
      else ([.isStartup msg], "")
    let dbname := startup.2
    let serverAddr := w.lookup dbname
    let d : List (DogsEvent M) × Option Err :=
      autoDial (fun network address => ([.dial network address], w.dial network address))
        serverAddr
    let afterDial : List (DogsEvent M) :=
      match d.2 with
      | some e => [.print (.couldNotConnect e)]
      | none => []
    ([.next] ++ startup.1 ++ [.lookupServer dbname, .print (.serverAddr serverAddr)]
      ++ d.1 ++ afterDial ++ [.sendServer msg], none)

/-- The deferred calls of `handleConnection`, in the order they run at the
return: `clientConn.Close()`, then the line about how the session exits. -/
def handleConnection.deferred {M : Type} (err : Option Err) : List (DogsEvent M) :=
  [.closeClient,
   .print (match err with
    | none => .exitsCleanly
    | some e => if e ≠ .EOF then .exitsWithError e else .exitsCleanly)]

/-- Generic connection handler of `dogs.go`, as the list of what it does to the
outside when the outside answers as `w` does. -/
def handleConnection {M : Type} (w : DogsWorld M) : List (DogsEvent M) :=
  let f := findServer w
  match f.2 with
  | some err => f.1 ++ handleConnection.deferred (some err)
  | none => f.1 ++ [.startRelay, .waitDone] ++ handleConnection.deferred w.done

/-- A world in which the client asks for `fdr` and the server does not accept
connections. -/
def Fixture.worldDialFails : World String :=
  { first := (some "startup database=fdr", none)
    params := fun _ k => if k = "database" then some "fdr" else none
    dial := fun _ _ => some (.other "connection refused")
    send := some (.other "invalid argument")
    done := some (.other "invalid argument") }

/-- A world of `dogs.go` in which the client asks for `fdr`, the lookup finds
its address and the server does not accept connections. -/
def Fixture.dogsWorldDialFails : DogsWorld String :=
  { first := (some "startup database=fdr", none)
    isStartup := fun _ => true
    params := fun _ k => if k = "database" then some "fdr" else none
    paramCount := fun _ => 1
    lookup := fun d => if d = "fdr" then "10.0.0.7:5432" else ""
    dial := fun _ _ => some (.other "connection refused")
    done := some (.other "invalid argument") }

end Tools

namespace Dogconf

/-! ## Blame (`syntax_blame.go`) -/

/-- The method `Blame` of `*Token`: the token itself. -/
def Token.Blame (t : TokenPtr) : TokenPtr := t

/-- The methods `Blame` of the three target nodes: the `Target` token of
`TargetAllSpecSyntax`, the `What` token of `TargetOneSpecSyntax` and of
`TargetOcnSpecSyntax`. -/
def SpecSyntax.Blame : SpecSyntax → TokenPtr
  | .TargetAllSpecSyntax target => target
  | .TargetOneSpecSyntax what => what
  | .TargetOcnSpecSyntax what _ => what

/-- The text `[route 'x' [create []]]`: a create with an empty property list. -/
def Fixture.createEmpty : List ScanItem :=
  [.tok .LBrace "[" ⟨1, 1⟩, .tok .Ident "route" ⟨1, 2⟩, .tok .String "'x'" ⟨1, 8⟩,
   .tok .LBrace "[" ⟨1, 12⟩, .tok .Ident "create" ⟨1, 13⟩, .tok .LBrace "[" ⟨1, 20⟩,
   .tok .RBrace "]" ⟨1, 21⟩, .tok .RBrace "]" ⟨1, 22⟩, .tok .RBrace "]" ⟨1, 23⟩]

/-- The text `[route 'x' @ 1 [patch []]]`: a patch with an empty property list. -/
def Fixture.patchEmpty : List ScanItem :=
  [.tok .LBrace "[" ⟨1, 1⟩, .tok .Ident "route" ⟨1, 2⟩, .tok .String "'x'" ⟨1, 8⟩,
   .tok .At "@" ⟨1, 12⟩, .tok .Int "1" ⟨1, 14⟩,
   .tok .LBrace "[" ⟨1, 16⟩, .tok .Ident "patch" ⟨1, 17⟩, .tok .LBrace "[" ⟨1, 23⟩,
   .tok .RBrace "]" ⟨1, 24⟩, .tok .RBrace "]" ⟨1, 25⟩, .tok .RBrace "]" ⟨1, 26⟩]

/-- The text `[route 'x' [create [addr='a' lock='t']]]`: two properties with no
comma between them. -/
def Fixture.createNoComma : List ScanItem :=
  [.tok .LBrace "[" ⟨1, 1⟩, .tok .Ident "route" ⟨1, 2⟩, .tok .String "'x'" ⟨1, 8⟩,
   .tok .LBrace "[" ⟨1, 12⟩, .tok .Ident "create" ⟨1, 13⟩, .tok .LBrace "[" ⟨1, 20⟩,
   .tok .Ident "addr" ⟨1, 21⟩, .tok .Equals "=" ⟨1, 25⟩, .tok .String "'a'" ⟨1, 26⟩,
   .tok .Ident "lock" ⟨1, 30⟩, .tok .Equals "=" ⟨1, 34⟩, .tok .String "'t'" ⟨1, 35⟩,
   .tok .RBrace "]" ⟨1, 38⟩, .tok .RBrace "]" ⟨1, 39⟩, .tok .RBrace "]" ⟨1, 40⟩]

/-- The text `[route 'bar' @ 137 [[delete]]]` of `TestExtraBrackets`: extra
brackets around the action. -/
def Fixture.extraBracketsAction : List ScanItem :=
  [.tok .LBrace "[" ⟨1, 1⟩, .tok .Ident "route" ⟨1, 2⟩, .tok .String "'bar'" ⟨1, 8⟩,
   .tok .At "@" ⟨1, 14⟩, .tok .Int "137" ⟨1, 16⟩, .tok .LBrace "[" ⟨1, 20⟩,
   .tok .LBrace "[" ⟨1, 21⟩, .tok .Ident "delete" ⟨1, 22⟩, .tok .RBrace "]" ⟨1, 28⟩,
   .tok .RBrace "]" ⟨1, 29⟩, .tok .RBrace "]" ⟨1, 30⟩]

/-- The text `[route all [Get]]`: the action keyword with a capital letter. -/
def Fixture.capitalGet : List ScanItem :=
  [.tok .LBrace "[" ⟨1, 1⟩, .tok .Ident "route" ⟨1, 2⟩, .tok .Ident "all" ⟨1, 8⟩,
   .tok .LBrace "[" ⟨1, 12⟩, .tok .Ident "Get" ⟨1, 13⟩, .tok .RBrace "]" ⟨1, 16⟩,
   .tok .RBrace "]" ⟨1, 17⟩]

/-- The syntax tree the parser builds for `Fixture.createEmpty`. -/
def Fixture.createEmptyAst : RequestSyntax :=
  ⟨some (.TargetOneSpecSyntax (some ⟨2, .String, "'x'", ⟨1, 8⟩⟩)),
   some (.CreateActionSyntax (some ⟨4, .Ident, "create", ⟨1, 13⟩⟩) (some []))⟩

/-- The syntax tree the parser builds for `Fixture.patchEmpty`. -/
def Fixture.patchEmptyAst : RequestSyntax :=
  ⟨some (.TargetOcnSpecSyntax (some ⟨2, .String, "'x'", ⟨1, 8⟩⟩) (some ⟨4, .Int, "1", ⟨1, 14⟩⟩)),
   some (.PatchActionSyntax (some ⟨6, .Ident, "patch", ⟨1, 17⟩⟩) (some []))⟩

/-- The syntax tree the parser builds for `Fixture.createNoComma`. -/
def Fixture.createNoCommaAst : RequestSyntax :=
  ⟨some (.TargetOneSpecSyntax (some ⟨2, .String, "'x'", ⟨1, 8⟩⟩)),
   some (.CreateActionSyntax (some ⟨4, .Ident, "create", ⟨1, 13⟩⟩)
    (some [(some ⟨6, .Ident, "addr", ⟨1, 21⟩⟩, some ⟨8, .String, "'a'", ⟨1, 26⟩⟩),
           (some ⟨9, .Ident, "lock", ⟨1, 30⟩⟩, some ⟨11, .String, "'t'", ⟨1, 35⟩⟩)]))⟩

/-- Whether a scanned item is a `,` token. -/
def ScanItem.isComma : ScanItem → Bool
  | .tok .Comma _ _ => true
  | _ => false

/-! ## Calls made during a parse -/

/-- A call of one of the functions of `parser.go` that return an error value,
with the scanner it is called on. -/
inductive Call where
  | expect (s : Scanner) (tokTyp : TokenType)
  | parseProps (s : Scanner)
  | parseRouteSpec (s : Scanner)
  | parseAction (s : Scanner)
  | parseRequest (s : Scanner)
  deriving DecidableEq, Repr

/-- The error value a call returns, with the scanner the call leaves. -/
def Call.err : Call → Outcome (Option Error × Scanner)
  | .expect s tokTyp => (Dogconf.expect s tokTyp).bind fun r => .ret (r.1.2, r.2)
  | .parseProps s => (Dogconf.parseProps s).bind fun r => .ret (r.1.2, r.2)
  | .parseRouteSpec s => (Dogconf.parseRouteSpec s).bind fun r => .ret (r.1.2, r.2)
  | .parseAction s => (Dogconf.parseAction s).bind fun r => .ret (r.1.2, r.2)
  | .parseRequest s => (Dogconf.parseRequest s).bind fun r => .ret (r.1.2, r.2)

/-- The run of `parseProps` on `s0` is at the condition of its `for` loop with
the scanner `s`, the map `props` and the flag `allowComma`: the first time
behind the opening bracket, with the empty map and the flag false, and again
after every pass of the body that ends at `allowComma = true`. -/
inductive LoopState (s0 : Scanner) : Scanner → Props → Bool → Prop
  | first (b : TokenPtr) (t : Scanner) :
      expect s0 .LBrace = .ret ((b, none), t) → LoopState s0 t [] false
  | next (s t u w x y : Scanner) (props : Props) (allowComma : Bool) (tok keyTok : Token)
      (b q valTok : TokenPtr) :
      LoopState s0 s props allowComma →
      s.Peek = .ret (tok, t) → tok.Typ ≠ .RBrace →
      ((allowComma && tok.Typ == .Comma) = true ∧ expect t .Comma = .ret ((b, none), u)
        ∨ (allowComma && tok.Typ == .Comma) = false ∧ u = t) →
      expect u .Ident = .ret ((some keyTok, none), w) →
      expect w .Equals = .ret ((q, none), x) →
      expect x .String = .ret ((valTok, none), y) →
      (keyTok.Lexeme = "addr" ∨ keyTok.Lexeme = "lock" ∨ keyTok.Lexeme = "dbnameIn"
        ∨ keyTok.Lexeme = "dbnameRewritten") →
      ¬ props.present (some keyTok) = true →
      LoopState s0 y (props.set (some keyTok) valTok) true

/-- The run of the first call makes the second call: one constructor for every
call site of `expect`, `parseProps`, `parseRouteSpec` and `parseAction` in
`parser.go`, with the statements before the site that must have gone through
without a return for the site to be reached. -/
inductive Calls : Call → Call → Prop
  -- `parseRequest`
  | request_lbrace (s : Scanner) : Calls (.parseRequest s) (.expect s .LBrace)
  | request_route (s t : Scanner) (b : TokenPtr) :
      expect s .LBrace = .ret ((b, none), t) →
      Calls (.parseRequest s) (.expect t .Ident)
  | request_spec (s t u : Scanner) (b : TokenPtr) (tok : Token) :
      expect s .LBrace = .ret ((b, none), t) → expect t .Ident = .ret ((some tok, none), u) →
      tok.Lexeme = "route" →
      Calls (.parseRequest s) (.parseRouteSpec u)
  | request_action (s t u w : Scanner) (b : TokenPtr) (tok : Token) (sp : Option SpecSyntax) :
      expect s .LBrace = .ret ((b, none), t) → expect t .Ident = .ret ((some tok, none), u) →
      tok.Lexeme = "route" → parseRouteSpec u = .ret ((sp, none), w) →
      Calls (.parseRequest s) (.parseAction w)
  | request_rbrace (s t u w x : Scanner) (b : TokenPtr) (tok : Token) (sp : Option SpecSyntax)
      (a : Option ActionSyntax) :
      expect s .LBrace = .ret ((b, none), t) → expect t .Ident = .ret ((some tok, none), u) →
      tok.Lexeme = "route" → parseRouteSpec u = .ret ((sp, none), w) →
      parseAction w = .ret ((a, none), x) →
      Calls (.parseRequest s) (.expect x .RBrace)
  -- `parseRouteSpec`
  | spec_all (s t : Scanner) (tok : Token) :
      s.Peek = .ret (tok, t) → tok.Typ = .Ident ∧ tok.Lexeme = "all" →
      Calls (.parseRouteSpec s) (.expect t .Ident)
  | spec_what (s t : Scanner) (tok : Token) :
      s.Peek = .ret (tok, t) → ¬ (tok.Typ = .Ident ∧ tok.Lexeme = "all") →
      Calls (.parseRouteSpec s) (.expect t .String)
  | spec_at (s t u w : Scanner) (tok tok2 : Token) (what : TokenPtr) :
      s.Peek = .ret (tok, t) → ¬ (tok.Typ = .Ident ∧ tok.Lexeme = "all") →
      expect t .String = .ret ((what, none), u) → u.Peek = .ret (tok2, w) → tok2.Typ = .At →
      Calls (.parseRouteSpec s) (.expect w .At)
  | spec_ocn (s t u w x : Scanner) (tok tok2 : Token) (what b : TokenPtr) :
      s.Peek = .ret (tok, t) → ¬ (tok.Typ = .Ident ∧ tok.Lexeme = "all") →
      expect t .String = .ret ((what, none), u) → u.Peek = .ret (tok2, w) → tok2.Typ = .At →
      expect w .At = .ret ((b, none), x) →
      Calls (.parseRouteSpec s) (.expect x .Int)
  -- `parseAction`
  | action_lbrace (s : Scanner) : Calls (.parseAction s) (.expect s .LBrace)
  | action_keyword (s t : Scanner) (b : TokenPtr) :
      expect s .LBrace = .ret ((b, none), t) →
      Calls (.parseAction s) (.expect t .Ident)
  | action_props (s t u : Scanner) (b : TokenPtr) (tok : Token) :
      expect s .LBrace = .ret ((b, none), t) → expect t .Ident = .ret ((some tok, none), u) →
      tok.Lexeme = "patch" ∨ tok.Lexeme = "create" →
      Calls (.parseAction s) (.parseProps u)
  | action_out_props (s t u w : Scanner) (b : TokenPtr) (tok : Token) (p : Option Props) :
      expect s .LBrace = .ret ((b, none), t) → expect t .Ident = .ret ((some tok, none), u) →
      tok.Lexeme = "patch" ∨ tok.Lexeme = "create" → parseProps u = .ret ((p, none), w) →
      Calls (.parseAction s) (.expect w .RBrace)
  | action_out_bare (s t u : Scanner) (b : TokenPtr) (tok : Token) :
      expect s .LBrace = .ret ((b, none), t) → expect t .Ident = .ret ((some tok, none), u) →
      tok.Lexeme = "get" ∨ tok.Lexeme = "delete" →
      Calls (.parseAction s) (.expect u .RBrace)
  -- `parseProps`
  | props_lbrace (s : Scanner) : Calls (.parseProps s) (.expect s .LBrace)
  | props_comma (s0 s t : Scanner) (props : Props) (allowComma : Bool) (tok : Token) :
      LoopState s0 s props allowComma → s.Peek = .ret (tok, t) → tok.Typ ≠ .RBrace →
      (allowComma && tok.Typ == .Comma) = true →
      Calls (.parseProps s0) (.expect t .Comma)
  | props_key (s0 s t u : Scanner) (props : Props) (allowComma : Bool) (tok : Token)
      (b : TokenPtr) :
      LoopState s0 s props allowComma → s.Peek = .ret (tok, t) → tok.Typ ≠ .RBrace →
      ((allowComma && tok.Typ == .Comma) = true ∧ expect t .Comma = .ret ((b, none), u)
        ∨ (allowComma && tok.Typ == .Comma) = false ∧ u = t) →
      Calls (.parseProps s0) (.expect u .Ident)
  | props_equals (s0 s t u w : Scanner) (props : Props) (allowComma : Bool) (tok : Token)
      (b k : TokenPtr) :
      LoopState s0 s props allowComma → s.Peek = .ret (tok, t) → tok.Typ ≠ .RBrace →
      ((allowComma && tok.Typ == .Comma) = true ∧ expect t .Comma = .ret ((b, none), u)
        ∨ (allowComma && tok.Typ == .Comma) = false ∧ u = t) →
      expect u .Ident = .ret ((k, none), w) →
      Calls (.parseProps s0) (.expect w .Equals)
  | props_value (s0 s t u w x : Scanner) (props : Props) (allowComma : Bool) (tok : Token)
      (b k q : TokenPtr) :
      LoopState s0 s props allowComma → s.Peek = .ret (tok, t) → tok.Typ ≠ .RBrace →
      ((allowComma && tok.Typ == .Comma) = true ∧ expect t .Comma = .ret ((b, none), u)
        ∨ (allowComma && tok.Typ == .Comma) = false ∧ u = t) →
      expect u .Ident = .ret ((k, none), w) → expect w .Equals = .ret ((q, none), x) →
      Calls (.parseProps s0) (.expect x .String)
  | props_rbrace (s0 s t : Scanner) (props : Props) (allowComma : Bool) (tok : Token) :
      LoopState s0 s props allowComma → s.Peek = .ret (tok, t) → tok.Typ = .RBrace →
      Calls (.parseProps s0) (.expect t .RBrace)

/-- The second call is made during the run of the first: it is the first call
itself, or a call made by a call that is made during the run of the first. -/
inductive Within : Call → Call → Prop
  | self (c : Call) : Within c c
  | step (a b c : Call) : Within a b → Calls b c → Within a c

/-- The text `[route 'x' [create [addr='a', lock 't']]]`: the second property
lacks its `=`. -/
def Fixture.secondPropertyBroken : List ScanItem :=
  [.tok .LBrace "[" ⟨1, 1⟩, .tok .Ident "route" ⟨1, 2⟩, .tok .String "'x'" ⟨1, 8⟩,
   .tok .LBrace "[" ⟨1, 12⟩, .tok .Ident "create" ⟨1, 13⟩, .tok .LBrace "[" ⟨1, 20⟩,
   .tok .Ident "addr" ⟨1, 21⟩, .tok .Equals "=" ⟨1, 25⟩, .tok .String "'a'" ⟨1, 26⟩,
   .tok .Comma "," ⟨1, 29⟩, .tok .Ident "lock" ⟨1, 31⟩, .tok .String "'t'" ⟨1, 36⟩,
   .tok .RBrace "]" ⟨1, 39⟩, .tok .RBrace "]" ⟨1, 40⟩, .tok .RBrace "]" ⟨1, 41⟩]

/-- The scanner of a parse of `items` after `n` tokens were handed out. -/
def Fixture.scannerAt (items : List ScanItem) (n : Nat) (eof : Position) : Scanner :=
  ⟨items.drop n, n, eof⟩

/-! # Properties -/

/-! ## Analyze and the duplicate-key check on the fixtures -/

/-- C1 (the code at the failing input): on `[route all [delete]]`, Delete over
`all`, the parse succeeds and Analyze returns a nil Directive with a nil error:
no DeleteDirective is built. -/
theorem Analyze_deleteAll_no_directive :
    ParseRequest Fixture.deleteAll ⟨1, 21⟩ = .ret (some Fixture.deleteAllAst, none)
      ∧ Analyze (some Fixture.deleteAllAst) = .ret (none, none) :=
  ⟨by decide, by decide⟩

/-- C2 (the code at the failing input): on `[route 'bar' @ 137 [get]]`, Get over
a versioned single name, the parse succeeds and Analyze returns a nil error (and
a nil Directive): the request is not rejected. -/
theorem Analyze_getOcnRoute_no_error :
    ParseRequest Fixture.getOcnRoute ⟨1, 26⟩ = .ret (some Fixture.getOcnRouteAst, none)
      ∧ Analyze (some Fixture.getOcnRouteAst) = .ret (none, none) :=
  ⟨by decide, by decide⟩

/-- C3 (the code at the failing input): on `[route 'bar' [patch [lock='t']]]`,
Patch over an unversioned name, the parse succeeds and Analyze returns a nil
error (and a nil Directive): no ErrBadTarget is returned. -/
theorem Analyze_patchNoOcn_no_error :
    ParseRequest Fixture.patchNoOcn ⟨1, 33⟩ = .ret (some Fixture.patchNoOcnAst, none)
      ∧ Analyze (some Fixture.patchNoOcnAst) = .ret (none, none) :=
  ⟨by decide, by decide⟩

/-- C6 (the code at the failing input): a property list with the key `addr`
twice parses, in a create and in a patch action alike: the property map is keyed
by token object, the two `addr` tokens are two objects, and the map holds both. -/
theorem parseProps_accepts_duplicate_key :
    ParseRequest Fixture.createDuplicate ⟨1, 42⟩ = .ret (some
      ⟨some (.TargetOneSpecSyntax (some ⟨2, .String, "'x'", ⟨1, 8⟩⟩)),
       some (.CreateActionSyntax (some ⟨4, .Ident, "create", ⟨1, 13⟩⟩)
        (some [(some ⟨6, .Ident, "addr", ⟨1, 21⟩⟩, some ⟨8, .String, "'a'", ⟨1, 26⟩⟩),
               (some ⟨10, .Ident, "addr", ⟨1, 31⟩⟩, some ⟨12, .String, "'b'", ⟨1, 36⟩⟩)]))⟩,
      none)
    ∧ ParseRequest Fixture.patchDuplicate ⟨1, 45⟩ = .ret (some
      ⟨some (.TargetOcnSpecSyntax (some ⟨2, .String, "'x'", ⟨1, 8⟩⟩)
        (some ⟨4, .Int, "1", ⟨1, 14⟩⟩)),
       some (.PatchActionSyntax (some ⟨6, .Ident, "patch", ⟨1, 17⟩⟩)
        (some [(some ⟨8, .Ident, "addr", ⟨1, 24⟩⟩, some ⟨10, .String, "'a'", ⟨1, 29⟩⟩),
               (some ⟨12, .Ident, "addr", ⟨1, 34⟩⟩, some ⟨14, .String, "'b'", ⟨1, 39⟩⟩)]))⟩,
      none) :=
  ⟨by decide, by decide⟩

/-! ## The scanner on a known next token -/

theorem Peek_tok (ty : TokenType) (lx : String) (p : Position) (rest : List ScanItem)
    (n : Nat) (e : Position) :
    Scanner.Peek ⟨.tok ty lx p :: rest, n, e⟩
      = .ret (⟨n, ty, lx, p⟩, ⟨.tok ty lx p :: rest, n, e⟩) := rfl

theorem expect_tok (ty want : TokenType) (lx : String) (p : Position) (rest : List ScanItem)
    (n : Nat) (e : Position) :
    expect ⟨.tok ty lx p :: rest, n, e⟩ want
      = if ty ≠ want then .ret ((none, some (.expectedToken want ⟨n, ty, lx, p⟩)), ⟨rest, n + 1, e⟩)
        else .ret ((some ⟨n, ty, lx, p⟩, none), ⟨rest, n + 1, e⟩) := rfl

theorem expect_nil (want : TokenType) (n : Nat) (e : Position) :
    expect ⟨[], n, e⟩ want
      = if TokenType.EOF ≠ want
        then .ret ((none, some (.expectedToken want ⟨n, .EOF, "", e⟩)), ⟨[], n, e⟩)
        else .ret ((some ⟨n, .EOF, "", e⟩, none), ⟨[], n, e⟩) := rfl

theorem expect_bad (want : TokenType) (msg : String) (p : Position) (rest : List ScanItem)
    (n : Nat) (e : Position) :
    expect ⟨.bad msg p :: rest, n, e⟩ want = .panic (.errScanner ⟨p, msg, ⟨rest, n, e⟩⟩) := rfl

theorem expect_same (ty : TokenType) (lx : String) (p : Position) (rest : List ScanItem)
    (n : Nat) (e : Position) :
    expect ⟨.tok ty lx p :: rest, n, e⟩ ty
      = .ret ((some ⟨n, ty, lx, p⟩, none), ⟨rest, n + 1, e⟩) := by
  simp [expect_tok]

theorem bind_ret {α β : Type} (v : α) (k : α → Outcome β) : (Outcome.ret v).bind k = k v := rfl

/-! ## The parser on the strings of the grammar -/

theorem present_of_lt (acc : Props) (n : Nat) (t : Token)
    (hacc : ∀ kv ∈ acc, ∃ k : Token, kv.1 = some k ∧ k.addr < n) (ht : n ≤ t.addr) :
    acc.present (some t) = false := by
  simp only [Props.present, List.any_eq_false]
  intro kv hkv
  obtain ⟨k, hk, hlt⟩ := hacc kv hkv
  simp [hk, ptrEq]
  omega

/-- The loop of `parseProps` on the terminals of a list of props with allowed
keys, followed by a closing bracket: it stores every prop and stops in front of
the bracket. -/
theorem parsePropsLoop_grammar (pos : Nat → Position) (eof : Position) (lx : String)
    (q : Position) (tl : List ScanItem) :
    ∀ (ps : List Grammar.Property) (fuel n : Nat) (comma : Bool) (acc : Props),
      (∀ p ∈ ps, Grammar.allowedKey p.key = true) → ps.length < fuel →
      (∀ kv ∈ acc, ∃ k : Token, kv.1 = some k ∧ k.addr < n) →
      parsePropsLoop fuel
          ⟨Grammar.items pos n (Grammar.propsTerminals comma ps) ++ .tok .RBrace lx q :: tl, n, eof⟩
          acc comma
        = .ret (.done (acc ++ Grammar.propsAst pos n comma ps),
            ⟨.tok .RBrace lx q :: tl, n + (Grammar.propsTerminals comma ps).length, eof⟩) := by
  intro ps
  induction ps with
  | nil =>
    intro fuel n comma acc _ hf _
    obtain ⟨f, rfl⟩ : ∃ f, fuel = f + 1 := ⟨fuel - 1, by simp at hf; omega⟩
    simp [parsePropsLoop, Grammar.propsTerminals, Grammar.items, Peek_tok, bind_ret,
      Grammar.propsAst]
  | cons p ps ih =>
    intro fuel n comma acc hall hf hacc
    obtain ⟨f, rfl⟩ : ∃ f, fuel = f + 1 := ⟨fuel - 1, by simp at hf; omega⟩
    have hp : Grammar.allowedKey p.key = true := hall p (List.mem_cons_self _ _)
    have hps : ∀ p ∈ ps, Grammar.allowedKey p.key = true :=
      fun x hx => hall x (List.mem_cons_of_mem _ hx)
    have hlen : ps.length < f := by simp at hf; omega
    simp only [Grammar.allowedKey, decide_eq_true_eq] at hp
    cases comma
    · have hpres := present_of_lt acc n ⟨n, .Ident, p.key, pos n⟩ hacc (le_refl _)
      have hacc2 : ∀ kv ∈ acc ++ [((some ⟨n, .Ident, p.key, pos n⟩ : TokenPtr),
          (some ⟨n + 2, .String, p.val, pos (n + 2)⟩ : TokenPtr))],
          ∃ k : Token, kv.1 = some k ∧ k.addr < n + 3 := by
        intro kv hkv
        simp only [List.mem_append, List.mem_singleton] at hkv
        rcases hkv with h | h
        · obtain ⟨k, hk, hlt⟩ := hacc kv h
          exact ⟨k, hk, by omega⟩
        · exact ⟨_, by rw [h], by simp only []; omega⟩
      have key := ih f (n + 3) true _ hps hlen hacc2
      simp only [parsePropsLoop, Grammar.propsTerminals, Grammar.items, Peek_tok, bind_ret,
        expect_same, hp, hpres, Grammar.propsAst, Grammar.token, Props.set, List.cons_append,
        List.nil_append, List.append_assoc, Bool.false_and, Bool.false_eq_true, if_false,
        if_true, not_false_eq_true, reduceCtorEq, Nat.add_assoc, Nat.reduceAdd, List.length_cons,
        List.length_append, List.length_nil, List.singleton_append, List.append_eq]
      rw [key]
      simp only [Outcome.ret.injEq, Prod.mk.injEq, LoopExit.done.injEq, Scanner.mk.injEq,
        true_and, and_true, List.append_assoc, List.singleton_append]
      omega
    · have hpres := present_of_lt acc n ⟨n + 1, .Ident, p.key, pos (n + 1)⟩ hacc (by simp)
      have hacc2 : ∀ kv ∈ acc ++ [((some ⟨n + 1, .Ident, p.key, pos (n + 1)⟩ : TokenPtr),
          (some ⟨n + 3, .String, p.val, pos (n + 3)⟩ : TokenPtr))],
          ∃ k : Token, kv.1 = some k ∧ k.addr < n + 4 := by
        intro kv hkv
        simp only [List.mem_append, List.mem_singleton] at hkv
        rcases hkv with h | h
        · obtain ⟨k, hk, hlt⟩ := hacc kv h
          exact ⟨k, hk, by omega⟩
        · exact ⟨_, by rw [h], by simp only []; omega⟩
      have key := ih f (n + 4) true _ hps hlen hacc2
      simp only [parsePropsLoop, Grammar.propsTerminals, Grammar.items, Peek_tok, bind_ret,
        expect_same, hp, hpres, Grammar.propsAst, Grammar.token, Props.set, List.cons_append,
        List.nil_append, List.append_assoc, Bool.true_and, Bool.false_eq_true, if_false,
        if_true, not_false_eq_true, reduceCtorEq, Nat.add_assoc, Nat.reduceAdd, List.length_cons,
        List.length_append, List.length_nil, List.singleton_append, beq_self_eq_true,
        List.append_eq]
      rw [key]
      simp only [Outcome.ret.injEq, Prod.mk.injEq, LoopExit.done.injEq, Scanner.mk.injEq,
        true_and, and_true, List.append_assoc, List.singleton_append]
      omega

theorem items_append (pos : Nat → Position) :
    ∀ (a b : List Grammar.Terminal) (n : Nat),
      Grammar.items pos n (a ++ b) = Grammar.items pos n a ++ Grammar.items pos (n + a.length) b := by
  intro a
  induction a with
  | nil => intro b n; simp [Grammar.items]
  | cons t ts ih =>
    intro b n
    have h : n + 1 + ts.length = n + (ts.length + 1) := by omega
    simp only [List.cons_append, Grammar.items, List.append_eq, ih, List.length_cons, h]

theorem length_le_propsTerminals :
    ∀ (ps : List Grammar.Property) (comma : Bool),
      ps.length ≤ (Grammar.propsTerminals comma ps).length := by
  intro ps
  induction ps with
  | nil => intro comma; simp
  | cons p ps ih =>
    intro comma
    have := ih true
    simp only [Grammar.propsTerminals, List.length_cons, List.length_append]
    omega

theorem length_items (pos : Nat → Position) :
    ∀ (l : List Grammar.Terminal) (n : Nat), (Grammar.items pos n l).length = l.length := by
  intro l
  induction l with
  | nil => intro n; rfl
  | cons t ts ih => intro n; simp [Grammar.items, ih]

/-- The function `parseProps` on a bracketed list of props with allowed keys. -/
theorem parseProps_grammar (pos : Nat → Position) (eof : Position) (lx0 lx : String)
    (tl : List ScanItem) (ps : List Grammar.Property) (n : Nat)
    (hall : ∀ p ∈ ps, Grammar.allowedKey p.key = true) :
    parseProps ⟨Grammar.items pos n ([(.LBrace, lx0)] ++ Grammar.propsTerminals false ps
        ++ [(.RBrace, lx)]) ++ tl, n, eof⟩
      = .ret ((some (Grammar.propsAst pos (n + 1) false ps), none),
          ⟨tl, n + ((Grammar.propsTerminals false ps).length + 2), eof⟩) := by
  have hfuel : ps.length < (Grammar.items pos (n + 1) (Grammar.propsTerminals false ps)
      ++ .tok .RBrace lx (pos (n + 1 + (Grammar.propsTerminals false ps).length)) :: tl).length
      + 1 := by
    have := length_le_propsTerminals ps false
    simp only [List.length_append, length_items, List.length_cons]
    omega
  have key := parsePropsLoop_grammar pos eof lx
    (pos (n + 1 + (Grammar.propsTerminals false ps).length)) tl ps _ (n + 1) false [] hall hfuel
    (by intro kv hkv; cases hkv)
  generalize Grammar.propsTerminals false ps = L at key ⊢
  simp only [List.singleton_append, List.cons_append, Grammar.items, items_append,
    List.append_assoc, List.nil_append, List.append_nil, List.append_eq] at key ⊢
  simp only [parseProps, expect_same, bind_ret, key, List.nil_append, Outcome.ret.injEq,
    Prod.mk.injEq, Scanner.mk.injEq, true_and, and_true]
  omega

/-- The function `parseRouteSpec` on the terminals of a `route-spec`, followed by
the opening bracket of the action. -/
theorem parseRouteSpec_grammar (pos : Nat → Position) (eof : Position) (lx : String)
    (q : Position) (tl : List ScanItem) (sp : Grammar.RouteSpec) :
    parseRouteSpec ⟨Grammar.items pos 2 sp.terminals ++ .tok .LBrace lx q :: tl, 2, eof⟩
      = .ret ((some (sp.ast pos), none),
          ⟨.tok .LBrace lx q :: tl, 2 + sp.terminals.length, eof⟩) := by
  cases sp <;>
    simp [parseRouteSpec, Grammar.RouteSpec.terminals, Grammar.items, Peek_tok, bind_ret,
      expect_same, Grammar.RouteSpec.ast, Grammar.token]

/-- The function `parseAction` on the terminals of an `action` whose keys are
allowed. -/
theorem parseAction_grammar (pos : Nat → Position) (eof : Position) (tl : List ScanItem)
    (a : Grammar.Action) (n : Nat) (hall : ∀ p ∈ a.props, Grammar.allowedKey p.key = true) :
    parseAction ⟨Grammar.items pos n a.terminals ++ tl, n, eof⟩
      = .ret ((some (a.ast pos n), none), ⟨tl, n + a.terminals.length, eof⟩) := by
  cases a with
  | get =>
    simp [parseAction, parseAction.out, Grammar.Action.terminals, Grammar.items, bind_ret,
      expect_same, Grammar.Action.ast, Grammar.token]
  | delete =>
    simp [parseAction, parseAction.out, Grammar.Action.terminals, Grammar.items, bind_ret,
      expect_same, Grammar.Action.ast, Grammar.token]
  | patch p ps =>
    have key := parseProps_grammar pos eof "[" "]"
      (.tok .RBrace "]" (pos (n + 2 + ((Grammar.propsTerminals false (p :: ps)).length + 2))) :: tl)
      (p :: ps) (n + 2) hall
    simp only [Grammar.Action.terminals, Grammar.Action.ast]
    generalize Grammar.propsTerminals false (p :: ps) = L at key ⊢
    generalize Grammar.propsAst pos (n + 2 + 1) false (p :: ps) = A at key
    simp only [List.singleton_append, List.cons_append, Grammar.items, items_append,
      List.append_assoc, List.nil_append, List.append_nil, List.length_cons, List.length_nil,
      List.length_append, Nat.add_assoc, Nat.reduceAdd, List.append_eq] at key ⊢
    simp only [parseAction, expect_same, bind_ret, if_true, Grammar.token]
    ring_nf at key ⊢
    rw [key]
    simp only [parseAction.out, expect_same, bind_ret, Outcome.ret.injEq,
      Prod.mk.injEq, Scanner.mk.injEq, true_and, and_true]
    omega
  | create p ps =>
    have key := parseProps_grammar pos eof "[" "]"
      (.tok .RBrace "]" (pos (n + 2 + ((Grammar.propsTerminals false (p :: ps)).length + 2))) :: tl)
      (p :: ps) (n + 2) hall
    simp only [Grammar.Action.terminals, Grammar.Action.ast]
    generalize Grammar.propsTerminals false (p :: ps) = L at key ⊢
    generalize Grammar.propsAst pos (n + 2 + 1) false (p :: ps) = A at key
    simp only [List.singleton_append, List.cons_append, Grammar.items, items_append,
      List.append_assoc, List.nil_append, List.append_nil, List.length_cons, List.length_nil,
      List.length_append, Nat.add_assoc, Nat.reduceAdd, List.append_eq] at key ⊢
    have hne : ¬ ("create" = "patch") := by decide
    simp only [parseAction, expect_same, bind_ret, if_true, Grammar.token, if_neg hne]
    ring_nf at key ⊢
    rw [key]
    simp only [parseAction.out, expect_same, bind_ret, Outcome.ret.injEq,
      Prod.mk.injEq, Scanner.mk.injEq, true_and, and_true]
    omega

/-- The function `parseRequest` on the terminals of a `request` whose keys are
allowed, whatever follows them: it returns the tree of the derivation and stops
behind the request. -/
theorem parseRequest_grammar (pos : Nat → Position) (eof : Position) (rest : List ScanItem)
    (r : Grammar.Request) (hall : ∀ p ∈ r.action.props, Grammar.allowedKey p.key = true) :
    parseRequest ⟨Grammar.items pos 0 r.terminals ++ rest, 0, eof⟩
      = .ret ((some (r.ast pos), none), ⟨rest, r.terminals.length, eof⟩) := by
  obtain ⟨sp, a⟩ := r
  have ha : ∃ lx q tl, Grammar.items pos (2 + sp.terminals.length) a.terminals
      = .tok .LBrace lx q :: tl := by
    cases a <;> exact ⟨_, _, _, rfl⟩
  obtain ⟨lx, q, tl, htl⟩ := ha
  have hsp := parseRouteSpec_grammar pos eof lx q
    (tl ++ (.tok .RBrace "]" (pos (2 + sp.terminals.length + a.terminals.length)) :: rest)) sp
  have hact := parseAction_grammar pos eof
    (.tok .RBrace "]" (pos (2 + sp.terminals.length + a.terminals.length)) :: rest) a
    (2 + sp.terminals.length) hall
  have hne : ¬ ("route" ≠ "route") := by decide
  simp only [Grammar.Request.terminals, Grammar.Request.ast, List.cons_append, List.nil_append,
    Grammar.items, items_append, List.append_assoc, List.length_cons, List.length_nil,
    List.length_append, Nat.zero_add, Nat.reduceAdd, parseRequest, expect_same, bind_ret,
    if_neg hne, List.singleton_append, List.append_eq] at htl hsp hact ⊢
  rw [htl] at hact ⊢
  simp only [List.cons_append] at hact ⊢
  rw [hsp]
  simp only [bind_ret]
  rw [hact]
  simp only [bind_ret, expect_same, Outcome.ret.injEq, Prod.mk.injEq, Scanner.mk.injEq, true_and,
    and_true]
  omega

/-- The loop of `parseProps` on the terminals of a list of props one of whose
keys is not allowed: it returns the unknown-key error for such a key. -/
theorem parsePropsLoop_unknown (pos : Nat → Position) (eof : Position) (tl : List ScanItem) :
    ∀ (ps : List Grammar.Property) (n : Nat) (comma : Bool) (acc : Props),
      (∃ p ∈ ps, Grammar.allowedKey p.key = false) →
      (∀ kv ∈ acc, ∃ k : Token, kv.1 = some k ∧ k.addr < n) →
      ∃ (k : Token) (s : Scanner), Grammar.allowedKey k.Lexeme = false ∧
        ∀ fuel, ps.length < fuel →
        parsePropsLoop fuel
          ⟨Grammar.items pos n (Grammar.propsTerminals comma ps) ++ tl, n, eof⟩ acc comma
          = .ret (.returned (none, some (.unknownKey k)), s) := by
  intro ps
  induction ps with
  | nil => intro n comma acc h; obtain ⟨p, hp, _⟩ := h; cases hp
  | cons p ps ih =>
    intro n comma acc hex hacc
    by_cases hp : Grammar.allowedKey p.key = true
    · have hex2 : ∃ x ∈ ps, Grammar.allowedKey x.key = false := by
        obtain ⟨x, hx, hbad⟩ := hex
        rcases List.mem_cons.1 hx with rfl | hx
        · rw [hp] at hbad; cases hbad
        · exact ⟨x, hx, hbad⟩
      simp only [Grammar.allowedKey, decide_eq_true_eq] at hp
      cases comma
      · have hpres := present_of_lt acc n ⟨n, .Ident, p.key, pos n⟩ hacc (le_refl _)
        have hacc2 : ∀ kv ∈ acc ++ [((some ⟨n, .Ident, p.key, pos n⟩ : TokenPtr),
            (some ⟨n + 2, .String, p.val, pos (n + 2)⟩ : TokenPtr))],
            ∃ k : Token, kv.1 = some k ∧ k.addr < n + 3 := by
          intro kv hkv
          simp only [List.mem_append, List.mem_singleton] at hkv
          rcases hkv with h | h
          · obtain ⟨k, hk, hlt⟩ := hacc kv h
            exact ⟨k, hk, by omega⟩
          · exact ⟨_, by rw [h], by simp only []; omega⟩
        obtain ⟨k, s, hk, key⟩ := ih (n + 3) true _ hex2 hacc2
        refine ⟨k, s, hk, ?_⟩
        intro fuel hf
        obtain ⟨f, rfl⟩ : ∃ f, fuel = f + 1 := ⟨fuel - 1, by simp at hf; omega⟩
        have hlen : ps.length < f := by simp at hf; omega
        simp only [parsePropsLoop, Grammar.propsTerminals, Grammar.items, Peek_tok, bind_ret,
          expect_same, hp, hpres, Props.set, List.cons_append,
          List.nil_append, List.append_assoc, Bool.false_and, Bool.false_eq_true, if_false,
          if_true, not_false_eq_true, reduceCtorEq, Nat.add_assoc, Nat.reduceAdd,
          List.singleton_append, List.append_eq]
        rw [key f hlen]
      · have hpres := present_of_lt acc n ⟨n + 1, .Ident, p.key, pos (n + 1)⟩ hacc (by simp)
        have hacc2 : ∀ kv ∈ acc ++ [((some ⟨n + 1, .Ident, p.key, pos (n + 1)⟩ : TokenPtr),
            (some ⟨n + 3, .String, p.val, pos (n + 3)⟩ : TokenPtr))],
            ∃ k : Token, kv.1 = some k ∧ k.addr < n + 4 := by
          intro kv hkv
          simp only [List.mem_append, List.mem_singleton] at hkv
          rcases hkv with h | h
          · obtain ⟨k, hk, hlt⟩ := hacc kv h
            exact ⟨k, hk, by omega⟩
          · exact ⟨_, by rw [h], by simp only []; omega⟩
        obtain ⟨k, s, hk, key⟩ := ih (n + 4) true _ hex2 hacc2
        refine ⟨k, s, hk, ?_⟩
        intro fuel hf
        obtain ⟨f, rfl⟩ : ∃ f, fuel = f + 1 := ⟨fuel - 1, by simp at hf; omega⟩
        have hlen : ps.length < f := by simp at hf; omega
        simp only [parsePropsLoop, Grammar.propsTerminals, Grammar.items, Peek_tok, bind_ret,
          expect_same, hp, hpres, Props.set, List.cons_append,
          List.nil_append, List.append_assoc, Bool.true_and, Bool.false_eq_true, if_false,
          if_true, not_false_eq_true, reduceCtorEq, Nat.add_assoc, Nat.reduceAdd,
          List.singleton_append, beq_self_eq_true, List.append_eq]
        rw [key f hlen]
    · have hbad : Grammar.allowedKey p.key = false := by simpa using hp
      have hp2 : ¬ (p.key = "addr" ∨ p.key = "lock" ∨ p.key = "dbnameIn"
          ∨ p.key = "dbnameRewritten") := by
        simpa [Grammar.allowedKey] using hbad
      cases comma
      · refine ⟨⟨n, .Ident, p.key, pos n⟩,
          ⟨Grammar.items pos (n + 1 + 1 + 1) (Grammar.propsTerminals true ps) ++ tl,
            n + 1 + 1 + 1, eof⟩, hbad, ?_⟩
        intro fuel hf
        obtain ⟨f, rfl⟩ : ∃ f, fuel = f + 1 := ⟨fuel - 1, by simp at hf; omega⟩
        simp only [parsePropsLoop, Grammar.propsTerminals, Grammar.items, Peek_tok, bind_ret,
          expect_same, hp2, List.cons_append, List.nil_append, Bool.false_and,
          Bool.false_eq_true, if_false, reduceCtorEq, List.append_eq]
      · refine ⟨⟨n + 1, .Ident, p.key, pos (n + 1)⟩,
          ⟨Grammar.items pos (n + 1 + 1 + 1 + 1) (Grammar.propsTerminals true ps) ++ tl,
            n + 1 + 1 + 1 + 1, eof⟩, hbad, ?_⟩
        intro fuel hf
        obtain ⟨f, rfl⟩ : ∃ f, fuel = f + 1 := ⟨fuel - 1, by simp at hf; omega⟩
        simp only [parsePropsLoop, Grammar.propsTerminals, Grammar.items, Peek_tok, bind_ret,
          expect_same, hp2, List.cons_append, List.nil_append, Bool.true_and,
          Bool.false_eq_true, if_false, if_true, reduceCtorEq, beq_self_eq_true, List.append_eq]

/-- The function `parseRequest` on the terminals of a `request` one of whose
keys is not allowed: it returns the unknown-key error for such a key. -/
theorem parseRequest_unknown (pos : Nat → Position) (eof : Position) (rest : List ScanItem)
    (r : Grammar.Request) (hex : ∃ p ∈ r.action.props, Grammar.allowedKey p.key = false) :
    ∃ (k : Token) (s : Scanner), Grammar.allowedKey k.Lexeme = false ∧
      parseRequest ⟨Grammar.items pos 0 r.terminals ++ rest, 0, eof⟩
        = .ret ((none, some (.unknownKey k)), s) := by
  obtain ⟨sp, a⟩ := r
  have hne : ¬ ("route" ≠ "route") := by decide
  have hcp : ¬ ("create" = "patch") := by decide
  cases a with
  | get => obtain ⟨p, hp, _⟩ := hex; cases hp
  | delete => obtain ⟨p, hp, _⟩ := hex; cases hp
  | patch p ps =>
    obtain ⟨k, s, hk, key⟩ := parsePropsLoop_unknown pos eof
      (Grammar.items pos (2 + sp.terminals.length + 3
          + (Grammar.propsTerminals false (p :: ps)).length)
        [(.RBrace, "]"), (.RBrace, "]"), (.RBrace, "]")] ++ rest)
      (p :: ps) (2 + sp.terminals.length + 3) false [] hex (by intro kv hkv; cases hkv)
    have hsp := parseRouteSpec_grammar pos eof "[" (pos (2 + sp.terminals.length))
      (Grammar.items pos (2 + sp.terminals.length + 1)
        ([(.Ident, "patch"), (.LBrace, "[")] ++ Grammar.propsTerminals false (p :: ps)
          ++ [(.RBrace, "]"), (.RBrace, "]"), (.RBrace, "]")]) ++ rest) sp
    have hL := length_le_propsTerminals (p :: ps) false
    refine ⟨k, s, hk, ?_⟩
    simp only [Grammar.Request.terminals, Grammar.Action.terminals]
    generalize Grammar.propsTerminals false (p :: ps) = L at key hsp hL ⊢
    simp only [List.cons_append, List.nil_append, Grammar.items, items_append, List.append_assoc,
      List.length_cons, List.length_nil, List.length_append, Nat.zero_add, Nat.reduceAdd,
      parseRequest, expect_same, bind_ret, if_neg hne, List.singleton_append, List.append_eq,
      Nat.add_assoc] at key hsp ⊢
    ring_nf at key hsp ⊢
    rw [hsp]
    simp only [bind_ret, parseAction, expect_same, if_true, parseProps]
    ring_nf at key ⊢
    rw [key _ (by simp only [List.length_append, length_items, List.length_cons] at hL ⊢; omega)]
    simp only [bind_ret]
  | create p ps =>
    obtain ⟨k, s, hk, key⟩ := parsePropsLoop_unknown pos eof
      (Grammar.items pos (2 + sp.terminals.length + 3
          + (Grammar.propsTerminals false (p :: ps)).length)
        [(.RBrace, "]"), (.RBrace, "]"), (.RBrace, "]")] ++ rest)
      (p :: ps) (2 + sp.terminals.length + 3) false [] hex (by intro kv hkv; cases hkv)
    have hsp := parseRouteSpec_grammar pos eof "[" (pos (2 + sp.terminals.length))
      (Grammar.items pos (2 + sp.terminals.length + 1)
        ([(.Ident, "create"), (.LBrace, "[")] ++ Grammar.propsTerminals false (p :: ps)
          ++ [(.RBrace, "]"), (.RBrace, "]"), (.RBrace, "]")]) ++ rest) sp
    have hL := length_le_propsTerminals (p :: ps) false
    refine ⟨k, s, hk, ?_⟩
    simp only [Grammar.Request.terminals, Grammar.Action.terminals]
    generalize Grammar.propsTerminals false (p :: ps) = L at key hsp hL ⊢
    simp only [List.cons_append, List.nil_append, Grammar.items, items_append, List.append_assoc,
      List.length_cons, List.length_nil, List.length_append, Nat.zero_add, Nat.reduceAdd,
      parseRequest, expect_same, bind_ret, if_neg hne, List.singleton_append, List.append_eq,
      Nat.add_assoc] at key hsp ⊢
    ring_nf at key hsp ⊢
    rw [hsp]
    simp only [bind_ret, parseAction, expect_same, if_true, parseProps, if_neg hcp]
    ring_nf at key ⊢
    rw [key _ (by simp only [List.length_append, length_items, List.length_cons] at hL ⊢; omega)]
    simp only [bind_ret]

/-! ## Every run of the parser ends well -/

theorem Scanner.Advances.refl (s : Scanner) : s.Advances s :=
  ⟨[], by simp, by simp, by simp, rfl⟩

theorem Scanner.Advances.trans {s t u : Scanner} (h1 : s.Advances t) (h2 : t.Advances u) :
    s.Advances u := by
  obtain ⟨p1, hp1, hi1, hc1, he1⟩ := h1
  obtain ⟨p2, hp2, hi2, hc2, he2⟩ := h2
  refine ⟨p1 ++ p2, ?_, ?_, ?_, ?_⟩
  · intro x hx
    rcases List.mem_append.1 hx with h | h
    · exact hp1 x h
    · exact hp2 x h
  · rw [hi1, hi2, List.append_assoc]
  · rw [hc2, hc1, List.length_append]; omega
  · rw [he2, he1]

theorem Scanner.Advances.length_le {s t : Scanner} (h : s.Advances t) :
    t.input.length ≤ s.input.length := by
  obtain ⟨p, _, hi, _, _⟩ := h
  rw [hi, List.length_append]; omega

theorem Scanner.FailsWith.of_advances {s t : Scanner} {e : ErrScanner} (h1 : s.Advances t)
    (h2 : t.FailsWith e) : s.FailsWith e := by
  obtain ⟨p1, hp1, hi1, hc1, he1⟩ := h1
  obtain ⟨p2, msg, pos, post, hp2, hi2, he⟩ := h2
  refine ⟨p1 ++ p2, msg, pos, post, ?_, ?_, ?_⟩
  · intro x hx
    rcases List.mem_append.1 hx with h | h
    · exact hp1 x h
    · exact hp2 x h
  · rw [hi1, hi2, List.append_assoc]
  · rw [he, hc1, he1, List.length_append, Nat.add_assoc]

theorem Holds.bind {α β : Type} {s : Scanner} {Q : α → Scanner → Prop}
    {R : β → Scanner → Prop} {r : Outcome (α × Scanner)} {k : α × Scanner → Outcome (β × Scanner)}
    (h : Holds s Q r) (hk : ∀ v t, s.Advances t → Q v t → Holds t R (k (v, t))) :
    Holds s R (r.bind k) := by
  cases r with
  | ret v =>
    obtain ⟨hadv, hq⟩ := h
    have := hk v.1 v.2 hadv hq
    simp only [bind_ret]
    cases hkv : k (v.1, v.2) with
    | ret w =>
      rw [hkv] at this
      exact ⟨Scanner.Advances.trans hadv this.1, this.2⟩
    | panic p =>
      rw [hkv] at this
      cases p with
      | errScanner e => exact Scanner.FailsWith.of_advances hadv this
      | runtime m => exact this
    | fuel => rw [hkv] at this; exact this
  | panic p => cases p <;> exact h
  | fuel => exact h

theorem Holds.ret {α : Type} {s : Scanner} {Q : α → Scanner → Prop} {v : α} (h : Q v s) :
    Holds s Q (.ret (v, s)) :=
  ⟨Scanner.Advances.refl s, h⟩

/-- The function `Peek` ends well and leaves the scanner as it is. -/
theorem Peek_holds (s : Scanner) : Holds s (fun _ t => t = s) s.Peek := by
  obtain ⟨inp, n, e⟩ := s
  cases inp with
  | nil => exact ⟨Scanner.Advances.refl _, rfl⟩
  | cons x rest =>
    cases x with
    | tok ty lx p => exact ⟨Scanner.Advances.refl _, rfl⟩
    | bad msg p => exact ⟨[], msg, p, rest, by simp, by simp, by simp⟩

/-- The function `expect` ends well: it returns the token with a nil error, one
item of the input shorter, or a nil token with an error. -/
theorem expect_holds (s : Scanner) (ty : TokenType) (hty : ty ≠ .EOF) :
    Holds s (fun v t => Verdict (fun _ => t.input.length < s.input.length) v) (expect s ty) := by
  obtain ⟨inp, n, e⟩ := s
  cases inp with
  | nil =>
    rw [expect_nil]
    simp only [ne_eq, hty.symm, not_false_eq_true, if_true]
    exact ⟨Scanner.Advances.refl _, Or.inr ⟨_, rfl⟩⟩
  | cons x rest =>
    cases x with
    | tok ty2 lx p =>
      rw [expect_tok]
      have hadv : Scanner.Advances ⟨.tok ty2 lx p :: rest, n, e⟩ ⟨rest, n + 1, e⟩ :=
        ⟨[.tok ty2 lx p], by simp [ScanItem.isTok], by simp, by simp, rfl⟩
      by_cases h : ty2 = ty
      · subst h
        simp only [ne_eq, not_true_eq_false, if_false]
        exact ⟨hadv, Or.inl ⟨_, rfl, by simp⟩⟩
      · simp only [ne_eq, h, not_false_eq_true, if_true]
        exact ⟨hadv, Or.inr ⟨_, rfl⟩⟩
    | bad msg p => exact ⟨[], msg, p, rest, by simp, by simp, by simp⟩

theorem set_keysOK (acc : Props) (k : Token) (v : TokenPtr) (hacc : ∀ kv ∈ acc, KeyOK kv)
    (hk : Grammar.allowedKey k.Lexeme = true) (hpres : ¬ acc.present (some k) = true) :
    ∀ kv ∈ acc.set (some k) v, KeyOK kv := by
  intro kv hkv
  simp only [Props.set, if_neg hpres, List.mem_append, List.mem_singleton] at hkv
  rcases hkv with h | h
  · exact hacc kv h
  · exact ⟨k, by rw [h], hk⟩

/-- The loop of `parseProps` ends well on every input, given fuel for the
length of the input. -/
theorem parsePropsLoop_holds :
    ∀ (fuel : Nat) (s : Scanner) (acc : Props) (c : Bool),
      s.input.length < fuel → (∀ kv ∈ acc, KeyOK kv) →
      Holds s (fun ex _ => ex.Ok) (parsePropsLoop fuel s acc c) := by
  intro fuel
  induction fuel with
  | zero => intro s acc c h; exact absurd h (Nat.not_lt_zero _)
  | succ f ih =>
    intro s acc c hf hacc
    rw [parsePropsLoop]
    refine Holds.bind (Peek_holds s) ?_
    intro tok t _ ht
    subst ht
    simp only []
    by_cases hrb : tok.Typ = .RBrace
    · rw [if_pos hrb]
      exact Holds.ret hacc
    · rw [if_neg hrb]
      refine Holds.bind (Q := fun cv _ => cv = none ∨ ∃ e, cv = some (none, some e)) ?_ ?_
      · by_cases hc : (c && tok.Typ == .Comma) = true
        · rw [if_pos hc]
          refine Holds.bind (expect_holds t .Comma (by decide)) ?_
          intro v u _ hv
          rcases hv with ⟨a, rfl, _⟩ | ⟨e, rfl⟩
          · exact Holds.ret (Or.inl rfl)
          · exact Holds.ret (Or.inr ⟨_, rfl⟩)
        · rw [if_neg hc]
          exact Holds.ret (Or.inl rfl)
      · intro cv t2 hadv2 hcv
        rcases hcv with rfl | ⟨e, rfl⟩
        · simp only []
          refine Holds.bind (expect_holds t2 .Ident (by decide)) ?_
          intro k t3 hadv3 hk
          rcases hk with ⟨kt, rfl, hlen3⟩ | ⟨e, rfl⟩
          · simp only []
            refine Holds.bind (expect_holds t3 .Equals (by decide)) ?_
            intro q t4 hadv4 hq
            rcases hq with ⟨qt, rfl, hlen4⟩ | ⟨e, rfl⟩
            · simp only []
              refine Holds.bind (expect_holds t4 .String (by decide)) ?_
              intro v t5 hadv5 hv
              rcases hv with ⟨vt, rfl, hlen5⟩ | ⟨e, rfl⟩
              · simp only []
                by_cases hkey : kt.Lexeme = "addr" ∨ kt.Lexeme = "lock" ∨ kt.Lexeme = "dbnameIn"
                    ∨ kt.Lexeme = "dbnameRewritten"
                · rw [if_pos hkey]
                  by_cases hpres : ¬ acc.present (some kt) = true
                  · rw [if_pos hpres]
                    refine ih t5 _ true ?_ ?_
                    · have := hadv2.length_le
                      omega
                    · exact set_keysOK acc kt _ hacc
                        (by simpa [Grammar.allowedKey] using hkey) hpres
                  · rw [if_neg hpres]
                    exact Holds.ret (Q := fun (ex : LoopExit) _ => ex.Ok) ⟨_, rfl⟩
                · rw [if_neg hkey]
                  exact Holds.ret (Q := fun (ex : LoopExit) _ => ex.Ok) ⟨_, rfl⟩
              · exact Holds.ret (Q := fun (ex : LoopExit) _ => ex.Ok) ⟨_, rfl⟩
            · exact Holds.ret (Q := fun (ex : LoopExit) _ => ex.Ok) ⟨_, rfl⟩
          · exact Holds.ret (Q := fun (ex : LoopExit) _ => ex.Ok) ⟨_, rfl⟩
        · exact Holds.ret (Q := fun (ex : LoopExit) _ => ex.Ok) ⟨_, rfl⟩

/-- The function `parseProps` ends well: a map with allowed keys and a nil
error, or a nil map and an error. -/
theorem parseProps_holds (s : Scanner) :
    Holds s (fun v _ => Verdict (fun props : Props => ∀ kv ∈ props, KeyOK kv) v)
      (parseProps s) := by
  rw [parseProps]
  refine Holds.bind (expect_holds s .LBrace (by decide)) ?_
  intro r t _ hr
  rcases hr with ⟨a, rfl, _⟩ | ⟨e, rfl⟩
  · simp only []
    refine Holds.bind (parsePropsLoop_holds _ t [] false (Nat.lt_succ_self _)
      (by intro kv hkv; cases hkv)) ?_
    intro ex u _ hex
    cases ex with
    | returned v =>
      obtain ⟨e, rfl⟩ := hex
      exact Holds.ret (Or.inr ⟨_, rfl⟩)
    | done props =>
      simp only []
      refine Holds.bind (expect_holds u .RBrace (by decide)) ?_
      intro c w _ hc
      rcases hc with ⟨b, rfl, _⟩ | ⟨e, rfl⟩
      · exact Holds.ret (Or.inl ⟨_, rfl, hex⟩)
      · exact Holds.ret (Or.inr ⟨_, rfl⟩)
  · exact Holds.ret (Or.inr ⟨_, rfl⟩)

/-- The function `parseRouteSpec` ends well: a node and a nil error, or a nil
node and an error. -/
theorem parseRouteSpec_holds (s : Scanner) :
    Holds s (fun v _ => Verdict (fun _ : SpecSyntax => True) v) (parseRouteSpec s) := by
  rw [parseRouteSpec]
  refine Holds.bind (Peek_holds s) ?_
  intro tok t _ ht
  subst ht
  simp only []
  by_cases hall : tok.Typ = .Ident ∧ tok.Lexeme = "all"
  · rw [if_pos hall]
    refine Holds.bind (expect_holds t .Ident (by decide)) ?_
    intro r u _ hr
    rcases hr with ⟨a, rfl, _⟩ | ⟨e, rfl⟩
    · exact Holds.ret (Or.inl ⟨_, rfl, trivial⟩)
    · exact Holds.ret (Or.inr ⟨_, rfl⟩)
  · rw [if_neg hall]
    refine Holds.bind (expect_holds t .String (by decide)) ?_
    intro w u _ hw
    rcases hw with ⟨a, rfl, _⟩ | ⟨e, rfl⟩
    · simp only []
      refine Holds.bind (Peek_holds u) ?_
      intro tok2 u2 _ hu2
      subst hu2
      simp only []
      by_cases hat : tok2.Typ = .At
      · rw [if_pos hat]
        refine Holds.bind (expect_holds u2 .At (by decide)) ?_
        intro x u3 _ hx
        rcases hx with ⟨b, rfl, _⟩ | ⟨e, rfl⟩
        · simp only []
          refine Holds.bind (expect_holds u3 .Int (by decide)) ?_
          intro n u4 _ hn
          rcases hn with ⟨c, rfl, _⟩ | ⟨e, rfl⟩
          · exact Holds.ret (Or.inl ⟨_, rfl, trivial⟩)
          · exact Holds.ret (Or.inr ⟨_, rfl⟩)
        · exact Holds.ret (Or.inr ⟨_, rfl⟩)
      · rw [if_neg hat]
        exact Holds.ret (Or.inl ⟨_, rfl, trivial⟩)
    · exact Holds.ret (Or.inr ⟨_, rfl⟩)

theorem parseAction_out_holds (a : ActionSyntax) (s : Scanner) (ha : a.KeysOK) :
    Holds s (fun v _ => Verdict ActionSyntax.KeysOK v) (parseAction.out (some a) s) := by
  rw [parseAction.out]
  refine Holds.bind (expect_holds s .RBrace (by decide)) ?_
  intro r u _ hr
  rcases hr with ⟨b, rfl, _⟩ | ⟨e, rfl⟩
  · exact Holds.ret (Or.inl ⟨_, rfl, ha⟩)
  · exact Holds.ret (Or.inr ⟨_, rfl⟩)

/-- The function `parseAction` ends well: a node whose keys are allowed and a
nil error, or a nil node and an error. -/
theorem parseAction_holds (s : Scanner) :
    Holds s (fun v _ => Verdict ActionSyntax.KeysOK v) (parseAction s) := by
  rw [parseAction]
  refine Holds.bind (expect_holds s .LBrace (by decide)) ?_
  intro r t _ hr
  rcases hr with ⟨a, rfl, _⟩ | ⟨e, rfl⟩
  · simp only []
    refine Holds.bind (expect_holds t .Ident (by decide)) ?_
    intro k u _ hk
    rcases hk with ⟨tok, rfl, _⟩ | ⟨e, rfl⟩
    · simp only []
      by_cases h1 : tok.Lexeme = "patch"
      · rw [if_pos h1]
        refine Holds.bind (parseProps_holds u) ?_
        intro p w _ hp
        rcases hp with ⟨props, rfl, hprops⟩ | ⟨e, rfl⟩
        · simp only []
          refine parseAction_out_holds _ w ?_
          intro ps hps kv hkv
          simp only [ActionSyntax.props, Option.some.injEq] at hps
          subst hps
          exact hprops kv hkv
        · exact Holds.ret (Or.inr ⟨_, rfl⟩)
      · rw [if_neg h1]
        by_cases h2 : tok.Lexeme = "create"
        · rw [if_pos h2]
          refine Holds.bind (parseProps_holds u) ?_
          intro p w _ hp
          rcases hp with ⟨props, rfl, hprops⟩ | ⟨e, rfl⟩
          · simp only []
            refine parseAction_out_holds _ w ?_
            intro ps hps kv hkv
            simp only [ActionSyntax.props, Option.some.injEq] at hps
            subst hps
            exact hprops kv hkv
          · exact Holds.ret (Or.inr ⟨_, rfl⟩)
        · rw [if_neg h2]
          by_cases h3 : tok.Lexeme = "get"
          · rw [if_pos h3]
            exact parseAction_out_holds _ u (by intro ps hps; cases hps)
          · rw [if_neg h3]
            by_cases h4 : tok.Lexeme = "delete"
            · rw [if_pos h4]
              exact parseAction_out_holds _ u (by intro ps hps; cases hps)
            · rw [if_neg h4]
              exact Holds.ret (Or.inr ⟨_, rfl⟩)
    · exact Holds.ret (Or.inr ⟨_, rfl⟩)
  · exact Holds.ret (Or.inr ⟨_, rfl⟩)

/-- The function `parseRequest` ends well: a tree with a target node and an
action node whose keys are allowed, and a nil error; or a nil tree and an
error; or the panic of the first lexical error. -/
theorem parseRequest_holds (s : Scanner) :
    Holds s (fun v _ => Verdict (fun rs : RequestSyntax =>
        (∃ sp, rs.Spec = some sp) ∧ ∃ a, rs.Action = some a ∧ a.KeysOK) v)
      (parseRequest s) := by
  rw [parseRequest]
  refine Holds.bind (expect_holds s .LBrace (by decide)) ?_
  intro r t _ hr
  rcases hr with ⟨a, rfl, _⟩ | ⟨e, rfl⟩
  · simp only []
    refine Holds.bind (expect_holds t .Ident (by decide)) ?_
    intro k u _ hk
    rcases hk with ⟨tok, rfl, _⟩ | ⟨e, rfl⟩
    · simp only []
      by_cases h1 : tok.Lexeme ≠ "route"
      · rw [if_pos h1]
        exact Holds.ret (Or.inr ⟨_, rfl⟩)
      · rw [if_neg h1]
        refine Holds.bind (parseRouteSpec_holds u) ?_
        intro sp w _ hsp
        rcases hsp with ⟨spec, rfl, _⟩ | ⟨e, rfl⟩
        · simp only []
          refine Holds.bind (parseAction_holds w) ?_
          intro ac x _ hac
          rcases hac with ⟨act, rfl, hact⟩ | ⟨e, rfl⟩
          · simp only []
            refine Holds.bind (expect_holds x .RBrace (by decide)) ?_
            intro c y _ hc
            rcases hc with ⟨b, rfl, _⟩ | ⟨e, rfl⟩
            · exact Holds.ret (Or.inl ⟨_, rfl, ⟨_, rfl⟩, _, rfl, hact⟩)
            · exact Holds.ret (Or.inr ⟨_, rfl⟩)
          · exact Holds.ret (Or.inr ⟨_, rfl⟩)
        · exact Holds.ret (Or.inr ⟨_, rfl⟩)
    · exact Holds.ret (Or.inr ⟨_, rfl⟩)
  · exact Holds.ret (Or.inr ⟨_, rfl⟩)

/-! ## A successful run does not look at the end of the input -/

theorem bind_eq_ret {α β : Type} {r : Outcome α} {k : α → Outcome β} {w : β}
    (h : r.bind k = .ret w) : ∃ v, r = .ret v ∧ k v = .ret w := by
  cases r with
  | ret v => exact ⟨v, rfl, h⟩
  | panic p => cases h
  | fuel => cases h

theorem expect_extend {s u : Scanner} {ty : TokenType} {v : TokenPtr}
    (ext : List ScanItem) (eof : Position) (hty : ty ≠ .EOF)
    (h : expect s ty = .ret ((v, none), u)) :
    expect (s.extend ext eof) ty = .ret ((v, none), u.extend ext eof) := by
  obtain ⟨inp, n, e⟩ := s
  cases inp with
  | nil =>
    rw [expect_nil, if_pos (Ne.symm hty)] at h
    simp at h
  | cons x rest =>
    cases x with
    | tok ty2 lx p =>
      simp only [Scanner.extend, List.cons_append]
      rw [expect_tok] at h ⊢
      by_cases hne : ty2 ≠ ty
      · rw [if_pos hne] at h
        simp at h
      · rw [if_neg hne] at h ⊢
        simp only [Outcome.ret.injEq, Prod.mk.injEq, and_true] at h
        obtain ⟨hv, hu⟩ := h
        subst hv hu
        rfl
    | bad msg p => rw [expect_bad] at h; cases h

theorem expect_ne_nil {s u : Scanner} {ty : TokenType} {v : TokenPtr} (hty : ty ≠ .EOF)
    (h : expect s ty = .ret ((v, none), u)) : s.input ≠ [] := by
  obtain ⟨inp, n, e⟩ := s
  cases inp with
  | nil =>
    rw [expect_nil, if_pos (Ne.symm hty)] at h
    simp at h
  | cons x rest => simp

theorem Peek_extend {s u : Scanner} {t : Token} (ext : List ScanItem) (eof : Position)
    (hne : s.input ≠ []) (h : s.Peek = .ret (t, u)) :
    (s.extend ext eof).Peek = .ret (t, u.extend ext eof) := by
  obtain ⟨inp, n, e⟩ := s
  cases inp with
  | nil => exact absurd rfl hne
  | cons x rest =>
    cases x with
    | tok ty2 lx p =>
      rw [Peek_tok] at h
      simp only [Outcome.ret.injEq, Prod.mk.injEq] at h
      obtain ⟨ht, hu⟩ := h
      subst ht hu
      rfl
    | bad msg p => cases h

theorem Peek_same {s u : Scanner} {t : Token} (h : s.Peek = .ret (t, u)) : u = s := by
  have := Peek_holds s
  rw [h] at this
  exact this.2

theorem parsePropsLoop_nil (f n : Nat) (e : Position) (acc : Props) (c : Bool) :
    parsePropsLoop (f + 1) ⟨[], n, e⟩ acc c
      = .ret (.returned (none, some (.expectedToken .Ident ⟨n, .EOF, "", e⟩)), ⟨[], n, e⟩) := by
  cases c <;> rfl

/-- The loop of `parseProps`, when it is left in front of the closing bracket,
does the same on every longer text and with any more fuel. -/
theorem parsePropsLoop_extend (ext : List ScanItem) (eof : Position) :
    ∀ (f : Nat) (s u : Scanner) (acc props : Props) (c : Bool),
      parsePropsLoop f s acc c = .ret (.done props, u) →
      ∀ f2, f ≤ f2 →
        parsePropsLoop f2 (s.extend ext eof) acc c = .ret (.done props, u.extend ext eof) := by
  intro f
  induction f with
  | zero => intro s u acc props c h; simp [parsePropsLoop] at h
  | succ f ih =>
    intro s u acc props c h f2 hf2
    obtain ⟨g, rfl⟩ : ∃ g, f2 = g + 1 := ⟨f2 - 1, by omega⟩
    have hfg : f ≤ g := by omega
    have hne : s.input ≠ [] := by
      intro hnil
      obtain ⟨inp, n, e⟩ := s
      simp only at hnil
      subst hnil
      rw [parsePropsLoop_nil] at h
      simp at h
    rw [parsePropsLoop] at h ⊢
    obtain ⟨pk, hpk, h1⟩ := bind_eq_ret h
    obtain ⟨tok, t⟩ := pk
    have ht := Peek_same hpk
    subst ht
    rw [Peek_extend ext eof hne hpk, bind_ret]
    dsimp only at h1 ⊢
    by_cases hrb : tok.Typ = .RBrace
    · rw [if_pos hrb] at h1 ⊢
      simp only [Outcome.ret.injEq, Prod.mk.injEq, LoopExit.done.injEq] at h1
      obtain ⟨e1, e2⟩ := h1
      subst e1 e2
      rfl
    · rw [if_neg hrb] at h1 ⊢
      obtain ⟨cv, hcv, h2⟩ := bind_eq_ret h1
      obtain ⟨cv1, t2⟩ := cv
      cases cv1 with
      | some v => simp at h2
      | none =>
        have hcomma : (if (c && tok.Typ == .Comma) = true then
              (expect (t.extend ext eof) .Comma).bind fun r =>
                match r.1.2 with
                | some err => .ret (some (none, some err), r.2)
                | none => .ret (none, r.2)
            else .ret (none, t.extend ext eof) :
              Outcome (Option (Option Props × Option Error) × Scanner))
            = .ret (none, t2.extend ext eof) := by
          by_cases hc : (c && tok.Typ == .Comma) = true
          · rw [if_pos hc] at hcv ⊢
            obtain ⟨r, hr, hk⟩ := bind_eq_ret hcv
            obtain ⟨⟨rv, re⟩, r2⟩ := r
            cases re with
            | some err => simp at hk
            | none =>
              simp only [Outcome.ret.injEq, Prod.mk.injEq, true_and] at hk
              subst hk
              rw [expect_extend ext eof (by decide) hr, bind_ret]
          · rw [if_neg hc] at hcv ⊢
            simp only [Outcome.ret.injEq, Prod.mk.injEq, true_and] at hcv
            subst hcv
            rfl
        rw [hcomma, bind_ret]
        dsimp only at h2 ⊢
        obtain ⟨k, hk, h3⟩ := bind_eq_ret h2
        obtain ⟨⟨kv, ke⟩, t3⟩ := k
        cases ke with
        | some err => simp at h3
        | none =>
          rw [expect_extend ext eof (by decide) hk, bind_ret]
          dsimp only at h3 ⊢
          obtain ⟨q, hq, h4⟩ := bind_eq_ret h3
          obtain ⟨⟨qv, qe⟩, t4⟩ := q
          cases qe with
          | some err => simp at h4
          | none =>
            rw [expect_extend ext eof (by decide) hq, bind_ret]
            dsimp only at h4 ⊢
            obtain ⟨v, hv, h5⟩ := bind_eq_ret h4
            obtain ⟨⟨vv, ve⟩, t5⟩ := v
            cases ve with
            | some err => simp at h5
            | none =>
              rw [expect_extend ext eof (by decide) hv, bind_ret]
              dsimp only at h5 ⊢
              cases kv with
              | none => simp at h5
              | some keyTok =>
                dsimp only at h5 ⊢
                by_cases hkey : keyTok.Lexeme = "addr" ∨ keyTok.Lexeme = "lock"
                    ∨ keyTok.Lexeme = "dbnameIn" ∨ keyTok.Lexeme = "dbnameRewritten"
                · rw [if_pos hkey] at h5 ⊢
                  by_cases hpres : ¬ acc.present (some keyTok) = true
                  · rw [if_pos hpres] at h5 ⊢
                    exact ih _ _ _ _ _ h5 g hfg
                  · rw [if_neg hpres] at h5
                    simp at h5
                · rw [if_neg hkey] at h5
                  simp at h5

theorem parseProps_extend {s u : Scanner} {v : Option Props} (ext : List ScanItem)
    (eof : Position) (h : parseProps s = .ret ((v, none), u)) :
    parseProps (s.extend ext eof) = .ret ((v, none), u.extend ext eof) := by
  rw [parseProps] at h ⊢
  obtain ⟨r, hr, h1⟩ := bind_eq_ret h
  obtain ⟨⟨rv, re⟩, t⟩ := r
  cases re with
  | some err => simp at h1
  | none =>
    rw [expect_extend ext eof (by decide) hr, bind_ret]
    dsimp only at h1 ⊢
    obtain ⟨l, hl, h2⟩ := bind_eq_ret h1
    obtain ⟨ex, t2⟩ := l
    cases ex with
    | returned w =>
      have hh := parsePropsLoop_holds _ t [] false (Nat.lt_succ_self _)
        (by intro kv hkv; cases hkv)
      rw [hl] at hh
      obtain ⟨e, he⟩ := hh.2
      subst he
      simp at h2
    | done props =>
      have hfuel : t.input.length + 1 ≤ (t.extend ext eof).input.length + 1 := by
        simp [Scanner.extend]
      rw [parsePropsLoop_extend ext eof _ _ _ _ _ _ hl _ hfuel, bind_ret]
      dsimp only at h2 ⊢
      obtain ⟨c, hc, h3⟩ := bind_eq_ret h2
      obtain ⟨⟨cv, ce⟩, t3⟩ := c
      cases ce with
      | some err => simp at h3
      | none =>
        rw [expect_extend ext eof (by decide) hc, bind_ret]
        simp only [Outcome.ret.injEq, Prod.mk.injEq, and_true] at h3
        obtain ⟨e1, e2⟩ := h3
        subst e1 e2
        rfl

theorem parseRouteSpec_extend {s u : Scanner} {v : Option SpecSyntax} (ext : List ScanItem)
    (eof : Position) (h : parseRouteSpec s = .ret ((v, none), u)) (hu : u.input ≠ []) :
    parseRouteSpec (s.extend ext eof) = .ret ((v, none), u.extend ext eof) := by
  have hs : s.input ≠ [] := by
    have hh := parseRouteSpec_holds s
    rw [h] at hh
    have hle := hh.1.length_le
    intro hnil
    rw [hnil] at hle
    exact hu (List.length_eq_zero.1 (Nat.le_zero.1 hle))
  rw [parseRouteSpec] at h ⊢
  obtain ⟨pk, hpk, h1⟩ := bind_eq_ret h
  obtain ⟨tok, t⟩ := pk
  have ht := Peek_same hpk
  subst ht
  rw [Peek_extend ext eof hs hpk, bind_ret]
  dsimp only at h1 ⊢
  by_cases hall : tok.Typ = .Ident ∧ tok.Lexeme = "all"
  · rw [if_pos hall] at h1 ⊢
    obtain ⟨r, hr, h2⟩ := bind_eq_ret h1
    obtain ⟨⟨rv, re⟩, t2⟩ := r
    cases re with
    | some err => simp at h2
    | none =>
      rw [expect_extend ext eof (by decide) hr, bind_ret]
      simp only [Outcome.ret.injEq, Prod.mk.injEq, and_true] at h2
      obtain ⟨e1, e2⟩ := h2
      subst e1 e2
      rfl
  · rw [if_neg hall] at h1 ⊢
    obtain ⟨w, hw, h2⟩ := bind_eq_ret h1
    obtain ⟨⟨wv, we⟩, t2⟩ := w
    cases we with
    | some err => simp at h2
    | none =>
      rw [expect_extend ext eof (by decide) hw, bind_ret]
      dsimp only at h2 ⊢
      obtain ⟨pk2, hpk2, h3⟩ := bind_eq_ret h2
      obtain ⟨tok2, t3⟩ := pk2
      have ht3 := Peek_same hpk2
      subst ht3
      dsimp only at h3
      by_cases hat : tok2.Typ = .At
      · rw [if_pos hat] at h3
        obtain ⟨a, ha, h4⟩ := bind_eq_ret h3
        obtain ⟨⟨av, ae⟩, t4⟩ := a
        cases ae with
        | some err => simp at h4
        | none =>
          rw [Peek_extend ext eof (expect_ne_nil (by decide) ha) hpk2, bind_ret]
          dsimp only
          rw [if_pos hat, expect_extend ext eof (by decide) ha, bind_ret]
          dsimp only at h4 ⊢
          obtain ⟨n, hn, h5⟩ := bind_eq_ret h4
          obtain ⟨⟨nv, ne⟩, t5⟩ := n
          cases ne with
          | some err => simp at h5
          | none =>
            rw [expect_extend ext eof (by decide) hn, bind_ret]
            simp only [Outcome.ret.injEq, Prod.mk.injEq, and_true] at h5
            obtain ⟨e1, e2⟩ := h5
            subst e1 e2
            rfl
      · rw [if_neg hat] at h3
        simp only [Outcome.ret.injEq, Prod.mk.injEq, and_true] at h3
        obtain ⟨e1, e2⟩ := h3
        subst e1 e2
        rw [Peek_extend ext eof hu hpk2, bind_ret]
        dsimp only
        rw [if_neg hat]

theorem parseAction_out_extend {s u : Scanner} {a v : Option ActionSyntax}
    (ext : List ScanItem) (eof : Position) (h : parseAction.out a s = .ret ((v, none), u)) :
    parseAction.out a (s.extend ext eof) = .ret ((v, none), u.extend ext eof) := by
  rw [parseAction.out] at h ⊢
  obtain ⟨r, hr, h1⟩ := bind_eq_ret h
  obtain ⟨⟨rv, re⟩, t⟩ := r
  cases re with
  | some err => simp at h1
  | none =>
    rw [expect_extend ext eof (by decide) hr, bind_ret]
    simp only [Outcome.ret.injEq, Prod.mk.injEq, and_true] at h1
    obtain ⟨e1, e2⟩ := h1
    subst e1 e2
    rfl

theorem parseAction_extend {s u : Scanner} {v : Option ActionSyntax} (ext : List ScanItem)
    (eof : Position) (h : parseAction s = .ret ((v, none), u)) :
    parseAction (s.extend ext eof) = .ret ((v, none), u.extend ext eof) := by
  rw [parseAction] at h ⊢
  obtain ⟨r, hr, h1⟩ := bind_eq_ret h
  obtain ⟨⟨rv, re⟩, t⟩ := r
  cases re with
  | some err => simp at h1
  | none =>
    rw [expect_extend ext eof (by decide) hr, bind_ret]
    dsimp only at h1 ⊢
    obtain ⟨k, hk, h2⟩ := bind_eq_ret h1
    obtain ⟨⟨kv, ke⟩, t2⟩ := k
    cases ke with
    | some err => simp at h2
    | none =>
      rw [expect_extend ext eof (by decide) hk, bind_ret]
      dsimp only at h2 ⊢
      cases kv with
      | none => simp at h2
      | some tok =>
        dsimp only at h2 ⊢
        by_cases c1 : tok.Lexeme = "patch"
        · rw [if_pos c1] at h2 ⊢
          obtain ⟨p, hp, h3⟩ := bind_eq_ret h2
          obtain ⟨⟨pv, pe⟩, t3⟩ := p
          cases pe with
          | some err => simp at h3
          | none =>
            rw [parseProps_extend ext eof hp, bind_ret]
            exact parseAction_out_extend ext eof h3
        · rw [if_neg c1] at h2 ⊢
          by_cases c2 : tok.Lexeme = "create"
          · rw [if_pos c2] at h2 ⊢
            obtain ⟨p, hp, h3⟩ := bind_eq_ret h2
            obtain ⟨⟨pv, pe⟩, t3⟩ := p
            cases pe with
            | some err => simp at h3
            | none =>
              rw [parseProps_extend ext eof hp, bind_ret]
              exact parseAction_out_extend ext eof h3
          · rw [if_neg c2] at h2 ⊢
            by_cases c3 : tok.Lexeme = "get"
            · rw [if_pos c3] at h2 ⊢
              exact parseAction_out_extend ext eof h2
            · rw [if_neg c3] at h2 ⊢
              by_cases c4 : tok.Lexeme = "delete"
              · rw [if_pos c4] at h2 ⊢
                exact parseAction_out_extend ext eof h2
              · rw [if_neg c4] at h2
                simp at h2

theorem parseAction_ne_nil {s u : Scanner} {v : Option ActionSyntax}
    (h : parseAction s = .ret ((v, none), u)) : s.input ≠ [] := by
  rw [parseAction] at h
  obtain ⟨r, hr, h1⟩ := bind_eq_ret h
  obtain ⟨⟨rv, re⟩, t⟩ := r
  cases re with
  | some err => simp at h1
  | none => exact expect_ne_nil (by decide) hr

/-- A successful run of `parseRequest` is the same on every longer text: the
same tree, and the added items are left unscanned. -/
theorem parseRequest_extend {s u : Scanner} {v : Option RequestSyntax} (ext : List ScanItem)
    (eof : Position) (h : parseRequest s = .ret ((v, none), u)) :
    parseRequest (s.extend ext eof) = .ret ((v, none), u.extend ext eof) := by
  rw [parseRequest] at h ⊢
  obtain ⟨r, hr, h1⟩ := bind_eq_ret h
  obtain ⟨⟨rv, re⟩, t⟩ := r
  cases re with
  | some err => simp at h1
  | none =>
    rw [expect_extend ext eof (by decide) hr, bind_ret]
    dsimp only at h1 ⊢
    obtain ⟨k, hk, h2⟩ := bind_eq_ret h1
    obtain ⟨⟨kv, ke⟩, t2⟩ := k
    cases ke with
    | some err => simp at h2
    | none =>
      rw [expect_extend ext eof (by decide) hk, bind_ret]
      dsimp only at h2 ⊢
      cases kv with
      | none => simp at h2
      | some tok =>
        dsimp only at h2 ⊢
        by_cases c1 : tok.Lexeme ≠ "route"
        · rw [if_pos c1] at h2
          simp at h2
        · rw [if_neg c1] at h2 ⊢
          obtain ⟨sp, hsp, h3⟩ := bind_eq_ret h2
          obtain ⟨⟨spv, spe⟩, t3⟩ := sp
          cases spe with
          | some err => simp at h3
          | none =>
            dsimp only at h3
            obtain ⟨ac, hac, h4⟩ := bind_eq_ret h3
            obtain ⟨⟨acv, ace⟩, t4⟩ := ac
            cases ace with
            | some err => simp at h4
            | none =>
              rw [parseRouteSpec_extend ext eof hsp (parseAction_ne_nil hac), bind_ret]
              dsimp only
              rw [parseAction_extend ext eof hac, bind_ret]
              dsimp only at h4 ⊢
              obtain ⟨c, hc, h5⟩ := bind_eq_ret h4
              obtain ⟨⟨cv, ce⟩, t5⟩ := c
              cases ce with
              | some err => simp at h5
              | none =>
                rw [expect_extend ext eof (by decide) hc, bind_ret]
                simp only [Outcome.ret.injEq, Prod.mk.injEq, and_true] at h5
                obtain ⟨e1, e2⟩ := h5
                subst e1 e2
                rfl

/-! ## The claims about the parser -/

/-- C4: for every token sequence derived by the grammar of `request`, with
property keys from the allowed set, `parseRequest` (and `ParseRequest`) returns
a nil error and the tree of the derivation, having consumed the whole sequence:
`TargetAllSpecSyntax` for `all`, `TargetOneSpecSyntax` for a string,
`TargetOcnSpecSyntax` for string `@` integer, the action node named by the
keyword, and for patch and create the map from each key token to its value
token.  The target shape and the action are independent parts of the
derivation, so each shape parses with each action. -/
theorem parseRequest_derivable (pos : Nat → Position) (eof : Position) (r : Grammar.Request)
    (hkeys : ∀ p ∈ r.action.props, Grammar.allowedKey p.key = true) :
    parseRequest (Scanner.Init (Grammar.items pos 0 r.terminals) eof)
        = .ret ((some (r.ast pos), none), ⟨[], r.terminals.length, eof⟩)
      ∧ ParseRequest (Grammar.items pos 0 r.terminals) eof = .ret (some (r.ast pos), none) := by
  have h := parseRequest_grammar pos eof [] r hkeys
  rw [List.append_nil] at h
  exact ⟨h, by simp only [ParseRequest, Scanner.Init, h]⟩

theorem parseRequest_derivable_witness :
    (∀ p ∈ Fixture.quoting.action.props, Grammar.allowedKey p.key = true)
      ∧ ParseRequest (Grammar.items Fixture.linePos 0 Fixture.quoting.terminals) ⟨1, 18⟩
        = .ret (some (Fixture.quoting.ast Fixture.linePos), none) :=
  ⟨by decide, (parseRequest_derivable Fixture.linePos ⟨1, 18⟩ Fixture.quoting (by decide)).2⟩

/-- C5 (the code at the failing input): on `[route all [get]] all`, a complete
request followed by one more token, `ParseRequest` returns the tree of the
request and a nil error, not a syntax error: `parseRequest` returns right behind
the closing bracket and makes no check for the end of the input, although the
grammar in `parser.go` derives nothing behind the last bracket of a request. -/
theorem ParseRequest_trailing_accepted :
    ParseRequest Fixture.getAllTrailing ⟨1, 22⟩ = .ret (some Fixture.getAllAst, none)
      ∧ ¬ ∃ e, ParseRequest Fixture.getAllTrailing ⟨1, 22⟩ = .ret (none, some e) :=
  ⟨by decide, by
    intro h
    obtain ⟨e, he⟩ := h
    have h2 : ParseRequest Fixture.getAllTrailing ⟨1, 22⟩ = .ret (some Fixture.getAllAst, none) := by
      decide
    rw [h2] at he
    cases he⟩

/-- C7: a request derived by the grammar with a property key outside `addr`,
`lock`, `dbnameIn`, `dbnameRewritten` fails to parse, with the unknown-key error
for such a key and no tree; and in every successfully parsed request every key
token of the property map has a lexeme in that set. -/
theorem parseProps_key_set :
    (∀ (pos : Nat → Position) (eof : Position) (r : Grammar.Request),
      (∃ p ∈ r.action.props, Grammar.allowedKey p.key = false) →
      ∃ k : Token, Grammar.allowedKey k.Lexeme = false
        ∧ ParseRequest (Grammar.items pos 0 r.terminals) eof = .ret (none, some (.unknownKey k)))
    ∧ (∀ (items : List ScanItem) (eof : Position) (rs : RequestSyntax),
      ParseRequest items eof = .ret (some rs, none) →
      ∀ a, rs.Action = some a → ∀ props, a.props = some props →
      ∀ kv ∈ props, ∃ k : Token, kv.1 = some k ∧ Grammar.allowedKey k.Lexeme = true) := by
  constructor
  · intro pos eof r hex
    obtain ⟨k, s, hk, h⟩ := parseRequest_unknown pos eof [] r hex
    rw [List.append_nil] at h
    exact ⟨k, hk, by simp only [ParseRequest, Scanner.Init, h]⟩
  · intro items eof rs h a ha props hprops kv hkv
    have hh := parseRequest_holds (Scanner.Init items eof)
    unfold ParseRequest at h
    cases hr : parseRequest (Scanner.Init items eof) with
    | ret v =>
      rw [hr] at h hh
      simp only [Outcome.ret.injEq] at h
      obtain ⟨_, hv⟩ := hh
      rcases hv with ⟨rs2, hrs2, _, a2, ha2, hok⟩ | ⟨e, he⟩
      · rw [h] at hrs2
        simp only [Prod.mk.injEq, Option.some.injEq, and_true] at hrs2
        subst hrs2
        rw [ha] at ha2
        simp only [Option.some.injEq] at ha2
        subst ha2
        exact hok props hprops kv hkv
      · rw [h] at he
        simp at he
    | panic p =>
      rw [hr] at h
      cases p <;> simp at h
    | fuel =>
      rw [hr] at h
      simp at h

theorem parseProps_key_set_witness :
    (∃ p ∈ Fixture.unknownKey.action.props, Grammar.allowedKey p.key = false)
      ∧ (∃ k : Token, Grammar.allowedKey k.Lexeme = false
        ∧ ParseRequest (Grammar.items Fixture.linePos 0 Fixture.unknownKey.terminals) ⟨1, 16⟩
          = .ret (none, some (.unknownKey k)))
      ∧ ParseRequest Fixture.patchNoOcn ⟨1, 33⟩ = .ret (some Fixture.patchNoOcnAst, none)
      ∧ (∀ kv ∈ [((some ⟨6, .Ident, "lock", ⟨1, 22⟩⟩ : TokenPtr),
            (some ⟨8, .String, "'t'", ⟨1, 27⟩⟩ : TokenPtr))],
          ∃ k : Token, kv.1 = some k ∧ Grammar.allowedKey k.Lexeme = true) :=
  ⟨by decide,
    parseProps_key_set.1 Fixture.linePos ⟨1, 16⟩ Fixture.unknownKey (by decide),
    by decide,
    parseProps_key_set.2 Fixture.patchNoOcn ⟨1, 33⟩ Fixture.patchNoOcnAst (by decide) _ rfl _ rfl⟩

/-- C9: if a token sequence parses successfully with all of its items consumed,
then every proper prefix of it, followed by the end of the input, fails to
parse: `ParseRequest` returns a nil tree and an error. -/
theorem ParseRequest_proper_prefix_fails (items : List ScanItem) (eof : Position)
    (rs : RequestSyntax) (u : Scanner)
    (h : parseRequest (Scanner.Init items eof) = .ret ((some rs, none), u))
    (hu : u.input = []) (pre ext : List ScanItem) (eof2 : Position)
    (hsplit : items = pre ++ ext) (hext : ext ≠ []) :
    ∃ e, ParseRequest pre eof2 = .ret (none, some e) := by
  have hh := parseRequest_holds (Scanner.Init pre eof2)
  unfold ParseRequest
  cases hr : parseRequest (Scanner.Init pre eof2) with
  | ret v =>
    rw [hr] at hh
    obtain ⟨⟨rv, re⟩, u2⟩ := v
    rcases hh.2 with ⟨rs2, hrs2, _⟩ | ⟨e, he⟩
    · simp only [Prod.mk.injEq] at hrs2
      obtain ⟨e1, e2⟩ := hrs2
      subst e1 e2
      have hx := parseRequest_extend ext eof hr
      have hinit : (Scanner.Init pre eof2).extend ext eof = Scanner.Init items eof := by
        rw [hsplit]; rfl
      rw [hinit, h] at hx
      simp only [Outcome.ret.injEq, Prod.mk.injEq, Option.some.injEq, true_and] at hx
      rw [hx.2] at hu
      simp only [Scanner.extend, List.append_eq_nil] at hu
      exact absurd hu.2 hext
    · exact ⟨e, congrArg Outcome.ret he⟩
  | panic p =>
    rw [hr] at hh
    cases p with
    | errScanner e => exact ⟨_, rfl⟩
    | runtime m => exact absurd hh (by simp [Holds])
  | fuel =>
    rw [hr] at hh
    exact absurd hh (by simp [Holds])

theorem ParseRequest_proper_prefix_fails_witness :
    parseRequest (Scanner.Init Fixture.deleteOcn ⟨1, 29⟩)
        = .ret ((some Fixture.deleteOcnAst, none), ⟨[], 9, ⟨1, 29⟩⟩)
      ∧ Fixture.deleteOcn = Fixture.deleteOcn.take 8 ++ [.tok .RBrace "]" ⟨1, 28⟩]
      ∧ ∃ e, ParseRequest (Fixture.deleteOcn.take 8) ⟨1, 28⟩ = .ret (none, some e) :=
  ⟨by decide, by decide,
    ParseRequest_proper_prefix_fails Fixture.deleteOcn ⟨1, 29⟩ Fixture.deleteOcnAst
      ⟨[], 9, ⟨1, 29⟩⟩ (by decide) rfl (Fixture.deleteOcn.take 8) [.tok .RBrace "]" ⟨1, 28⟩]
      ⟨1, 28⟩ (by decide) (by decide)⟩

/-- C10: if the scanner reports a lexical error during a parse, that is, the
handler installed by `ParseRequest` raises its `ErrScanner` panic `e` inside
`parseRequest`, then `ParseRequest` returns a nil tree and `e` as the error; `e`
is the report of the first bad item of the input: all items before it are
tokens, the base message and position are the ones of that item, and the input
behind it is still unscanned in the scanner of `e`. -/
theorem ParseRequest_scanner_error (items : List ScanItem) (eof : Position) (e : ErrScanner)
    (h : parseRequest (Scanner.Init items eof) = .panic (.errScanner e)) :
    ParseRequest items eof = .ret (none, some (.scanner e))
      ∧ ∃ (pre : List ScanItem) (msg : String) (pos : Position) (post : List ScanItem),
        items = pre ++ .bad msg pos :: post ∧ (∀ x ∈ pre, x.isTok = true)
          ∧ e.BaseMessage = msg ∧ e.Pos = pos ∧ e.Scanner.input = post
          ∧ e.Scanner.count = pre.length := by
  refine ⟨by simp only [ParseRequest, h], ?_⟩
  have hh := parseRequest_holds (Scanner.Init items eof)
  rw [h] at hh
  obtain ⟨pre, msg, pos, post, hpre, hin, he⟩ := hh
  refine ⟨pre, msg, pos, post, hin, hpre, ?_, ?_, ?_, ?_⟩ <;> simp [he, Scanner.Init]

theorem ParseRequest_scanner_error_witness :
    parseRequest (Scanner.Init Fixture.unterminatedString ⟨1, 27⟩)
        = .panic (.errScanner ⟨⟨1, 8⟩, "literal not terminated", ⟨[], 2, ⟨1, 27⟩⟩⟩)
      ∧ ParseRequest Fixture.unterminatedString ⟨1, 27⟩
        = .ret (none, some (.scanner ⟨⟨1, 8⟩, "literal not terminated", ⟨[], 2, ⟨1, 27⟩⟩⟩)) :=
  ⟨by decide, (ParseRequest_scanner_error Fixture.unterminatedString ⟨1, 27⟩ _ (by decide)).1⟩

/-! ## The panic statements of the parser -/

/-- The statement-by-statement body of `parseRouteSpec`, its `panic` statement
included, computes what `parseRouteSpec` computes. -/
theorem parseRouteSpec_body_eq (s : Scanner) : parseRouteSpec.body s = parseRouteSpec s := by
  unfold parseRouteSpec.body parseRouteSpec.allStmt parseRouteSpec
  cases s.Peek with
  | panic p => rfl
  | fuel => rfl
  | ret pk =>
    simp only [bind_ret]
    by_cases hall : pk.1.Typ = .Ident ∧ pk.1.Lexeme = "all"
    · simp only [if_pos hall]
      cases expect pk.2 .Ident with
      | panic p => rfl
      | fuel => rfl
      | ret r =>
        obtain ⟨⟨rv, re⟩, r2⟩ := r
        cases re <;> rfl
    · simp only [if_neg hall, bind_ret]
      cases expect pk.2 .String with
      | panic p => rfl
      | fuel => rfl
      | ret w =>
        obtain ⟨⟨wv, we⟩, w2⟩ := w
        cases we with
        | some err => rfl
        | none =>
          simp only [bind_ret]
          unfold parseRouteSpec.ocnStmt
          cases w2.Peek with
          | panic p => rfl
          | fuel => rfl
          | ret pk2 =>
            simp only [bind_ret]
            by_cases hat : pk2.1.Typ = .At
            · simp only [if_pos hat]
              cases expect pk2.2 .At with
              | panic p => rfl
              | fuel => rfl
              | ret a =>
                obtain ⟨⟨av, ae⟩, a2⟩ := a
                cases ae with
                | some err => rfl
                | none =>
                  simp only [bind_ret]
                  cases expect a2 .Int with
                  | panic p => rfl
                  | fuel => rfl
                  | ret n =>
                    obtain ⟨⟨nv, ne⟩, n2⟩ := n
                    cases ne <;> rfl
            · simp only [if_neg hat, bind_ret]

/-- The statement-by-statement body of `parseAction`, its `panic` statement
included, computes what `parseAction` computes. -/
theorem parseAction_body_eq (s : Scanner) : parseAction.body s = parseAction s := by
  unfold parseAction.body parseAction
  cases expect s .LBrace with
  | panic p => rfl
  | fuel => rfl
  | ret r =>
    obtain ⟨⟨rv, re⟩, r2⟩ := r
    cases re with
    | some err => rfl
    | none =>
      simp only [bind_ret]
      cases expect r2 .Ident with
      | panic p => rfl
      | fuel => rfl
      | ret t =>
        obtain ⟨⟨tv, te⟩, t2⟩ := t
        cases te with
        | some err => rfl
        | none =>
          cases tv with
          | none => rfl
          | some tok =>
            simp only [bind_ret]
            unfold parseAction.switchStmt
            by_cases c1 : tok.Lexeme = "patch"
            · simp only [if_pos c1]
              cases parseProps t2 with
              | panic p => rfl
              | fuel => rfl
              | ret p =>
                obtain ⟨⟨pv, pe⟩, p2⟩ := p
                cases pe <;> rfl
            · simp only [if_neg c1]
              by_cases c2 : tok.Lexeme = "create"
              · simp only [if_pos c2]
                cases parseProps t2 with
                | panic p => rfl
                | fuel => rfl
                | ret p =>
                  obtain ⟨⟨pv, pe⟩, p2⟩ := p
                  cases pe <;> rfl
              · simp only [if_neg c2]
                by_cases c3 : tok.Lexeme = "get"
                · simp only [if_pos c3, bind_ret]
                · simp only [if_neg c3]
                  by_cases c4 : tok.Lexeme = "delete"
                  · simp only [if_pos c4, bind_ret]
                  · simp only [if_neg c4, bind_ret]

theorem holds_ne_runtime {α : Type} {s : Scanner} {Q : α → Scanner → Prop}
    {r : Outcome (α × Scanner)} (h : Holds s Q r) (m : String) : r ≠ .panic (.runtime m) := by
  intro hr
  rw [hr] at h
  exact h

theorem holds_ne_fuel {α : Type} {s : Scanner} {Q : α → Scanner → Prop}
    {r : Outcome (α × Scanner)} (h : Holds s Q r) : r ≠ .fuel := by
  intro hr
  rw [hr] at h
  exact h

/-- C11: `ParseRequest` returns normally on every token stream, lexical errors
included; `parseRequest` raises no panic but the one of the scanner's error
handler and does not run out of fuel; and the two `panic` statements of the
parser are never reached: the bodies of `parseRouteSpec` and `parseAction` with
these statements compute the same as without them and never raise them, since
the `if`/`else` before the first always returns and the `switch` before the
second always returns or jumps to `out`. -/
theorem ParseRequest_never_panics :
    (∀ (items : List ScanItem) (eof : Position), ∃ v, ParseRequest items eof = .ret v)
    ∧ (∀ (s : Scanner), (∀ m, parseRequest s ≠ .panic (.runtime m)) ∧ parseRequest s ≠ .fuel)
    ∧ (∀ (s : Scanner), parseRouteSpec.body s = parseRouteSpec s
        ∧ parseRouteSpec.body s ≠ .panic (.runtime "Uncovered conditions"))
    ∧ (∀ (what : TokenPtr) (s : Scanner) (c : Completion),
        parseRouteSpec.ocnStmt what s = .ret c → ∃ v t, c = .returns v t)
    ∧ (∀ (s : Scanner), parseAction.body s = parseAction s
        ∧ parseAction.body s
          ≠ .panic (.runtime "Switch does not cover all cases when it should"))
    ∧ (∀ (tok : Token) (s : Scanner) (c : SwitchExit),
        parseAction.switchStmt tok s = .ret c →
          (∃ v t, c = .returns v t) ∨ (∃ a t, c = .gotoOut a t)) := by
  refine ⟨?_, ?_, ?_, ?_, ?_, ?_⟩
  · intro items eof
    have hh := parseRequest_holds (Scanner.Init items eof)
    unfold ParseRequest
    cases hr : parseRequest (Scanner.Init items eof) with
    | ret v => exact ⟨_, rfl⟩
    | panic p =>
      rw [hr] at hh
      cases p with
      | errScanner e => exact ⟨_, rfl⟩
      | runtime m => exact absurd hh (by simp [Holds])
    | fuel =>
      rw [hr] at hh
      exact absurd hh (by simp [Holds])
  · intro s
    exact ⟨fun m => holds_ne_runtime (parseRequest_holds s) m, holds_ne_fuel (parseRequest_holds s)⟩
  · intro s
    refine ⟨parseRouteSpec_body_eq s, ?_⟩
    rw [parseRouteSpec_body_eq]
    exact holds_ne_runtime (parseRouteSpec_holds s) _
  · intro what s c h
    unfold parseRouteSpec.ocnStmt at h
    obtain ⟨pk, _, h1⟩ := bind_eq_ret h
    by_cases hat : pk.1.Typ = .At
    · rw [if_pos hat] at h1
      obtain ⟨a, _, h2⟩ := bind_eq_ret h1
      obtain ⟨⟨av, ae⟩, a2⟩ := a
      cases ae with
      | some err =>
        simp only [Outcome.ret.injEq] at h2
        exact ⟨_, _, h2.symm⟩
      | none =>
        simp only [] at h2
        obtain ⟨n, _, h3⟩ := bind_eq_ret h2
        obtain ⟨⟨nv, ne⟩, n2⟩ := n
        cases ne with
        | some err =>
          simp only [Outcome.ret.injEq] at h3
          exact ⟨_, _, h3.symm⟩
        | none =>
          simp only [Outcome.ret.injEq] at h3
          exact ⟨_, _, h3.symm⟩
    · rw [if_neg hat] at h1
      simp only [Outcome.ret.injEq] at h1
      exact ⟨_, _, h1.symm⟩
  · intro s
    refine ⟨parseAction_body_eq s, ?_⟩
    rw [parseAction_body_eq]
    exact holds_ne_runtime (parseAction_holds s) _
  · intro tok s c h
    unfold parseAction.switchStmt at h
    by_cases c1 : tok.Lexeme = "patch"
    · rw [if_pos c1] at h
      obtain ⟨p, _, h1⟩ := bind_eq_ret h
      obtain ⟨⟨pv, pe⟩, p2⟩ := p
      cases pe with
      | some err =>
        simp only [Outcome.ret.injEq] at h1
        exact Or.inl ⟨_, _, h1.symm⟩
      | none =>
        simp only [Outcome.ret.injEq] at h1
        exact Or.inr ⟨_, _, h1.symm⟩
    · rw [if_neg c1] at h
      by_cases c2 : tok.Lexeme = "create"
      · rw [if_pos c2] at h
        obtain ⟨p, _, h1⟩ := bind_eq_ret h
        obtain ⟨⟨pv, pe⟩, p2⟩ := p
        cases pe with
        | some err =>
          simp only [Outcome.ret.injEq] at h1
          exact Or.inl ⟨_, _, h1.symm⟩
        | none =>
          simp only [Outcome.ret.injEq] at h1
          exact Or.inr ⟨_, _, h1.symm⟩
      · rw [if_neg c2] at h
        by_cases c3 : tok.Lexeme = "get"
        · rw [if_pos c3] at h
          simp only [Outcome.ret.injEq] at h
          exact Or.inr ⟨_, _, h.symm⟩
        · rw [if_neg c3] at h
          by_cases c4 : tok.Lexeme = "delete"
          · rw [if_pos c4] at h
            simp only [Outcome.ret.injEq] at h
            exact Or.inr ⟨_, _, h.symm⟩
          · rw [if_neg c4] at h
            simp only [Outcome.ret.injEq] at h
            exact Or.inl ⟨_, _, h.symm⟩

theorem ParseRequest_never_panics_witness :
    parseRouteSpec.ocnStmt none ⟨[.tok .LBrace "[" ⟨1, 14⟩], 3, ⟨1, 15⟩⟩
        = .ret (.returns (some (.TargetOneSpecSyntax none), none)
            ⟨[.tok .LBrace "[" ⟨1, 14⟩], 3, ⟨1, 15⟩⟩)
      ∧ (∃ v t, Completion.returns (some (.TargetOneSpecSyntax none), none)
            ⟨[.tok .LBrace "[" ⟨1, 14⟩], 3, ⟨1, 15⟩⟩ = .returns v t)
      ∧ ∃ v, ParseRequest Fixture.unterminatedString ⟨1, 27⟩ = .ret v :=
  ⟨by decide,
    ParseRequest_never_panics.2.2.2.1 none ⟨[.tok .LBrace "[" ⟨1, 14⟩], 3, ⟨1, 15⟩⟩ _ (by decide),
    ParseRequest_never_panics.1 Fixture.unterminatedString ⟨1, 27⟩⟩

/-! ## String literals -/

/-- Replacing every doubled quote by one quote undoes the doubling of the
quotes. -/
theorem replaceFrom_doubled (cs : List Char) :
    Go.strings.replaceFrom [Go.quote, Go.quote] [Go.quote] 0
        (cs.map fun c => if c = Go.quote then [Go.quote, Go.quote] else [c]).flatten
      = cs := by
  induction cs with
  | nil => rfl
  | cons c cs ih =>
    by_cases hc : c = Go.quote
    · subst hc
      simp only [List.map_cons, if_true, List.flatten_cons, List.cons_append, List.nil_append,
        Go.strings.replaceFrom, List.isPrefixOf, beq_self_eq_true, Bool.and_self, Bool.true_and,
        List.length_cons, List.length_nil, ih, List.singleton_append]
      simp [Go.strings.replaceFrom, ih]
    · simp only [List.map_cons, if_neg hc, List.flatten_cons, List.cons_append, List.nil_append,
        Go.strings.replaceFrom, List.isPrefixOf]
      have hne : (Go.quote == c) = false := by
        simp only [beq_eq_false_iff_ne, ne_eq]
        exact fun h => hc h.symm
      simp [hne, ih]

/-- C16: `stripStr` decodes single-quoted literals: for every string `s`,
`stripStr` applied to the lexeme made by doubling every quote character of `s`
and wrapping the result in single quotes returns exactly `s`; the lexeme
`'x'',"'` is the one of `x',"`. -/
theorem stripStr_literal (s : String) :
    stripStr (Grammar.literal s) = .ret s
      ∧ Grammar.literal "x',\"" = "'x'',\"'" := by
  refine ⟨?_, by decide⟩
  obtain ⟨cs⟩ := s
  generalize hd : (cs.map fun c => if c = Go.quote then [Go.quote, Go.quote] else [c]).flatten
    = d
  have hrep := replaceFrom_doubled cs
  rw [hd] at hrep
  have hlen : (Grammar.literal ⟨cs⟩).length = d.length + 2 := by
    simp [Grammar.literal, String.length, hd]
  have h0 : (Grammar.literal ⟨cs⟩).data[0]? = some Go.quote := by
    simp [Grammar.literal]
  have hlast : (Grammar.literal ⟨cs⟩).data[d.length + 2 - 1]? = some Go.quote := by
    simp [Grammar.literal, hd]
  have hslice : Go.slice (Grammar.literal ⟨cs⟩) 1 (d.length + 2 - 1) = ⟨d⟩ := by
    simp [Go.slice, Grammar.literal, hd]
  unfold stripStr
  simp only [hlen]
  rw [if_neg (by
    intro h
    rcases h with h | h | h
    · omega
    · exact h h0
    · exact h hlast)]
  rw [hslice]
  simp only [Go.strings.ReplaceAll]
  rw [if_neg (by simp)]
  exact congrArg (fun l => Outcome.ret (String.mk l)) hrep

/-! ## Empty and comma-less property lists -/

/-- C21 (the code at the failing input): the requests `[route 'x' [create []]]`
and `[route 'x' @ 1 [patch []]]`, whose property list is empty, parse without an
error: the syntax tree is returned, and its action carries an empty property
map. -/
theorem ParseRequest_accepts_empty_props :
    ParseRequest Fixture.createEmpty ⟨1, 24⟩ = .ret (some Fixture.createEmptyAst, none)
      ∧ ParseRequest Fixture.patchEmpty ⟨1, 27⟩ = .ret (some Fixture.patchEmptyAst, none)
      ∧ Fixture.createEmptyAst.Action.map ActionSyntax.props = some (some [])
      ∧ Fixture.patchEmptyAst.Action.map ActionSyntax.props = some (some []) :=
  ⟨by decide, by decide, by decide, by decide⟩

/-- C22 (the code at the failing input): the request
`[route 'x' [create [addr='a' lock='t']]]`, whose two properties are not
separated by a comma, parses without an error into a map of two properties,
although the input has no comma token at all. -/
theorem ParseRequest_accepts_missing_comma :
    ParseRequest Fixture.createNoComma ⟨1, 41⟩ = .ret (some Fixture.createNoCommaAst, none)
      ∧ Fixture.createNoCommaAst.Action.map (fun a => a.props.map List.length) = some (some 2)
      ∧ (Fixture.createNoComma.filter ScanItem.isComma).length = 0 :=
  ⟨by decide, by decide, by decide⟩

/-! ## The action keyword -/

/-- C23: when the token after the opening `[` of the action is not an
identifier with lexeme exactly `get`, `delete`, `patch` or `create`, parseAction
returns no action node and an error: the error of the expected identifier when
the token is not an identifier (also at the end of the input), and the error of
the expected action when it is another word. -/
theorem parseAction_rejects_other_keyword (ty : TokenType) (lx0 lx : String) (p0 p : Position)
    (rest : List ScanItem) (n : Nat) (eof : Position)
    (h : ¬ (ty = .Ident ∧ (lx = "get" ∨ lx = "delete" ∨ lx = "patch" ∨ lx = "create"))) :
    parseAction ⟨.tok .LBrace lx0 p0 :: .tok ty lx p :: rest, n, eof⟩
        = .ret ((none, some (if ty = .Ident then .expectedAction ⟨n + 1, ty, lx, p⟩
                             else .expectedToken .Ident ⟨n + 1, ty, lx, p⟩)),
                ⟨rest, n + 1 + 1, eof⟩)
      ∧ parseAction ⟨[.tok .LBrace lx0 p0], n, eof⟩
        = .ret ((none, some (.expectedToken .Ident ⟨n + 1, .EOF, "", eof⟩)), ⟨[], n + 1, eof⟩) := by
  refine ⟨?_, ?_⟩
  · by_cases hty : ty = .Ident
    · subst hty
      have hlx : ¬ (lx = "get" ∨ lx = "delete" ∨ lx = "patch" ∨ lx = "create") :=
        fun hk => h ⟨rfl, hk⟩
      simp only [not_or] at hlx
      obtain ⟨hget, hdelete, hpatch, hcreate⟩ := hlx
      simp only [parseAction, expect_same, bind_ret, if_neg hpatch, if_neg hcreate, if_neg hget,
        if_neg hdelete, if_true]
    · simp only [parseAction, expect_same, bind_ret, expect_tok, if_pos hty, if_neg hty]
  · simp [parseAction, expect_same, bind_ret, expect_nil]

theorem parseAction_rejects_other_keyword_witness :
    (parseAction ⟨[.tok .LBrace "[" ⟨1, 20⟩, .tok .LBrace "[" ⟨1, 21⟩,
          .tok .Ident "delete" ⟨1, 22⟩, .tok .RBrace "]" ⟨1, 28⟩, .tok .RBrace "]" ⟨1, 29⟩,
          .tok .RBrace "]" ⟨1, 30⟩], 5, ⟨1, 31⟩⟩
        = .ret ((none, some (if TokenType.LBrace = .Ident
                  then .expectedAction ⟨5 + 1, .LBrace, "[", ⟨1, 21⟩⟩
                  else .expectedToken .Ident ⟨5 + 1, .LBrace, "[", ⟨1, 21⟩⟩)),
                ⟨[.tok .Ident "delete" ⟨1, 22⟩, .tok .RBrace "]" ⟨1, 28⟩,
                  .tok .RBrace "]" ⟨1, 29⟩, .tok .RBrace "]" ⟨1, 30⟩], 5 + 1 + 1, ⟨1, 31⟩⟩)
      ∧ parseAction ⟨[.tok .LBrace "[" ⟨1, 20⟩], 5, ⟨1, 31⟩⟩
        = .ret ((none, some (.expectedToken .Ident ⟨5 + 1, .EOF, "", ⟨1, 31⟩⟩)),
                ⟨[], 5 + 1, ⟨1, 31⟩⟩))
      ∧ ParseRequest Fixture.extraBracketsAction ⟨1, 31⟩
        = .ret (none, some (.expectedToken .Ident ⟨6, .LBrace, "[", ⟨1, 21⟩⟩))
      ∧ ParseRequest Fixture.capitalGet ⟨1, 18⟩
        = .ret (none, some (.expectedAction ⟨4, .Ident, "Get", ⟨1, 13⟩⟩)) :=
  ⟨parseAction_rejects_other_keyword .LBrace "[" "[" ⟨1, 20⟩ ⟨1, 21⟩ _ 5 ⟨1, 31⟩ (by decide),
   by decide, by decide⟩

/-! ## The analyzer on every action -/

/-- C24: for every request whose action is one of the four variants, with any
target and any properties, Analyze returns a nil Directive and a nil error. -/
theorem Analyze_yields_nothing (spec : Option SpecSyntax) (a : ActionSyntax) :
    Analyze (some ⟨spec, some a⟩) = .ret (none, none) := by
  cases a <;> rfl

/-! ## Blame of the target -/

/-- A successful `expect` of a kind other than the end of input: the next item
of the input is a token of that kind, and it is the token returned. -/
theorem expect_ok {s t : Scanner} {ty : TokenType} {r : TokenPtr} (hty : ty ≠ .EOF)
    (h : expect s ty = .ret ((r, none), t)) :
    ∃ lx p rest, s.input = .tok ty lx p :: rest ∧ r = some ⟨s.count, ty, lx, p⟩
      ∧ t = ⟨rest, s.count + 1, s.eof⟩ := by
  obtain ⟨inp, n, e⟩ := s
  cases inp with
  | nil =>
    rw [expect_nil, if_pos hty.symm] at h
    simp at h
  | cons x rest =>
    cases x with
    | tok ty2 lx p =>
      rw [expect_tok] at h
      by_cases c : ty2 = ty
      · subst c
        simp only [ne_eq, not_true_eq_false, if_false, Outcome.ret.injEq, Prod.mk.injEq,
          and_true] at h
        exact ⟨lx, p, rest, rfl, h.1.symm, h.2.symm⟩
      · rw [if_pos c] at h
        simp at h
    | bad msg p =>
      rw [expect_bad] at h
      cases h

/-- A successful run of `parseRouteSpec` returns a target node whose blamed
token is the first token it scanned: the identifier `all` for the all target, a
string token for the two named targets. -/
theorem parseRouteSpec_blame {s t : Scanner} {sp : Option SpecSyntax}
    (h : parseRouteSpec s = .ret ((sp, none), t)) :
    ∃ node ty lx p rest, sp = some node ∧ s.input = .tok ty lx p :: rest
      ∧ node.Blame = some ⟨s.count, ty, lx, p⟩
      ∧ (match node with
          | .TargetAllSpecSyntax _ => ty = .Ident ∧ lx = "all"
          | .TargetOneSpecSyntax _ => ty = .String
          | .TargetOcnSpecSyntax _ _ => ty = .String) := by
  obtain ⟨inp, n, e⟩ := s
  cases inp with
  | nil => simp [parseRouteSpec, Scanner.Peek, Outcome.bind, expect_nil] at h
  | cons x rest =>
    cases x with
    | bad msg p => simp [parseRouteSpec, Scanner.Peek, Outcome.bind, scannerError] at h
    | tok ty lx p =>
      simp only [parseRouteSpec, Peek_tok, bind_ret] at h
      by_cases hall : ty = .Ident ∧ lx = "all"
      · rw [if_pos hall] at h
        obtain ⟨hty, hlx⟩ := hall
        subst hty
        rw [expect_same, bind_ret] at h
        simp only [Outcome.ret.injEq, Prod.mk.injEq, and_true] at h
        exact ⟨_, _, _, _, _, h.1.symm, rfl, rfl, rfl, hlx⟩
      · rw [if_neg hall] at h
        obtain ⟨w, hw, h1⟩ := bind_eq_ret h
        obtain ⟨⟨wv, we⟩, t1⟩ := w
        cases we with
        | some err => simp at h1
        | none =>
          obtain ⟨lx1, p1, rest1, hin, hwv, ht1⟩ := expect_ok (by decide) hw
          simp only [List.cons.injEq, ScanItem.tok.injEq] at hin
          obtain ⟨⟨hty, hlx, hp⟩, hrest⟩ := hin
          subst hty hlx hp hwv
          dsimp only at h1
          obtain ⟨pk2, hpk2, h2⟩ := bind_eq_ret h1
          by_cases hat : pk2.1.Typ = .At
          · rw [if_pos hat] at h2
            obtain ⟨a, ha, h3⟩ := bind_eq_ret h2
            obtain ⟨⟨av, ae⟩, t2⟩ := a
            cases ae with
            | some err => simp at h3
            | none =>
              dsimp only at h3
              obtain ⟨o, ho, h4⟩ := bind_eq_ret h3
              obtain ⟨⟨ov, oe⟩, t3⟩ := o
              cases oe with
              | some err => simp at h4
              | none =>
                simp only [Outcome.ret.injEq, Prod.mk.injEq, and_true] at h4
                exact ⟨_, _, _, _, _, h4.1.symm, rfl, rfl, rfl⟩
          · rw [if_neg hat] at h2
            simp only [Outcome.ret.injEq, Prod.mk.injEq, and_true] at h2
            exact ⟨_, _, _, _, _, h2.1.symm, rfl, rfl, rfl⟩

/-- C26: for every successfully parsed request, the Blame of its Spec is the
third token of the input (index 2): the identifier `all` for
TargetAllSpecSyntax, the string token of the name for TargetOneSpecSyntax and
for TargetOcnSpecSyntax, hence never the `@` or the version-number token; and
the Blame of a token is that token itself. -/
theorem ParseRequest_blame_is_third_token (items : List ScanItem) (eof : Position)
    (rs : RequestSyntax) (h : ParseRequest items eof = .ret (some rs, none)) :
    (∃ node ty lx p, rs.Spec = some node ∧ items[2]? = some (.tok ty lx p)
      ∧ node.Blame = some ⟨2, ty, lx, p⟩
      ∧ (match node with
          | .TargetAllSpecSyntax _ => ty = .Ident ∧ lx = "all"
          | .TargetOneSpecSyntax _ => ty = .String
          | .TargetOcnSpecSyntax _ _ => ty = .String))
      ∧ ∀ t : TokenPtr, Token.Blame t = t := by
  refine ⟨?_, fun _ => rfl⟩
  have hp : ∃ u, parseRequest (Scanner.Init items eof) = .ret ((some rs, none), u) := by
    rw [ParseRequest] at h
    cases hr : parseRequest (Scanner.Init items eof) with
    | ret v =>
      rw [hr] at h
      obtain ⟨v1, u⟩ := v
      simp only [Outcome.ret.injEq] at h
      exact ⟨u, by rw [h]⟩
    | panic x =>
      rw [hr] at h
      cases x <;> simp at h
    | fuel =>
      rw [hr] at h
      simp at h
  obtain ⟨u, hu⟩ := hp
  rw [parseRequest] at hu
  obtain ⟨r, hr, h1⟩ := bind_eq_ret hu
  obtain ⟨⟨rv, re⟩, t1⟩ := r
  cases re with
  | some err => simp at h1
  | none =>
    obtain ⟨lx1, p1, rest1, hin1, -, ht1⟩ := expect_ok (by decide) hr
    dsimp only at h1
    obtain ⟨k, hk, h2⟩ := bind_eq_ret h1
    obtain ⟨⟨kv, ke⟩, t2⟩ := k
    cases ke with
    | some err => simp at h2
    | none =>
      obtain ⟨lx2, p2, rest2, hin2, hkv, ht2⟩ := expect_ok (by decide) hk
      subst hkv
      dsimp only at h2
      by_cases c1 : (⟨t1.count, .Ident, lx2, p2⟩ : Token).Lexeme ≠ "route"
      · rw [if_pos c1] at h2
        simp at h2
      · rw [if_neg c1] at h2
        obtain ⟨sp, hsp, h3⟩ := bind_eq_ret h2
        obtain ⟨⟨spv, spe⟩, t3⟩ := sp
        cases spe with
        | some err => simp at h3
        | none =>
          obtain ⟨node, ty, lx, p, rest3, hnode, hin3, hblame, hkind⟩ := parseRouteSpec_blame hsp
          dsimp only at h3
          obtain ⟨ac, hac, h4⟩ := bind_eq_ret h3
          obtain ⟨⟨acv, ace⟩, t4⟩ := ac
          cases ace with
          | some err => simp at h4
          | none =>
            dsimp only at h4
            obtain ⟨c, hc, h5⟩ := bind_eq_ret h4
            obtain ⟨⟨cv, ce⟩, t5⟩ := c
            cases ce with
            | some err => simp at h5
            | none =>
              simp only [Outcome.ret.injEq, Prod.mk.injEq, Option.some.injEq, and_true] at h5
              subst ht1 ht2
              simp only [Scanner.Init] at hin1 hin2 hin3 hblame
              subst hin1
              subst hin2
              subst hin3
              refine ⟨node, ty, lx, p, ?_, by simp, hblame, hkind⟩
              rw [← h5.1, hnode]

theorem ParseRequest_blame_is_third_token_witness :
    (∃ node ty lx p, Fixture.getOcnRouteAst.Spec = some node
      ∧ Fixture.getOcnRoute[2]? = some (.tok ty lx p)
      ∧ node.Blame = some ⟨2, ty, lx, p⟩
      ∧ (match node with
          | .TargetAllSpecSyntax _ => ty = .Ident ∧ lx = "all"
          | .TargetOneSpecSyntax _ => ty = .String
          | .TargetOcnSpecSyntax _ _ => ty = .String))
      ∧ ∀ t : TokenPtr, Token.Blame t = t :=
  ParseRequest_blame_is_third_token Fixture.getOcnRoute ⟨1, 26⟩ Fixture.getOcnRouteAst (by decide)

/-! ## Errors of the calls made during a parse -/

theorem err_of_ret {α : Type} {o : Outcome ((α × Option Error) × Scanner)} {e : Error}
    {t : Scanner}
    (h : (o.bind fun r => (.ret (r.1.2, r.2) : Outcome (Option Error × Scanner)))
      = .ret (some e, t)) :
    ∃ v, o = .ret ((v, some e), t) := by
  obtain ⟨r, hr, h1⟩ := bind_eq_ret h
  obtain ⟨⟨v, e2⟩, t2⟩ := r
  simp only [Outcome.ret.injEq, Prod.mk.injEq] at h1
  obtain ⟨rfl, rfl⟩ := h1
  exact ⟨v, hr⟩

theorem expect_err {s t : Scanner} {ty : TokenType} {e : Error}
    (h : (Call.expect s ty).err = .ret (some e, t)) : ∃ v, expect s ty = .ret ((v, some e), t) :=
  err_of_ret h

/-- The comma statement at the head of the body of the loop of `parseProps`,
when it does not return. -/
theorem commaStep_eq {t u : Scanner} {c : Bool} {tok : Token} {b : TokenPtr}
    (h : (c && tok.Typ == .Comma) = true ∧ expect t .Comma = .ret ((b, none), u)
      ∨ (c && tok.Typ == .Comma) = false ∧ u = t) :
    (if (c && tok.Typ == .Comma) = true then
        (expect t .Comma).bind fun r =>
          match r.1.2 with
          | some err => .ret (some (none, some err), r.2)
          | none => .ret (none, r.2)
      else .ret (none, t) : Outcome (Option (Option Props × Option Error) × Scanner))
      = .ret (none, u) := by
  rcases h with ⟨hc, hx⟩ | ⟨hc, hx⟩
  · rw [if_pos hc, hx, bind_ret]
  · rw [hx, if_neg (by rw [hc]; decide)]

/-- A failing `expect` of the comma ends the loop of `parseProps` with its
error. -/
theorem parsePropsLoop_comma_error {f : Nat} {s t u : Scanner} {acc : Props} {c : Bool}
    {tok : Token} {v : TokenPtr} {e : Error}
    (h1 : s.Peek = .ret (tok, t)) (h2 : tok.Typ ≠ .RBrace)
    (h3 : (c && tok.Typ == .Comma) = true) (h4 : expect t .Comma = .ret ((v, some e), u)) :
    parsePropsLoop (f + 1) s acc c = .ret (.returned (none, some e), u) := by
  rw [parsePropsLoop, h1, bind_ret]
  dsimp only
  rw [if_neg h2, if_pos h3, h4, bind_ret]
  rfl

/-- A failing `expect` of the key, of the `=` or of the value ends the loop of
`parseProps` with its error. -/
theorem parsePropsLoop_pass_error {f : Nat} {s t u w x y : Scanner} {acc : Props} {c : Bool}
    {tok : Token} {b k q v : TokenPtr} {e : Error}
    (h1 : s.Peek = .ret (tok, t)) (h2 : tok.Typ ≠ .RBrace)
    (h3 : (c && tok.Typ == .Comma) = true ∧ expect t .Comma = .ret ((b, none), u)
      ∨ (c && tok.Typ == .Comma) = false ∧ u = t)
    (h4 : expect u .Ident = .ret ((v, some e), y)
      ∨ expect u .Ident = .ret ((k, none), w) ∧ expect w .Equals = .ret ((v, some e), y)
      ∨ expect u .Ident = .ret ((k, none), w) ∧ expect w .Equals = .ret ((q, none), x)
          ∧ expect x .String = .ret ((v, some e), y)) :
    parsePropsLoop (f + 1) s acc c = .ret (.returned (none, some e), y) := by
  rw [parsePropsLoop, h1, bind_ret]
  dsimp only
  rw [if_neg h2, commaStep_eq h3, bind_ret]
  dsimp only
  rcases h4 with h4 | ⟨h4, h5⟩ | ⟨h4, h5, h6⟩
  · rw [h4, bind_ret]
  · rw [h4, bind_ret]
    dsimp only
    rw [h5, bind_ret]
  · rw [h4, bind_ret]
    dsimp only
    rw [h5, bind_ret]
    dsimp only
    rw [h6, bind_ret]

/-- A pass of the body of the loop of `parseProps` that reaches
`allowComma = true` goes on with the next evaluation of the loop condition. -/
theorem parsePropsLoop_pass {f : Nat} {s t u w x y : Scanner} {acc : Props} {c : Bool}
    {tok keyTok : Token} {b q valTok : TokenPtr}
    (h1 : s.Peek = .ret (tok, t)) (h2 : tok.Typ ≠ .RBrace)
    (h3 : (c && tok.Typ == .Comma) = true ∧ expect t .Comma = .ret ((b, none), u)
      ∨ (c && tok.Typ == .Comma) = false ∧ u = t)
    (h4 : expect u .Ident = .ret ((some keyTok, none), w))
    (h5 : expect w .Equals = .ret ((q, none), x))
    (h6 : expect x .String = .ret ((valTok, none), y))
    (hkey : keyTok.Lexeme = "addr" ∨ keyTok.Lexeme = "lock" ∨ keyTok.Lexeme = "dbnameIn"
      ∨ keyTok.Lexeme = "dbnameRewritten")
    (hpres : ¬ acc.present (some keyTok) = true) :
    parsePropsLoop (f + 1) s acc c = parsePropsLoop f y (acc.set (some keyTok) valTok) true := by
  rw [parsePropsLoop, h1, bind_ret]
  dsimp only
  rw [if_neg h2, commaStep_eq h3, bind_ret]
  dsimp only
  rw [h4, bind_ret]
  dsimp only
  rw [h5, bind_ret]
  dsimp only
  rw [h6, bind_ret]
  dsimp only
  rw [if_pos hkey, if_pos hpres]

/-- The loop of `parseProps` in front of the closing bracket. -/
theorem parsePropsLoop_done {f : Nat} {s t : Scanner} {acc : Props} {c : Bool} {tok : Token}
    (h1 : s.Peek = .ret (tok, t)) (h2 : tok.Typ = .RBrace) :
    parsePropsLoop (f + 1) s acc c = .ret (.done acc, t) := by
  rw [parsePropsLoop, h1, bind_ret]
  dsimp only
  rw [if_pos h2]

theorem expect_length {s t : Scanner} {ty : TokenType} {r : TokenPtr} (hty : ty ≠ .EOF)
    (h : expect s ty = .ret ((r, none), t)) : t.input.length + 1 = s.input.length := by
  obtain ⟨lx, p, rest, hin, -, ht⟩ := expect_ok hty h
  rw [hin, ht]
  simp

/-- At every state of the loop of `parseProps` the loop is run with more fuel
than there are items left, and the run of the loop from its first state is the
run from this state. -/
theorem LoopState.run {s0 s : Scanner} {props : Props} {c : Bool}
    (h : LoopState s0 s props c) :
    ∃ (b : TokenPtr) (t0 : Scanner) (f : Nat), expect s0 .LBrace = .ret ((b, none), t0)
      ∧ s.input.length < f + 1
      ∧ parsePropsLoop (t0.input.length + 1) t0 [] false = parsePropsLoop (f + 1) s props c := by
  induction h with
  | first b t hb => exact ⟨b, t, t.input.length, hb, Nat.lt_succ_self _, rfl⟩
  | next s t u w x y props c tok keyTok b q valTok _ h1 h2 h3 h4 h5 h6 hkey hpres ih =>
    obtain ⟨b0, t0, f, hb, hlen, hrun⟩ := ih
    have ht : t = s := Peek_same h1
    have l4 := expect_length (by decide) h4
    have l5 := expect_length (by decide) h5
    have l6 := expect_length (by decide) h6
    have lu : u.input.length ≤ s.input.length := by
      rcases h3 with ⟨_, hx⟩ | ⟨_, hx⟩
      · have := expect_length (by decide) hx
        rw [ht] at this
        omega
      · rw [hx, ht]
    obtain ⟨g, rfl⟩ : ∃ g, f = g + 1 := ⟨f - 1, by omega⟩
    refine ⟨b0, t0, g, hb, by omega, ?_⟩
    rw [hrun, parsePropsLoop_pass h1 h2 h3 h4 h5 h6 hkey hpres]

/-- The function `parseProps` returns what its loop returns from inside the
body. -/
theorem parseProps_of_loop_returned {s0 s u : Scanner} {props : Props} {c : Bool}
    {v : Option Props × Option Error} (h : LoopState s0 s props c)
    (hl : ∀ f, parsePropsLoop (f + 1) s props c = .ret (.returned v, u)) :
    parseProps s0 = .ret (v, u) := by
  obtain ⟨b, t0, f, hb, -, hrun⟩ := h.run
  rw [parseProps, hb, bind_ret]
  dsimp only
  rw [hrun, hl f, bind_ret]

/-- A call returns the error that a call it makes returns, and leaves the
scanner where that call left it. -/
theorem Calls.error_of_callee {a c : Call} {e : Error} {t : Scanner} (h : Calls a c)
    (hc : c.err = .ret (some e, t)) : a.err = .ret (some e, t) := by
  cases h with
  | request_lbrace s =>
    obtain ⟨v, h0⟩ := expect_err hc
    simp only [Call.err, parseRequest, h0, bind_ret]
  | request_route s t1 b h1 =>
    obtain ⟨v, h0⟩ := expect_err hc
    simp only [Call.err, parseRequest, h1, h0, bind_ret]
  | request_spec s t1 u b tok h1 h2 h3 =>
    obtain ⟨v, h0⟩ := err_of_ret hc
    simp only [Call.err, parseRequest, h1, h2, h3, h0, bind_ret, ne_eq, not_true_eq_false,
      if_false]
  | request_action s t1 u w b tok sp h1 h2 h3 h4 =>
    obtain ⟨v, h0⟩ := err_of_ret hc
    simp only [Call.err, parseRequest, h1, h2, h3, h4, h0, bind_ret, ne_eq, not_true_eq_false,
      if_false]
  | request_rbrace s t1 u w x b tok sp ac h1 h2 h3 h4 h5 =>
    obtain ⟨v, h0⟩ := expect_err hc
    simp only [Call.err, parseRequest, h1, h2, h3, h4, h5, h0, bind_ret, ne_eq,
      not_true_eq_false, if_false]
  | spec_all s t1 tok h1 h2 =>
    obtain ⟨v, h0⟩ := expect_err hc
    simp only [Call.err, parseRouteSpec, h1, bind_ret, if_pos h2, h0]
  | spec_what s t1 tok h1 h2 =>
    obtain ⟨v, h0⟩ := expect_err hc
    simp only [Call.err, parseRouteSpec, h1, bind_ret, if_neg h2, h0]
  | spec_at s t1 u w tok tok2 what h1 h2 h3 h4 h5 =>
    obtain ⟨v, h0⟩ := expect_err hc
    simp only [Call.err, parseRouteSpec, h1, bind_ret, if_neg h2, h3, h4, if_pos h5, h0]
  | spec_ocn s t1 u w x tok tok2 what b h1 h2 h3 h4 h5 h6 =>
    obtain ⟨v, h0⟩ := expect_err hc
    simp only [Call.err, parseRouteSpec, h1, bind_ret, if_neg h2, h3, h4, if_pos h5, h6, h0]
  | action_lbrace s =>
    obtain ⟨v, h0⟩ := expect_err hc
    simp only [Call.err, parseAction, h0, bind_ret]
  | action_keyword s t1 b h1 =>
    obtain ⟨v, h0⟩ := expect_err hc
    simp only [Call.err, parseAction, h1, h0, bind_ret]
  | action_props s t1 u b tok h1 h2 h3 =>
    obtain ⟨v, h0⟩ := err_of_ret hc
    rcases h3 with h3 | h3
    · simp only [Call.err, parseAction, h1, h2, bind_ret, if_pos h3, h0]
    · have hnp : ¬ tok.Lexeme = "patch" := by rw [h3]; decide
      simp only [Call.err, parseAction, h1, h2, bind_ret, if_neg hnp, if_pos h3, h0]
  | action_out_props s t1 u w b tok p h1 h2 h3 h4 =>
    obtain ⟨v, h0⟩ := expect_err hc
    rcases h3 with h3 | h3
    · simp only [Call.err, parseAction, h1, h2, bind_ret, if_pos h3, h4, parseAction.out, h0]
    · have hnp : ¬ tok.Lexeme = "patch" := by rw [h3]; decide
      simp only [Call.err, parseAction, h1, h2, bind_ret, if_neg hnp, if_pos h3, h4,
        parseAction.out, h0]
  | action_out_bare s t1 u b tok h1 h2 h3 =>
    obtain ⟨v, h0⟩ := expect_err hc
    rcases h3 with h3 | h3
    · have hnp : ¬ tok.Lexeme = "patch" := by rw [h3]; decide
      have hnc : ¬ tok.Lexeme = "create" := by rw [h3]; decide
      simp only [Call.err, parseAction, h1, h2, bind_ret, if_neg hnp, if_neg hnc, if_pos h3,
        parseAction.out, h0]
    · have hnp : ¬ tok.Lexeme = "patch" := by rw [h3]; decide
      have hnc : ¬ tok.Lexeme = "create" := by rw [h3]; decide
      have hng : ¬ tok.Lexeme = "get" := by rw [h3]; decide
      simp only [Call.err, parseAction, h1, h2, bind_ret, if_neg hnp, if_neg hnc, if_neg hng,
        if_pos h3, parseAction.out, h0]
  | props_lbrace s =>
    obtain ⟨v, h0⟩ := expect_err hc
    simp only [Call.err, parseProps, h0, bind_ret]
  | props_comma s0 s t1 props c tok hl h1 h2 h3 =>
    obtain ⟨v, h0⟩ := expect_err hc
    have hp := parseProps_of_loop_returned hl
      (fun f => parsePropsLoop_comma_error (f := f) h1 h2 h3 h0)
    simp only [Call.err, hp, bind_ret]
  | props_key s0 s t1 u props c tok b hl h1 h2 h3 =>
    obtain ⟨v, h0⟩ := expect_err hc
    have hp := parseProps_of_loop_returned hl
      (fun f => parsePropsLoop_pass_error (f := f) (w := u) (x := u) (k := none)
        (q := none) h1 h2 h3 (Or.inl h0))
    simp only [Call.err, hp, bind_ret]
  | props_equals s0 s t1 u w props c tok b k hl h1 h2 h3 h4 =>
    obtain ⟨v, h0⟩ := expect_err hc
    have hp := parseProps_of_loop_returned hl
      (fun f => parsePropsLoop_pass_error (f := f) (x := u) (q := none)
        h1 h2 h3 (Or.inr (Or.inl ⟨h4, h0⟩)))
    simp only [Call.err, hp, bind_ret]
  | props_value s0 s t1 u w x props c tok b k q hl h1 h2 h3 h4 h5 =>
    obtain ⟨v, h0⟩ := expect_err hc
    have hp := parseProps_of_loop_returned hl
      (fun f => parsePropsLoop_pass_error (f := f)
        h1 h2 h3 (Or.inr (Or.inr ⟨h4, h5, h0⟩)))
    simp only [Call.err, hp, bind_ret]
  | props_rbrace s0 s t1 props c tok hl h1 h2 =>
    obtain ⟨v, h0⟩ := expect_err hc
    obtain ⟨b, t0, f, hb, -, hrun⟩ := hl.run
    simp only [Call.err, parseProps, hb, bind_ret, hrun, parsePropsLoop_done h1 h2, h0]

/-- Every call during whose run a call returns an error returns that error, and
leaves the scanner where the failing call left it. -/
theorem Within.error_of_inner {a c : Call} {e : Error} {t : Scanner} (h : Within a c)
    (hc : c.err = .ret (some e, t)) : a.err = .ret (some e, t) := by
  induction h with
  | self => exact hc
  | step b c _ hbc ih => exact ih (hbc.error_of_callee hc)

/-- C8: parsing is all-or-nothing.  For every input `ParseRequest` returns
either a tree whose target node and action node are both present, with a nil
error, or a nil tree with an error, and nothing else.  And when any call of
`expect`, `parseProps`, `parseRouteSpec`, `parseAction` or `parseRequest` made
during the parse, at any depth and in any pass of the loop of `parseProps`,
returns an error, then every call around it returns that same error with the
scanner left where the failing call left it, and `ParseRequest` returns that
same error and a nil tree. -/
theorem ParseRequest_all_or_nothing (items : List ScanItem) (eof : Position) :
    ((∃ rs sp a, ParseRequest items eof = .ret (some rs, none)
          ∧ rs.Spec = some sp ∧ rs.Action = some a)
        ∨ (∃ e, ParseRequest items eof = .ret (none, some e)))
      ∧ (∀ (a c : Call) (e : Error) (t : Scanner),
          Within (.parseRequest (Scanner.Init items eof)) a → Within a c →
          c.err = .ret (some e, t) →
          a.err = .ret (some e, t) ∧ ParseRequest items eof = .ret (none, some e)) := by
  have hh := parseRequest_holds (Scanner.Init items eof)
  constructor
  · unfold ParseRequest
    cases hr : parseRequest (Scanner.Init items eof) with
    | ret v =>
      rw [hr] at hh
      obtain ⟨_, hv⟩ := hh
      rcases hv with ⟨rs, hrs, ⟨sp, hsp⟩, a, ha, _⟩ | ⟨e, he⟩
      · exact Or.inl ⟨rs, sp, a, by simp only [hrs], hsp, ha⟩
      · exact Or.inr ⟨e, by simp only [he]⟩
    | panic p =>
      rw [hr] at hh
      cases p with
      | errScanner e => exact Or.inr ⟨_, rfl⟩
      | runtime m => exact absurd hh (by simp [Holds])
    | fuel =>
      rw [hr] at hh
      exact absurd hh (by simp [Holds])
  · intro a c e t ha hac hc
    have hae := hac.error_of_inner hc
    refine ⟨hae, ?_⟩
    obtain ⟨v, hv⟩ := err_of_ret (ha.error_of_inner hae)
    rw [hv] at hh
    obtain ⟨_, hver⟩ := hh
    unfold ParseRequest
    rw [hv]
    rcases hver with ⟨rs, hrs, _⟩ | ⟨e2, he2⟩
    · simp at hrs
    · simp only [Prod.mk.injEq] at he2
      rw [he2.1]

theorem ParseRequest_all_or_nothing_witness :
    (Call.expect (Fixture.scannerAt Fixture.secondPropertyBroken 11 ⟨1, 42⟩) .Equals).err
        = .ret (some (.expectedToken .Equals ⟨11, .String, "'t'", ⟨1, 36⟩⟩),
            Fixture.scannerAt Fixture.secondPropertyBroken 12 ⟨1, 42⟩)
      ∧ (Call.parseProps (Fixture.scannerAt Fixture.secondPropertyBroken 5 ⟨1, 42⟩)).err
        = .ret (some (.expectedToken .Equals ⟨11, .String, "'t'", ⟨1, 36⟩⟩),
            Fixture.scannerAt Fixture.secondPropertyBroken 12 ⟨1, 42⟩)
      ∧ ParseRequest Fixture.secondPropertyBroken ⟨1, 42⟩
        = .ret (none, some (.expectedToken .Equals ⟨11, .String, "'t'", ⟨1, 36⟩⟩)) := by
  have hact : Calls (.parseRequest (Scanner.Init Fixture.secondPropertyBroken ⟨1, 42⟩))
      (.parseAction (Fixture.scannerAt Fixture.secondPropertyBroken 3 ⟨1, 42⟩)) :=
    Calls.request_action _ (Fixture.scannerAt Fixture.secondPropertyBroken 1 ⟨1, 42⟩)
      (Fixture.scannerAt Fixture.secondPropertyBroken 2 ⟨1, 42⟩) _
      (some ⟨0, .LBrace, "[", ⟨1, 1⟩⟩) ⟨1, .Ident, "route", ⟨1, 2⟩⟩
      (some (.TargetOneSpecSyntax (some ⟨2, .String, "'x'", ⟨1, 8⟩⟩)))
      (by decide) (by decide) (by decide) (by decide)
  have hprops : Calls (.parseAction (Fixture.scannerAt Fixture.secondPropertyBroken 3 ⟨1, 42⟩))
      (.parseProps (Fixture.scannerAt Fixture.secondPropertyBroken 5 ⟨1, 42⟩)) :=
    Calls.action_props _ (Fixture.scannerAt Fixture.secondPropertyBroken 4 ⟨1, 42⟩) _
      (some ⟨3, .LBrace, "[", ⟨1, 12⟩⟩) ⟨4, .Ident, "create", ⟨1, 13⟩⟩
      (by decide) (by decide) (by decide)
  have hfirst : LoopState (Fixture.scannerAt Fixture.secondPropertyBroken 5 ⟨1, 42⟩)
      (Fixture.scannerAt Fixture.secondPropertyBroken 6 ⟨1, 42⟩) [] false :=
    LoopState.first (some ⟨5, .LBrace, "[", ⟨1, 20⟩⟩) _ (by decide)
  have hsecond : LoopState (Fixture.scannerAt Fixture.secondPropertyBroken 5 ⟨1, 42⟩)
      (Fixture.scannerAt Fixture.secondPropertyBroken 9 ⟨1, 42⟩)
      (Props.set [] (some ⟨6, .Ident, "addr", ⟨1, 21⟩⟩) (some ⟨8, .String, "'a'", ⟨1, 26⟩⟩))
      true :=
    LoopState.next _ (Fixture.scannerAt Fixture.secondPropertyBroken 6 ⟨1, 42⟩)
      (Fixture.scannerAt Fixture.secondPropertyBroken 6 ⟨1, 42⟩)
      (Fixture.scannerAt Fixture.secondPropertyBroken 7 ⟨1, 42⟩)
      (Fixture.scannerAt Fixture.secondPropertyBroken 8 ⟨1, 42⟩) _ [] false
      ⟨6, .Ident, "addr", ⟨1, 21⟩⟩ ⟨6, .Ident, "addr", ⟨1, 21⟩⟩ none
      (some ⟨7, .Equals, "=", ⟨1, 25⟩⟩) (some ⟨8, .String, "'a'", ⟨1, 26⟩⟩)
      hfirst (by decide) (by decide) (Or.inr ⟨by decide, rfl⟩) (by decide) (by decide)
      (by decide) (by decide) (by decide)
  have hequals : Calls (.parseProps (Fixture.scannerAt Fixture.secondPropertyBroken 5 ⟨1, 42⟩))
      (.expect (Fixture.scannerAt Fixture.secondPropertyBroken 11 ⟨1, 42⟩) .Equals) :=
    Calls.props_equals _ _ (Fixture.scannerAt Fixture.secondPropertyBroken 9 ⟨1, 42⟩)
      (Fixture.scannerAt Fixture.secondPropertyBroken 10 ⟨1, 42⟩) _ _ true
      ⟨9, .Comma, ",", ⟨1, 29⟩⟩ (some ⟨9, .Comma, ",", ⟨1, 29⟩⟩)
      (some ⟨10, .Ident, "lock", ⟨1, 31⟩⟩)
      hsecond (by decide) (by decide) (Or.inl ⟨by decide, by decide⟩) (by decide)
  exact ⟨by decide,
    (ParseRequest_all_or_nothing Fixture.secondPropertyBroken ⟨1, 42⟩).2 _ _ _ _
      (Within.step _ _ _ (Within.step _ _ _ (Within.self _) hact) hprops)
      (Within.step _ _ _ (Within.self _) hequals) (by decide)⟩

end Dogconf

namespace Dog

open Dogconf (Outcome Panic bind_ret)

/-! ## The routing table -/

theorem post_some (rt : routingTable) (e : routingEntry) :
    rt.post (some e) = .ret ⟨fun k => if k = e.dbnameIn then some e else rt.tab k⟩ := rfl

/-- The table after posting the entries `es` on `rt`: it returns, and a name
that is not the inbound name of one of them has the entry it had in `rt`. -/
theorem postAll_frame :
    ∀ (es : List routingEntry) (rt : routingTable) (n : String),
      n ∉ es.map routingEntry.dbnameIn →
      ∃ rt2, rt.postAll es = .ret rt2 ∧ rt2.tab n = rt.tab n := by
  intro es
  induction es with
  | nil => intro rt n _; exact ⟨rt, rfl, rfl⟩
  | cons e es ih =>
    intro rt n hn
    simp only [List.map_cons, List.mem_cons, not_or] at hn
    obtain ⟨rt2, h2, ht⟩ := ih ⟨fun k => if k = e.dbnameIn then some e else rt.tab k⟩ n hn.2
    refine ⟨rt2, ?_, ?_⟩
    · simp only [routingTable.postAll, post_some, bind_ret, h2]
    · rw [ht]
      simp only [if_neg hn.1]

/-- C12: for every table and every entry `e`, `post(e)` returns and afterwards
`match(e.dbnameIn)` returns `e`, whatever the table held for that name before;
in particular after two posts for the same inbound name the lookup returns the
second entry. -/
theorem post_then_match :
    (∀ (rt : routingTable) (e : routingEntry),
      ∃ rt2, rt.post (some e) = .ret rt2 ∧ (rt2.«match» e.dbnameIn).1 = some e)
    ∧ (∀ (rt : routingTable) (e1 e2 : routingEntry), e1.dbnameIn = e2.dbnameIn →
      ∃ rt1 rt2, rt.post (some e1) = .ret rt1 ∧ rt1.post (some e2) = .ret rt2
        ∧ (rt2.«match» e1.dbnameIn).1 = some e2) := by
  constructor
  · intro rt e
    exact ⟨_, post_some rt e, by simp [routingTable.«match»]⟩
  · intro rt e1 e2 h
    exact ⟨_, _, post_some rt e1, post_some _ e2, by simp [routingTable.«match», h]⟩

theorem post_then_match_witness :
    Fixture.fdr.dbnameIn = Fixture.fdr2.dbnameIn
      ∧ ∃ rt1 rt2, newRoutingTable.post (some Fixture.fdr) = .ret rt1
        ∧ rt1.post (some Fixture.fdr2) = .ret rt2
        ∧ (rt2.«match» Fixture.fdr.dbnameIn).1 = some Fixture.fdr2 :=
  ⟨by decide, post_then_match.2 newRoutingTable Fixture.fdr Fixture.fdr2 (by decide)⟩

/-- C13: on a table built by `newRoutingTable` and any sequence of `post`
calls, `match(n)` returns nil for every name `n` that is not the inbound name
of a posted entry; a `post` of an entry with another inbound name does not
change the result of `match(n)`; and `match` leaves the table as it is. -/
theorem match_frame :
    (∀ (es : List routingEntry) (n : String), n ∉ es.map routingEntry.dbnameIn →
      ∃ rt, newRoutingTable.postAll es = .ret rt ∧ (rt.«match» n).1 = none)
    ∧ (∀ (rt : routingTable) (e : routingEntry) (n : String), e.dbnameIn ≠ n →
      ∃ rt2, rt.post (some e) = .ret rt2 ∧ (rt2.«match» n).1 = (rt.«match» n).1)
    ∧ (∀ (rt : routingTable) (n : String), (rt.«match» n).2 = rt) := by
  refine ⟨?_, ?_, ?_⟩
  · intro es n hn
    obtain ⟨rt, h, ht⟩ := postAll_frame es newRoutingTable n hn
    exact ⟨rt, h, by simp only [routingTable.«match», ht, newRoutingTable]⟩
  · intro rt e n hne
    refine ⟨_, post_some rt e, ?_⟩
    simp only [routingTable.«match», if_neg (Ne.symm hne)]
  · intro rt n
    rfl

theorem match_frame_witness :
    "unknown" ∉ [Fixture.fdr, Fixture.other, Fixture.fdr2].map routingEntry.dbnameIn
      ∧ (∃ rt, newRoutingTable.postAll [Fixture.fdr, Fixture.other, Fixture.fdr2] = .ret rt
        ∧ (rt.«match» "unknown").1 = none)
      ∧ Fixture.other.dbnameIn ≠ "fdr"
      ∧ ∃ rt2, Fixture.table.post (some Fixture.other) = .ret rt2
        ∧ (rt2.«match» "fdr").1 = (Fixture.table.«match» "fdr").1 :=
  ⟨by decide, match_frame.1 [Fixture.fdr, Fixture.other, Fixture.fdr2] "unknown" (by decide),
    by decide, match_frame.2.1 Fixture.table Fixture.other "fdr" (by decide)⟩

/-- C14: when the `database` parameter of the startup message names an entry
`e` of the table, `rewrite` returns `e`, the table is unchanged, and the
parameters are the given ones with `database` set to `e.dbnameOut`: that key has
this value and every other key has the value it had. -/
theorem rewrite_match (rt : routingTable) (st : Startup) (e : routingEntry)
    (h : (rt.«match» (index st.Params "database")).1 = some e) :
    ∃ st2, rt.rewrite (some st) = .ret (some e, some st2, rt)
      ∧ st2.Params = (fun k => if k = "database" then some e.dbnameOut else st.Params k)
      ∧ st2.Params "database" = some e.dbnameOut
      ∧ ∀ k, k ≠ "database" → st2.Params k = st.Params k := by
  refine ⟨⟨fun k => if k = "database" then some e.dbnameOut else st.Params k⟩, ?_, rfl, ?_, ?_⟩
  · simp only [routingTable.rewrite, h]
    rfl
  · simp
  · intro k hk
    simp only [if_neg hk]

theorem rewrite_match_witness :
    (Fixture.table.«match» (index Fixture.startup.Params "database")).1 = some Fixture.fdr2
      ∧ ∃ st2, Fixture.table.rewrite (some Fixture.startup)
          = .ret (some Fixture.fdr2, some st2, Fixture.table)
        ∧ st2.Params = (fun k => if k = "database" then some Fixture.fdr2.dbnameOut
            else Fixture.startup.Params k)
        ∧ st2.Params "database" = some Fixture.fdr2.dbnameOut
        ∧ ∀ k, k ≠ "database" → st2.Params k = Fixture.startup.Params k :=
  ⟨by decide, rewrite_match Fixture.table Fixture.startup Fixture.fdr2 (by decide)⟩

/-- C15: when the `database` parameter of the startup message (the empty string
when the key is missing) has no entry in the table, `rewrite` returns nil and
leaves the startup message, so its parameter mapping, and the table exactly as
they were given. -/
theorem rewrite_miss (rt : routingTable) (st : Startup)
    (h : (rt.«match» (index st.Params "database")).1 = none) :
    rt.rewrite (some st) = .ret (none, some st, rt) := by
  simp only [routingTable.rewrite, h]
  rfl

theorem rewrite_miss_witness :
    (Fixture.table.«match» (index Fixture.startupUnknown.Params "database")).1 = none
      ∧ Fixture.table.rewrite (some Fixture.startupUnknown)
        = .ret (none, some Fixture.startupUnknown, Fixture.table)
      ∧ (newRoutingTable.«match» (index (Startup.mk fun _ => none).Params "database")).1 = none
      ∧ newRoutingTable.rewrite (some (Startup.mk fun _ => none))
        = .ret (none, some (Startup.mk fun _ => none), newRoutingTable) :=
  ⟨by decide, rewrite_miss Fixture.table Fixture.startupUnknown (by decide),
    by decide, rewrite_miss newRoutingTable (Startup.mk fun _ => none) (by decide)⟩

end Dog

namespace Tools

open Dogconf (Outcome Panic bind_ret)

/-! ## Transport selection -/

theorem containsFrom_slash (cs : List Char) :
    Go.strings.containsFrom ['/'] cs = true ↔ '/' ∈ cs := by
  induction cs with
  | nil => simp [Go.strings.containsFrom, List.isPrefixOf]
  | cons c cs ih =>
    simp only [Go.strings.containsFrom, List.isPrefixOf, Bool.and_true, Bool.or_eq_true, ih,
      beq_iff_eq, List.mem_cons]

/-- C17: `autoDial` and `autoListen` select the network by the presence of the
character `/` alone: `strings.Contains(place, "/")` holds exactly when `/` is a
character of `place`; then the network is `unix`, otherwise it is `tcp`; and
the address given to `net.Dial` or `net.Listen` is `place` itself. -/
theorem autoDial_network {α : Type} (netDial netListen : String → String → α)
    (place : String) :
    (Go.strings.Contains place "/" = true ↔ '/' ∈ place.data)
      ∧ autoDial netDial place = netDial (if '/' ∈ place.data then "unix" else "tcp") place
      ∧ autoListen netListen place
        = netListen (if '/' ∈ place.data then "unix" else "tcp") place := by
  have hc : Go.strings.Contains place "/" = true ↔ '/' ∈ place.data :=
    containsFrom_slash place.data
  refine ⟨hc, ?_, ?_⟩
  · unfold autoDial
    by_cases h : '/' ∈ place.data
    · rw [if_pos (hc.2 h), if_pos h]
    · rw [if_neg (fun hx => h (hc.1 hx)), if_neg h]
  · unfold autoListen
    by_cases h : '/' ∈ place.data
    · rw [if_pos (hc.2 h), if_pos h]
    · rw [if_neg (fun hx => h (hc.1 hx)), if_neg h]

/-! ## The connection handler -/

/-- C18: when the routing lookup for the database of the first frame finds no
route, `proxyHandler` reads the frame, looks up the route, prints the line about
the missing route, and returns: its deferred calls close the client connection
and print how the session exits.  It dials no backend, sends nothing to a
server and starts no relay. -/
theorem proxyHandler_no_route {M : Type} (w : World M) (rt : RoutingTable)
    (h : rt.Route ((w.params w.first.1 "database").getD "") = "") :
    (∃ line, proxyHandler w rt
        = [.next, .readStartup w.first.1, .route ((w.params w.first.1 "database").getD ""),
            .print (.noRoute ((w.params w.first.1 "database").getD "")), .closeClient,
            .print line]
        ∧ (line = .exitsCleanly ∨ ∃ e, line = .exitsWithError e))
      ∧ (∀ network address, Event.dial network address ∉ proxyHandler w rt)
      ∧ (∀ msg, Event.sendServer msg ∉ proxyHandler w rt)
      ∧ Event.startRelay ∉ proxyHandler w rt
      ∧ Event.waitDone ∉ proxyHandler w rt
      ∧ Event.closeClient ∈ proxyHandler w rt := by
  have hp : proxyHandler w rt
      = [.next, .readStartup w.first.1, .route ((w.params w.first.1 "database").getD ""),
          .print (.noRoute ((w.params w.first.1 "database").getD ""))]
        ++ proxyHandler.deferred w.first.2 := by
    simp only [proxyHandler, h, if_true, List.cons_append, List.nil_append, List.append_assoc]
  refine ⟨?_, ?_, ?_, ?_, ?_, ?_⟩
  · refine ⟨_, by rw [hp]; rfl, ?_⟩
    cases w.first.2 with
    | none => exact Or.inl rfl
    | some e =>
      by_cases he : e ≠ .EOF
      · exact Or.inr ⟨e, by simp only [if_pos he]⟩
      · exact Or.inl (by simp only [if_neg he])
  · intro network address
    rw [hp]
    simp [proxyHandler.deferred]
  · intro msg
    rw [hp]
    simp [proxyHandler.deferred]
  · rw [hp]
    simp [proxyHandler.deferred]
  · rw [hp]
    simp [proxyHandler.deferred]
  · rw [hp]
    simp [proxyHandler.deferred]

theorem proxyHandler_no_route_witness :
    Fixture.mainTable.Route
        ((Fixture.worldNoRoute.params Fixture.worldNoRoute.first.1 "database").getD "") = ""
      ∧ proxyHandler Fixture.worldNoRoute Fixture.mainTable
        = [.next, .readStartup (some "startup database=nowhere"), .route "nowhere",
            .print (.noRoute "nowhere"), .closeClient, .print .exitsCleanly] :=
  ⟨by decide, by
    obtain ⟨line, hl, _⟩ :=
      (proxyHandler_no_route Fixture.worldNoRoute Fixture.mainTable (by decide)).1
    rw [hl]
    have hd : proxyHandler Fixture.worldNoRoute Fixture.mainTable
        = [.next, .readStartup (some "startup database=nowhere"), .route "nowhere",
            .print (.noRoute "nowhere"), .closeClient, .print .exitsCleanly] := by decide
    rw [hl] at hd
    exact hd⟩

/-! ## The relay pumps -/

/-- The loop of a pump whose sends all succeed: it gives every frame of the
source to the destination, in order, and puts the error of the source on the
channel. -/
theorem pumpLoop_all {M : Type} :
    ∀ (frames : List M) (fuel : Nat) (src dst : MessageStream M) (errch : List Err),
      src.incoming = frames → frames.length < fuel →
      (∀ a x b, frames = a ++ x :: b → dst.sendErr (dst.passed ++ a.map some) (some x) = none) →
      pumpLoop fuel src dst errch
        = .ret ({ src with incoming := [] },
            { dst with passed := dst.passed ++ frames.map some }, errch ++ [src.recvErr]) := by
  intro frames
  induction frames with
  | nil =>
    intro fuel src dst errch hin hf _
    obtain ⟨f, rfl⟩ : ∃ f, fuel = f + 1 := ⟨fuel - 1, by simp at hf; omega⟩
    obtain ⟨inc, re, se, pa⟩ := src
    simp only at hin
    subst hin
    simp [pumpLoop, MessageStream.Next]
  | cons m rest ih =>
    intro fuel src dst errch hin hf hsend
    obtain ⟨f, rfl⟩ : ∃ f, fuel = f + 1 := ⟨fuel - 1, by simp at hf; omega⟩
    obtain ⟨inc, re, se, pa⟩ := src
    simp only at hin
    subst hin
    have h0 : dst.sendErr dst.passed (some m) = none := by
      have := hsend [] m rest rfl
      simpa using this
    have hrest : ∀ a x b, rest = a ++ x :: b →
        dst.sendErr (dst.passed ++ [some m] ++ a.map some) (some x) = none := by
      intro a x b hab
      have := hsend (m :: a) x b (by rw [hab]; rfl)
      simpa using this
    have key := ih f ⟨rest, re, se, pa⟩ { dst with passed := dst.passed ++ [some m] } errch rfl
      (by simp at hf; omega) hrest
    simp only [pumpLoop, MessageStream.Next, MessageStream.Send, h0, key,
      List.append_assoc, List.singleton_append, List.map_cons]

/-- The loop of a pump one of whose sends fails: the frames up to the one that
fails were given to the destination, the later ones are still in the source, and
the error of the send is on the channel. -/
theorem pumpLoop_fail {M : Type} (m : M) (post : List M) (e : Err) :
    ∀ (pre : List M) (fuel : Nat) (src dst : MessageStream M) (errch : List Err),
      src.incoming = pre ++ m :: post → pre.length < fuel →
      (∀ a x b, pre = a ++ x :: b → dst.sendErr (dst.passed ++ a.map some) (some x) = none) →
      dst.sendErr (dst.passed ++ pre.map some) (some m) = some e →
      pumpLoop fuel src dst errch
        = .ret ({ src with incoming := post },
            { dst with passed := dst.passed ++ (pre ++ [m]).map some }, errch ++ [e]) := by
  intro pre
  induction pre with
  | nil =>
    intro fuel src dst errch hin hf _ hm
    obtain ⟨f, rfl⟩ : ∃ f, fuel = f + 1 := ⟨fuel - 1, by omega⟩
    obtain ⟨inc, re, se, pa⟩ := src
    simp only [List.nil_append] at hin
    subst hin
    simp only [List.map_nil, List.append_nil] at hm
    simp only [pumpLoop, MessageStream.Next, MessageStream.Send, hm, List.nil_append,
      List.map_cons, List.map_nil]
  | cons p pre ih =>
    intro fuel src dst errch hin hf hsend hm
    obtain ⟨f, rfl⟩ : ∃ f, fuel = f + 1 := ⟨fuel - 1, by omega⟩
    obtain ⟨inc, re, se, pa⟩ := src
    simp only [List.cons_append] at hin
    subst hin
    have h0 : dst.sendErr dst.passed (some p) = none := by
      have := hsend [] p pre rfl
      simpa using this
    have hrest : ∀ a x b, pre = a ++ x :: b →
        dst.sendErr (dst.passed ++ [some p] ++ a.map some) (some x) = none := by
      intro a x b hab
      have := hsend (p :: a) x b (by rw [hab]; rfl)
      simpa using this
    have hm2 : dst.sendErr (dst.passed ++ [some p] ++ pre.map some) (some m) = some e := by
      simpa using hm
    have key := ih f ⟨pre ++ m :: post, re, se, pa⟩
      { dst with passed := dst.passed ++ [some p] } errch rfl (by simp at hf; omega) hrest hm2
    simp only [pumpLoop, MessageStream.Next, MessageStream.Send, h0, key,
      List.append_assoc, List.singleton_append, List.cons_append, List.nil_append,
      List.map_cons, List.map_append, List.map_nil]

/-- C19: a pump forwards frames unmodified and in source order.  If the source
delivers the frames `src.incoming` and then its error, and every send succeeds,
the pump returns having given exactly these frames, in this order, to the
destination and having put that one error on the channel.  If the send of the
frame `m` behind the frames `pre` fails, the pump returns having given exactly
`pre` and `m` to the destination and having put the error of the send on the
channel, and the frames `post` behind `m` are still unread in the source.  The
handlers `toServer` and `toFrontend` of `simpleProxy` and of `dog` are this pump
from the client to the server and from the server to the client. -/
theorem pump_forwards {M : Type} :
    (∀ (src dst : MessageStream M) (errch : List Err),
      (∀ a x b, src.incoming = a ++ x :: b →
        dst.sendErr (dst.passed ++ a.map some) (some x) = none) →
      pump src dst errch
        = .ret ({ src with incoming := [] },
            { dst with passed := dst.passed ++ src.incoming.map some },
            errch ++ [src.recvErr]))
    ∧ (∀ (src dst : MessageStream M) (errch : List Err) (pre : List M) (m : M)
        (post : List M) (e : Err),
      src.incoming = pre ++ m :: post →
      (∀ a x b, pre = a ++ x :: b → dst.sendErr (dst.passed ++ a.map some) (some x) = none) →
      dst.sendErr (dst.passed ++ pre.map some) (some m) = some e →
      pump src dst errch
        = .ret ({ src with incoming := post },
            { dst with passed := dst.passed ++ (pre ++ [m]).map some }, errch ++ [e]))
    ∧ (∀ (client server : MessageStream M) (errch : List Err),
      simpleProxy.toServer client server errch = pump client server errch
        ∧ dog.toServer client server errch = pump client server errch
        ∧ simpleProxy.toFrontend client server errch
          = (pump server client errch).bind (fun r => .ret (r.2.1, r.1, r.2.2))
        ∧ dog.toFrontend client server errch
          = (pump server client errch).bind (fun r => .ret (r.2.1, r.1, r.2.2))) := by
  refine ⟨?_, ?_, ?_⟩
  · intro src dst errch hsend
    exact pumpLoop_all src.incoming _ src dst errch rfl (Nat.lt_succ_self _) hsend
  · intro src dst errch pre m post e hin hsend hm
    refine pumpLoop_fail m post e pre _ src dst errch hin ?_ hsend hm
    rw [hin, List.length_append, List.length_cons]
    omega
  · intro client server errch
    exact ⟨rfl, rfl, rfl, rfl⟩

theorem pump_forwards_witness :
    pump Fixture.source Fixture.sink []
        = .ret ({ Fixture.source with incoming := [] },
            { Fixture.sink with passed := [some "Q1", some "Q2", some "Q3"] }, [Err.EOF])
      ∧ Fixture.brokenSink.sendErr ([] ++ [some "Q1"]) (some "Q2") = some (.other "broken pipe")
      ∧ pump Fixture.source Fixture.brokenSink []
        = .ret ({ Fixture.source with incoming := ["Q3"] },
            { Fixture.brokenSink with passed := [some "Q1", some "Q2"] },
            [Err.other "broken pipe"]) :=
  ⟨pump_forwards.1 Fixture.source Fixture.sink [] (fun _ _ _ _ => rfl),
    by decide,
    pump_forwards.2.1 Fixture.source Fixture.brokenSink [] ["Q1"] "Q2" ["Q3"]
      (.other "broken pipe") rfl
      (by
        intro a x b h
        cases a with
        | nil => rfl
        | cons y a => simp at h)
      (by decide)⟩

/-! ## A failed dial -/

/-- The dial of `autoDial` in a world where every dial fails with `e`: one
dial of the place, with the error `e`. -/
theorem autoDial_fails {E : Type} (mk : String → String → E) (dial : String → String → Option Err)
    (e : Err) (hdial : ∀ network address, dial network address = some e) (place : String) :
    ∃ network, autoDial (fun network address => ([mk network address], dial network address)) place
      = ([mk network place], some e) := by
  unfold autoDial
  split
  · exact ⟨"unix", by simp only [hdial]⟩
  · exact ⟨"tcp", by simp only [hdial]⟩

/-- C25 (the code on a failed dial): when a route is found and dialing its
address fails with `e`, `proxyHandler` of `toydog.go` prints the line about the
failed connection and goes on: it sends the startup frame to the server stream,
starts the relay and waits for it, and only then its deferred calls close the
client connection.  The connection handler of `dogs.go` does the same when the
dial of its `findServer` fails. -/
theorem dial_failure_still_relays {M : Type} (w : World M) (rt : RoutingTable)
    (dw : DogsWorld M) (e : Err)
    (hroute : rt.Route ((w.params w.first.1 "database").getD "") ≠ "")
    (hdial : ∀ network address, w.dial network address = some e)
    (hfirst : dw.first.2 = none)
    (hdogs : ∀ network address, dw.dial network address = some e) :
    (∃ network, proxyHandler w rt
        = [.next, .readStartup w.first.1, .route ((w.params w.first.1 "database").getD ""),
            .dial network (rt.Route ((w.params w.first.1 "database").getD "")),
            .print (.couldNotConnect e), .sendServer w.first.1]
          ++ (match w.send with
              | some e2 => [.print (.couldNotRelayStartup e2)]
              | none => [])
          ++ [.startRelay, .waitDone] ++ proxyHandler.deferred w.done)
      ∧ (∃ pre network address, handleConnection dw
        = pre ++ [.dial network address, .print (.couldNotConnect e), .sendServer dw.first.1,
            .startRelay, .waitDone] ++ handleConnection.deferred dw.done) := by
  constructor
  · obtain ⟨network, hn⟩ := autoDial_fails Event.dial w.dial e hdial
      (rt.Route ((w.params w.first.1 "database").getD ""))
    refine ⟨network, ?_⟩
    simp only [proxyHandler, if_neg hroute]
    rw [hn]
    simp only [List.cons_append, List.nil_append, List.append_assoc]
  · generalize hst : (if dw.isStartup dw.first.1 = true then
        (([.isStartup dw.first.1, .readStartup dw.first.1, .print .gotStartup]
            ++ List.replicate (dw.paramCount dw.first.1) (.print .param)
            ++ [.print (.dbname ((dw.params dw.first.1 "database").getD ""))] :
              List (DogsEvent M)),
          (dw.params dw.first.1 "database").getD "")
      else ([.isStartup dw.first.1], "")) = startup
    obtain ⟨network, hn⟩ := autoDial_fails DogsEvent.dial dw.dial e hdogs (dw.lookup startup.2)
    refine ⟨[.next] ++ startup.1 ++ [.lookupServer startup.2,
      .print (.serverAddr (dw.lookup startup.2))], network, dw.lookup startup.2, ?_⟩
    simp only [handleConnection, findServer, hfirst, hst]
    rw [hn]
    simp only [List.cons_append, List.nil_append, List.append_assoc]

theorem dial_failure_still_relays_witness :
    Fixture.mainTable.Route
        ((Fixture.worldDialFails.params Fixture.worldDialFails.first.1 "database").getD "") ≠ ""
      ∧ ((∃ network, proxyHandler Fixture.worldDialFails Fixture.mainTable
          = [.next, .readStartup Fixture.worldDialFails.first.1,
              .route ((Fixture.worldDialFails.params
                Fixture.worldDialFails.first.1 "database").getD ""),
              .dial network (Fixture.mainTable.Route
                ((Fixture.worldDialFails.params
                  Fixture.worldDialFails.first.1 "database").getD "")),
              .print (.couldNotConnect (.other "connection refused")),
              .sendServer Fixture.worldDialFails.first.1]
            ++ (match Fixture.worldDialFails.send with
                | some e2 => [.print (.couldNotRelayStartup e2)]
                | none => [])
            ++ [.startRelay, .waitDone] ++ proxyHandler.deferred Fixture.worldDialFails.done)
        ∧ (∃ pre network address, handleConnection Fixture.dogsWorldDialFails
          = pre ++ [.dial network address, .print (.couldNotConnect (.other "connection refused")),
              .sendServer Fixture.dogsWorldDialFails.first.1, .startRelay, .waitDone]
            ++ handleConnection.deferred Fixture.dogsWorldDialFails.done))
      ∧ proxyHandler Fixture.worldDialFails Fixture.mainTable
        = [.next, .readStartup (some "startup database=fdr"), .route "fdr",
            .dial "unix" "/var/run/postgresql/.s.PGSQL.5432",
            .print (.couldNotConnect (.other "connection refused")),
            .sendServer (some "startup database=fdr"),
            .print (.couldNotRelayStartup (.other "invalid argument")),
            .startRelay, .waitDone, .closeClient,
            .print (.exitsWithError (.other "invalid argument"))]
      ∧ handleConnection Fixture.dogsWorldDialFails
        = [.next, .isStartup (some "startup database=fdr"),
            .readStartup (some "startup database=fdr"), .print .gotStartup, .print .param,
            .print (.dbname "fdr"), .lookupServer "fdr", .print (.serverAddr "10.0.0.7:5432"),
            .dial "tcp" "10.0.0.7:5432",
            .print (.couldNotConnect (.other "connection refused")),
            .sendServer (some "startup database=fdr"), .startRelay, .waitDone, .closeClient,
            .print (.exitsWithError (.other "invalid argument"))] :=
  ⟨by decide,
   dial_failure_still_relays Fixture.worldDialFails Fixture.mainTable Fixture.dogsWorldDialFails
     (.other "connection refused") (by decide) (fun _ _ => rfl) rfl (fun _ _ => rfl),
   by decide, by decide⟩

end Tools
